import Mathlib

/-!
Verification development for the nea-interpreter repository (Rust).

The repository's core under scrutiny here is the recursive-descent parser
(src/parser.rs), the error taxonomy and reporting (src/error.rs) and the
process entry points (src/main.rs).  The Rust code is shallowly embedded:

* `Token`, `Expr`, `Stmt`, `ErrorType` mirror the data definitions consumed
  and produced by src/parser.rs (the defining files token.rs / expr.rs /
  stmt.rs are not under src/, but every constructor and field is pinned down
  by its uses in parser.rs and by src/error.rs).  The Rust structs
  `Expr { line, expr_type }` / `Stmt { line, stmt_type }` wrap an enum in a
  struct carrying the line; here each constructor carries the `line` field
  directly (a pure reshaping, no information is added or dropped).
* Rust `f64` number payloads are never inspected by the parser (they are
  copied opaquely from token to AST), so the payload is modelled as `Int`;
  every claim treated here concerns parse structure only.
* The parser's mutable state (`current_index`, `current_line`) is threaded
  explicitly as `PState`; the token vector is a fixed parameter.
* Rust's recursion is modelled with an explicit fuel parameter that every
  call decrements; `PRes.fuelOut` marks fuel exhaustion and is proved
  unreachable for sufficient fuel.  The single place where the Rust code
  indexes the token vector unconditionally (`self.tokens[self.current_index]`
  inside `sync`, parser.rs line 56) is modelled as `SyncRes.panicked` when
  the index is out of bounds.
-/

namespace Nea

/-- Token kinds, as used by src/parser.rs (match arms and `check_and_consume`
argument lists) and the repository's tests. -/
inductive TokenType where
  | Eof | For | Func | If | Print | Return | Var | While | Break | Else
  | Identifier | Number | String_ | True | False | Null
  | LeftParen | RightParen | LeftCurly | RightCurly | LeftSquare | RightSquare
  | Comma | Colon | Semicolon | Equal | EqualEqual | BangEqual | Bang
  | Greater | Less | GreaterEqual | LessEqual
  | Plus | Minus | Star | Slash | Percent | And | Or
  deriving DecidableEq, Repr

/-- Literal payload of a token (token.rs `Literal`).  The Rust `Number`
variant holds an `f64`; the parser copies it opaquely into the AST, so it is
modelled as `Int` here. -/
inductive Literal where
  | number (v : Int)
  | string_ (s : String)
  | bool (b : Bool)
  | null
  deriving DecidableEq, Repr

/-- A lexed token: `Token { type_, lexeme, literal, line }`. -/
structure Token where
  type_ : TokenType
  lexeme : String
  literal : Literal
  line : Nat
  deriving DecidableEq, Repr

/-- Expression AST.  Rust: `struct Expr { line, expr_type: ExprType }` with
`ExprType` the tagged union; here each constructor carries the wrapping
struct's `line` as its first field.  Dictionary `KeyValue { key, value }`
pairs are modelled as `Expr × Expr`. -/
inductive Expr where
  | literal (line : Nat) (value : Literal)
  | grouping (line : Nat) (expression : Expr)
  | unary (line : Nat) (operator : Token) (right : Expr)
  | binary (line : Nat) (left : Expr) (operator : Token) (right : Expr)
  | assignment (line : Nat) (target : Expr) (value : Expr)
  | variable_ (line : Nat) (name : String)
  | call (line : Nat) (callee : Expr) (arguments : List Expr)
  | element (line : Nat) (array : Expr) (index : Expr)
  | array (line : Nat) (elements : List Expr)
  | dictionary (line : Nat) (elements : List (Expr × Expr))
  deriving Repr

/-- Statement AST.  Rust: `struct Stmt { line, stmt_type: StmtType }`;
as with `Expr`, each constructor carries the struct's `line` first. -/
inductive Stmt where
  | expression (line : Nat) (expression : Expr)
  | print (line : Nat) (expression : Expr)
  | varDecl (line : Nat) (name : String) (value : Expr)
  | block (line : Nat) (body : List Stmt)
  | if_ (line : Nat) (condition : Expr) (then_body : Stmt) (else_body : Option Stmt)
  | while_ (line : Nat) (condition : Expr) (body : Stmt)
  | function (line : Nat) (name : String) (parameters : List String) (body : Stmt)
  | return_ (line : Nat) (expression : Option Expr)
  | break_ (line : Nat)
  deriving Repr

/-- Modelled from the spec: the runtime `Value` type lives in value.rs, which
is not under src/.  Only the variant tags and a textual rendering reach the
claims treated here (as operands inside error messages), so container
payloads are omitted. -/
inductive Value where
  | number (n : Int)
  | bool (b : Bool)
  | string_ (s : String)
  | null
  | array
  | dictionary
  | function
  deriving DecidableEq, Repr

/-- Error taxonomy, transcribed constructor by constructor from
src/error.rs `ErrorType`. -/
inductive ErrorType where
  | UnexpectedCharacter (character : Char) (line : Nat)
  | UnterminatedString
  | ExpectedCharacter (expected : Char) (line : Nat)
  | ExpectedExpression (line : Nat)
  | ExpectedFunctionName (line : Nat)
  | ExpectedParameterName (line : Nat)
  | ExpectedVariableName (line : Nat)
  | ExpectedSemicolonAfterInit (line : Nat)
  | ExpectedSemicolonAfterCondition (line : Nat)
  | ExpectedParenAfterIncrement (line : Nat)
  | ExpectedColonAfterKey (line : Nat)
  | NameError (name : String) (line : Nat)
  | NotIndexable (line : Nat)
  | OutOfBoundsIndex (index : Nat) (line : Nat)
  | InsertNonStringIntoString (line : Nat)
  | InvalidAssignmentTarget (line : Nat)
  | ExpectedType (expected : String) (got : String) (line : Nat)
  | NonNaturalIndex (got : Value) (line : Nat)
  | NonNumberIndex (got : String) (line : Nat)
  | BinaryTypeError (expected : String) (got_left : String) (got_right : String) (line : Nat)
  | DivideByZero (line : Nat)
  | IfConditionNotBoolean (line : Nat)
  | LoopConditionNotBoolean (line : Nat)
  | CannotCallName (line : Nat)
  | ArgParamNumberMismatch (arg_number : Nat) (param_number : Nat) (line : Nat)
  | CannotConvertToNumber (line : Nat)
  | CannotHashFunction (line : Nat)
  | CannotHashDictionary (line : Nat)
  | KeyError (key : Value) (line : Nat)
  | ThrownBreak (line : Nat)
  | ThrownReturn (value : Value) (line : Nat)
  deriving DecidableEq, Repr

/-- Parser cursor state: `current_index` and `current_line` of
`struct Parser` (the token vector itself is immutable and passed
separately). -/
structure PState where
  i : Nat
  line : Nat
  deriving DecidableEq, Repr

/-- Result of one parser routine: fuel exhaustion (an artefact of the fuel
embedding, proved unreachable for sufficient fuel), `Err(error)` with the
mutated cursor state, or `Ok(value)` with the new cursor state. -/
inductive PRes (α : Type) where
  | fuelOut
  | err (error : ErrorType) (s : PState)
  | ok (a : α) (s : PState)
  deriving Repr

/-- Result of `Parser::sync`: `panicked` models the unconditional index
`self.tokens[self.current_index]` going out of bounds. -/
inductive SyncRes where
  | fuelOut
  | panicked
  | ok (s : PState)
  deriving DecidableEq, Repr

/-- Result of `Parser::parse`. -/
inductive ParseRes where
  | fuelOut
  | panicked
  | errs (errors : List ErrorType)
  | stmts (statements : List Stmt)
  deriving Repr

section Parsing

variable (tokens : List Token)

/-- parser.rs `check_and_consume`: return the next token and advance
(updating `current_line`) if its type is expected; `None` otherwise or at
end of input. -/
def check_and_consume (expected_types : List TokenType) (s : PState) :
    Option (Token × PState) :=
  match tokens[s.i]? with
  | some t =>
      if t.type_ ∈ expected_types then some (t, ⟨s.i + 1, t.line⟩) else none
  | none => none

/-- parser.rs `check_next`: does the next token have one of the expected
types?  `false` at end of input. -/
def check_next (expected_types : List TokenType) (s : PState) : Bool :=
  match tokens[s.i]? with
  | some t => decide (t.type_ ∈ expected_types)
  | none => false

/-- parser.rs `expect`: consume a token of the given type or fail with
`ExpectedCharacter`. -/
def expect (expected_type : TokenType) (expected_char : Char) (s : PState) :
    PRes Unit :=
  match check_and_consume tokens [expected_type] s with
  | none => .err (.ExpectedCharacter expected_char s.line) s
  | some (_, s') => .ok () s'

/-- The statement-start token set parser.rs `sync` scans for. -/
def syncSet : List TokenType :=
  [.Eof, .For, .Func, .If, .Print, .Return, .Var, .While]

/-- parser.rs `sync`: advance until the next token is in `syncSet`.  Each
step increments `current_index` and then reads
`self.tokens[self.current_index].line` unconditionally — `panicked` models
that read going out of bounds. -/
def sync : Nat → PState → SyncRes
  | 0, _ => .fuelOut
  | f+1, s =>
    if check_next tokens syncSet s then .ok s
    else
      match tokens[s.i + 1]? with
      | none => .panicked
      | some t => sync f ⟨s.i + 1, t.line⟩

/-- The `while let Some(operator) = check_and_consume(ops)` loops shared by
`or`/`and`/`equality`/`comparison`/`add_sub`/`mult_div_mod`: fold further
operands onto `ex` left-associatively.  `sub` is the next-tighter grammar
rule (already applied to its fuel). -/
def leftChain (ops : List TokenType) (sub : PState → PRes Expr) :
    Nat → Expr → PState → PRes Expr
  | 0, _, _ => .fuelOut
  | f+1, ex, s =>
    match check_and_consume tokens ops s with
    | none => .ok ex s
    | some (operator, s₁) =>
      match sub s₁ with
      | .fuelOut => .fuelOut
      | .err er s' => .err er s'
      | .ok right s₂ => leftChain ops sub f (.binary s₂.line ex operator right) s₂

/-- The `loop { push(expression?); if no comma break }` pattern used for
array literal elements (parser.rs `primary`) and call arguments
(parser.rs `call`). -/
def sepExprs (sub : PState → PRes Expr) : Nat → PState → PRes (List Expr)
  | 0, _ => .fuelOut
  | f+1, s =>
    match sub s with
    | .fuelOut => .fuelOut
    | .err er s' => .err er s'
    | .ok ex s₁ =>
      match check_and_consume tokens [.Comma] s₁ with
      | none => .ok [ex] s₁
      | some (_, s₂) =>
        match sepExprs sub f s₂ with
        | .fuelOut => .fuelOut
        | .err er s' => .err er s'
        | .ok rest s₃ => .ok (ex :: rest) s₃

/-- The dictionary-literal `loop` of parser.rs `primary`: key, `:`, value,
separated by commas. -/
def dictElems (sub : PState → PRes Expr) : Nat → PState → PRes (List (Expr × Expr))
  | 0, _ => .fuelOut
  | f+1, s =>
    match sub s with
    | .fuelOut => .fuelOut
    | .err er s' => .err er s'
    | .ok key s₁ =>
      match check_and_consume tokens [.Colon] s₁ with
      | none => .err (.ExpectedColonAfterKey s₁.line) s₁
      | some (_, s₂) =>
        match sub s₂ with
        | .fuelOut => .fuelOut
        | .err er s' => .err er s'
        | .ok value s₃ =>
          match check_and_consume tokens [.Comma] s₃ with
          | none => .ok [(key, value)] s₃
          | some (_, s₄) =>
            match dictElems sub f s₄ with
            | .fuelOut => .fuelOut
            | .err er s' => .err er s'
            | .ok rest s₅ => .ok ((key, value) :: rest) s₅

/-- The `while !check_next(&[RightCurly, Eof]) { statements.push(...) }`
loop of parser.rs `block` (and the analogous `(` `)` argument guard). -/
def stmtsUntil (stop : List TokenType) (sub : PState → PRes Stmt) :
    Nat → PState → PRes (List Stmt)
  | 0, _ => .fuelOut
  | f+1, s =>
    if check_next tokens stop s then .ok [] s
    else
      match sub s with
      | .fuelOut => .fuelOut
      | .err er s' => .err er s'
      | .ok st s₁ =>
        match stmtsUntil stop sub f s₁ with
        | .fuelOut => .fuelOut
        | .err er s' => .err er s'
        | .ok rest s₂ => .ok (st :: rest) s₂

/-- The parameter-list `loop` of parser.rs `function`: identifiers separated
by commas, failing with `ExpectedParameterName` on anything else. -/
def paramsList : Nat → PState → PRes (List String)
  | 0, _ => .fuelOut
  | f+1, s =>
    match check_and_consume tokens [.Identifier] s with
    | none => .err (.ExpectedParameterName s.line) s
    | some (p, s₁) =>
      match check_and_consume tokens [.Comma] s₁ with
      | none => .ok [p.lexeme] s₁
      | some (_, s₂) =>
        match paramsList f s₂ with
        | .fuelOut => .fuelOut
        | .err er s' => .err er s'
        | .ok rest s₃ => .ok (p.lexeme :: rest) s₃

/-- The `while check_and_consume([LeftSquare])` loop of parser.rs `element`.
Note the Rust code builds the `Element` node (reading `current_line`)
before expecting the closing `]`. -/
def elemChain (sub : PState → PRes Expr) : Nat → Expr → PState → PRes Expr
  | 0, _, _ => .fuelOut
  | f+1, ex, s =>
    match check_and_consume tokens [.LeftSquare] s with
    | none => .ok ex s
    | some (_, s₁) =>
      match sub s₁ with
      | .fuelOut => .fuelOut
      | .err er s' => .err er s'
      | .ok index s₂ =>
        match expect tokens .RightSquare ']' s₂ with
        | .fuelOut => .fuelOut
        | .err er s' => .err er s'
        | .ok _ s₃ => elemChain sub f (.element s₂.line ex index) s₃

/-- The `while check_and_consume([LeftParen])` loop of parser.rs `call`. -/
def callChain (sub : PState → PRes Expr) : Nat → Expr → PState → PRes Expr
  | 0, _, _ => .fuelOut
  | f+1, ex, s =>
    match check_and_consume tokens [.LeftParen] s with
    | none => .ok ex s
    | some (_, s₁) =>
      match
        (if check_next tokens [.RightParen] s₁ then .ok [] s₁
         else sepExprs tokens sub f s₁ : PRes (List Expr)) with
      | .fuelOut => .fuelOut
      | .err er s' => .err er s'
      | .ok arguments s₂ =>
        match expect tokens .RightParen ')' s₂ with
        | .fuelOut => .fuelOut
        | .err er s' => .err er s'
        | .ok _ s₃ => callChain sub f (.call s₃.line ex arguments) s₃

/-- The package of all mutually recursive parsing routines of
`impl Parser`, at one fixed fuel level.  Rust's mutual recursion is modelled
as a fuel-indexed family (`funsAt`): level `f+1` bodies call level-`f`
routines, mirroring exactly how every nested call in parser.rs works on the
same token vector and threaded cursor state. -/
structure Funs where
  primaryF : PState → PRes Expr
  callF : PState → PRes Expr
  elementF : PState → PRes Expr
  unaryF : PState → PRes Expr
  multDivModF : PState → PRes Expr
  addSubF : PState → PRes Expr
  comparisonF : PState → PRes Expr
  equalityF : PState → PRes Expr
  andF : PState → PRes Expr
  orF : PState → PRes Expr
  assignmentF : PState → PRes Expr
  expressionF : PState → PRes Expr
  statementF : PState → PRes Stmt
  blockF : PState → PRes Stmt
  forF : PState → PRes Stmt
  functionF : PState → PRes Stmt
  ifF : PState → PRes Stmt
  elseBodyF : PState → PRes Stmt
  printF : PState → PRes Stmt
  returnF : PState → PRes Stmt
  varF : PState → PRes Stmt
  whileF : PState → PRes Stmt
  driverF : PState → List Stmt → List ErrorType → ParseRes

/-- Fuel level 0: every routine reports fuel exhaustion. -/
def botFuns : Funs where
  primaryF _ := .fuelOut
  callF _ := .fuelOut
  elementF _ := .fuelOut
  unaryF _ := .fuelOut
  multDivModF _ := .fuelOut
  addSubF _ := .fuelOut
  comparisonF _ := .fuelOut
  equalityF _ := .fuelOut
  andF _ := .fuelOut
  orF _ := .fuelOut
  assignmentF _ := .fuelOut
  expressionF _ := .fuelOut
  statementF _ := .fuelOut
  blockF _ := .fuelOut
  forF _ := .fuelOut
  functionF _ := .fuelOut
  ifF _ := .fuelOut
  elseBodyF _ := .fuelOut
  printF _ := .fuelOut
  returnF _ := .fuelOut
  varF _ := .fuelOut
  whileF _ := .fuelOut
  driverF _ _ _ := .fuelOut

/-- One fuel level of `impl Parser`: each field is the body of the
corresponding parser.rs routine, with every nested parser call taken from
`prev` (the next-lower fuel level). -/
def funsStep (f : Nat) (prev : Funs) : Funs where
  /- parser.rs `primary`. -/
  primaryF s :=
    match check_and_consume tokens [.True] s with
    | some (_, s') => .ok (.literal s'.line (.bool true)) s'
    | none =>
    match check_and_consume tokens [.False] s with
    | some (_, s') => .ok (.literal s'.line (.bool false)) s'
    | none =>
    match check_and_consume tokens [.Null] s with
    | some (_, s') => .ok (.literal s'.line .null) s'
    | none =>
    match check_and_consume tokens [.String_, .Number] s with
    | some (t, s') => .ok (.literal s'.line t.literal) s'
    | none =>
    match check_and_consume tokens [.LeftParen] s with
    | some (_, s₁) =>
      (match prev.expressionF s₁ with
       | .fuelOut => .fuelOut
       | .err er s' => .err er s'
       | .ok ex s₂ =>
         match expect tokens .RightParen ')' s₂ with
         | .fuelOut => .fuelOut
         | .err er s' => .err er s'
         | .ok _ s₃ => .ok (.grouping s₃.line ex) s₃)
    | none =>
    match check_and_consume tokens [.LeftSquare] s with
    | some (_, s₁) =>
      (match
         (if check_next tokens [.RightSquare] s₁ then .ok [] s₁
          else sepExprs tokens prev.expressionF f s₁ : PRes (List Expr)) with
       | .fuelOut => .fuelOut
       | .err er s' => .err er s'
       | .ok elements s₂ =>
         match expect tokens .RightSquare ']' s₂ with
         | .fuelOut => .fuelOut
         | .err er s' => .err er s'
         | .ok _ s₃ => .ok (.array s₃.line elements) s₃)
    | none =>
    match check_and_consume tokens [.LeftCurly] s with
    | some (_, s₁) =>
      (match
         (if check_next tokens [.RightCurly] s₁ then .ok [] s₁
          else dictElems tokens prev.expressionF f s₁ : PRes (List (Expr × Expr))) with
       | .fuelOut => .fuelOut
       | .err er s' => .err er s'
       | .ok elements s₂ =>
         match expect tokens .RightCurly '}' s₂ with
         | .fuelOut => .fuelOut
         | .err er s' => .err er s'
         | .ok _ s₃ => .ok (.dictionary s₃.line elements) s₃)
    | none =>
    match check_and_consume tokens [.Identifier] s with
    | some (t, s') => .ok (.variable_ s'.line t.lexeme) s'
    | none => .err (.ExpectedExpression s.line) s
  /- parser.rs `call`. -/
  callF s :=
    match prev.primaryF s with
    | .fuelOut => .fuelOut
    | .err er s' => .err er s'
    | .ok ex s₁ => callChain tokens prev.expressionF f ex s₁
  /- parser.rs `element`. -/
  elementF s :=
    match prev.callF s with
    | .fuelOut => .fuelOut
    | .err er s' => .err er s'
    | .ok ex s₁ => elemChain tokens prev.expressionF f ex s₁
  /- parser.rs `unary`. -/
  unaryF s :=
    match check_and_consume tokens [.Bang, .Minus] s with
    | some (operator, s₁) =>
      (match prev.unaryF s₁ with
       | .fuelOut => .fuelOut
       | .err er s' => .err er s'
       | .ok right s₂ => .ok (.unary s₂.line operator right) s₂)
    | none => prev.elementF s
  /- parser.rs `mult_div_mod`. -/
  multDivModF s :=
    match prev.unaryF s with
    | .fuelOut => .fuelOut
    | .err er s' => .err er s'
    | .ok ex s₁ => leftChain tokens [.Star, .Slash, .Percent] prev.unaryF f ex s₁
  /- parser.rs `add_sub`. -/
  addSubF s :=
    match prev.multDivModF s with
    | .fuelOut => .fuelOut
    | .err er s' => .err er s'
    | .ok ex s₁ => leftChain tokens [.Plus, .Minus] prev.multDivModF f ex s₁
  /- parser.rs `comparison`. -/
  comparisonF s :=
    match prev.addSubF s with
    | .fuelOut => .fuelOut
    | .err er s' => .err er s'
    | .ok ex s₁ =>
      leftChain tokens [.Greater, .Less, .GreaterEqual, .LessEqual] prev.addSubF f ex s₁
  /- parser.rs `equality`. -/
  equalityF s :=
    match prev.comparisonF s with
    | .fuelOut => .fuelOut
    | .err er s' => .err er s'
    | .ok ex s₁ => leftChain tokens [.EqualEqual, .BangEqual] prev.comparisonF f ex s₁
  /- parser.rs `and`. -/
  andF s :=
    match prev.equalityF s with
    | .fuelOut => .fuelOut
    | .err er s' => .err er s'
    | .ok ex s₁ => leftChain tokens [.And] prev.equalityF f ex s₁
  /- parser.rs `or`. -/
  orF s :=
    match prev.andF s with
    | .fuelOut => .fuelOut
    | .err er s' => .err er s'
    | .ok ex s₁ => leftChain tokens [.Or] prev.andF f ex s₁
  /- parser.rs `assignment`: parse an `or` expression; if `=` follows,
  recurse (right-associatively) for the value.  Any expression is accepted
  as the target — its validity is checked at evaluation time (the Rust code
  carries a commented-out parse-time check). -/
  assignmentF s :=
    match prev.orF s with
    | .fuelOut => .fuelOut
    | .err er s' => .err er s'
    | .ok ex s₁ =>
      match check_and_consume tokens [.Equal] s₁ with
      | none => .ok ex s₁
      | some (_, s₂) =>
        match prev.assignmentF s₂ with
        | .fuelOut => .fuelOut
        | .err er s' => .err er s'
        | .ok value s₃ => .ok (.assignment s₃.line ex value) s₃
  /- parser.rs `expression`. -/
  expressionF s := prev.assignmentF s
  /- parser.rs `statement`. -/
  statementF s :=
    match check_and_consume tokens [.Break] s with
    | some (_, s') => .ok (.break_ s'.line) s'
    | none =>
    match check_and_consume tokens [.For] s with
    | some (_, s') => prev.forF s'
    | none =>
    match check_and_consume tokens [.Func] s with
    | some (_, s') => prev.functionF s'
    | none =>
    match check_and_consume tokens [.If] s with
    | some (_, s') => prev.ifF s'
    | none =>
    match check_and_consume tokens [.Print] s with
    | some (_, s') => prev.printF s'
    | none =>
    match check_and_consume tokens [.Return] s with
    | some (_, s') => prev.returnF s'
    | none =>
    match check_and_consume tokens [.Var] s with
    | some (_, s') => prev.varF s'
    | none =>
    match check_and_consume tokens [.While] s with
    | some (_, s') => prev.whileF s'
    | none =>
      match prev.expressionF s with
      | .fuelOut => .fuelOut
      | .err er s' => .err er s'
      | .ok ex s' => .ok (.expression s.line ex) s'
  /- parser.rs `block`.  The Rust struct literal evaluates
  `line: self.current_line` after the closing brace is consumed. -/
  blockF s :=
    match expect tokens .LeftCurly '{' s with
    | .fuelOut => .fuelOut
    | .err er s' => .err er s'
    | .ok _ s₁ =>
      match stmtsUntil tokens [.RightCurly, .Eof] prev.statementF f s₁ with
      | .fuelOut => .fuelOut
      | .err er s' => .err er s'
      | .ok body s₂ =>
        match expect tokens .RightCurly '}' s₂ with
        | .fuelOut => .fuelOut
        | .err er s' => .err er s'
        | .ok _ s₃ => .ok (.block s₃.line body) s₃
  /- parser.rs `for_`: parse `( init? ; cond? ; inc? )` and the body block,
  then desugar.  A missing condition becomes the literal `true`; the
  generated `while` body wraps the `for` body block and the increment in a
  fresh block; an initialiser, when present, wraps everything in one more
  block — otherwise the bare `while` statement itself is returned. -/
  forF s :=
    match expect tokens .LeftParen '(' s with
    | .fuelOut => .fuelOut
    | .err er s' => .err er s'
    | .ok _ s₁ =>
      match
        (if check_next tokens [.Semicolon] s₁ then .ok none s₁
         else
           match prev.statementF s₁ with
           | .fuelOut => .fuelOut
           | .err er s' => .err er s'
           | .ok st s' => .ok (some st) s' : PRes (Option Stmt)) with
      | .fuelOut => .fuelOut
      | .err er s' => .err er s'
      | .ok initialiser s₂ =>
        match check_and_consume tokens [.Semicolon] s₂ with
        | none => .err (.ExpectedSemicolonAfterInit s₂.line) s₂
        | some (_, s₃) =>
          match
            (if check_next tokens [.Semicolon] s₃ then
               .ok (.literal s₃.line (.bool true)) s₃
             else prev.expressionF s₃ : PRes Expr) with
          | .fuelOut => .fuelOut
          | .err er s' => .err er s'
          | .ok condition s₄ =>
            match check_and_consume tokens [.Semicolon] s₄ with
            | none => .err (.ExpectedSemicolonAfterCondition s₄.line) s₄
            | some (_, s₅) =>
              match
                (if check_next tokens [.RightParen] s₅ then .ok none s₅
                 else
                   match prev.statementF s₅ with
                   | .fuelOut => .fuelOut
                   | .err er s' => .err er s'
                   | .ok st s' => .ok (some st) s' : PRes (Option Stmt)) with
              | .fuelOut => .fuelOut
              | .err er s' => .err er s'
              | .ok increment s₆ =>
                match check_and_consume tokens [.RightParen] s₆ with
                | none => .err (.ExpectedParenAfterIncrement s₆.line) s₆
                | some (_, s₇) =>
                  match prev.blockF s₇ with
                  | .fuelOut => .fuelOut
                  | .err er s' => .err er s'
                  | .ok for_body s₈ =>
                    let while_body : Stmt :=
                      .block s₈.line
                        (match increment with
                         | none => [for_body]
                         | some inc => [for_body, inc])
                    let while_loop : Stmt := .while_ s₈.line condition while_body
                    match initialiser with
                    | some init => .ok (.block s₈.line [init, while_loop]) s₈
                    | none => .ok while_loop s₈
  /- parser.rs `function`. -/
  functionF s :=
    match check_and_consume tokens [.Identifier] s with
    | none => .err (.ExpectedFunctionName s.line) s
    | some (identifier, s₁) =>
      match expect tokens .LeftParen '(' s₁ with
      | .fuelOut => .fuelOut
      | .err er s' => .err er s'
      | .ok _ s₂ =>
        match
          (if check_next tokens [.RightParen] s₂ then .ok [] s₂
           else paramsList tokens f s₂ : PRes (List String)) with
        | .fuelOut => .fuelOut
        | .err er s' => .err er s'
        | .ok parameters s₃ =>
          match expect tokens .RightParen ')' s₃ with
          | .fuelOut => .fuelOut
          | .err er s' => .err er s'
          | .ok _ s₄ =>
            match prev.blockF s₄ with
            | .fuelOut => .fuelOut
            | .err er s' => .err er s'
            | .ok body s₅ =>
              .ok (.function s₅.line identifier.lexeme parameters body) s₅
  /- parser.rs `if_`. -/
  ifF s :=
    match expect tokens .LeftParen '(' s with
    | .fuelOut => .fuelOut
    | .err er s' => .err er s'
    | .ok _ s₁ =>
      match prev.expressionF s₁ with
      | .fuelOut => .fuelOut
      | .err er s' => .err er s'
      | .ok condition s₂ =>
        match expect tokens .RightParen ')' s₂ with
        | .fuelOut => .fuelOut
        | .err er s' => .err er s'
        | .ok _ s₃ =>
          match prev.blockF s₃ with
          | .fuelOut => .fuelOut
          | .err er s' => .err er s'
          | .ok then_body s₄ =>
            match check_and_consume tokens [.Else] s₄ with
            | some (_, s₅) =>
              (match prev.elseBodyF s₅ with
               | .fuelOut => .fuelOut
               | .err er s' => .err er s'
               | .ok eb s₆ => .ok (.if_ s₆.line condition then_body (some eb)) s₆)
            | none => .ok (.if_ s₄.line condition then_body none) s₄
  /- parser.rs `else_body`: an `if` makes an `else if`, otherwise a block. -/
  elseBodyF s :=
    match check_and_consume tokens [.If] s with
    | some (_, s₁) => prev.ifF s₁
    | none => prev.blockF s
  /- parser.rs `print`.  The Rust struct literal evaluates
  `line: self.current_line` before parsing the expression, so the printed
  statement's line is the entry line. -/
  printF s :=
    match prev.expressionF s with
    | .fuelOut => .fuelOut
    | .err er s' => .err er s'
    | .ok ex s' => .ok (.print s.line ex) s'
  /- parser.rs `return_`: a failed expression parse whose error is
  `ExpectedExpression` is swallowed and reinterpreted as a no-value return;
  any other error propagates. -/
  returnF s :=
    match prev.expressionF s with
    | .fuelOut => .fuelOut
    | .ok ex s' => .ok (.return_ s'.line (some ex)) s'
    | .err (.ExpectedExpression _) s' => .ok (.return_ s'.line none) s'
    | .err er s' => .err er s'
  /- parser.rs `var`. -/
  varF s :=
    match check_and_consume tokens [.Identifier] s with
    | none => .err (.ExpectedVariableName s.line) s
    | some (identifier, s₁) =>
      match expect tokens .Equal '=' s₁ with
      | .fuelOut => .fuelOut
      | .err er s' => .err er s'
      | .ok _ s₂ =>
        match prev.expressionF s₂ with
        | .fuelOut => .fuelOut
        | .err er s' => .err er s'
        | .ok value s₃ => .ok (.varDecl s₃.line identifier.lexeme value) s₃
  /- parser.rs `while_`. -/
  whileF s :=
    match expect tokens .LeftParen '(' s with
    | .fuelOut => .fuelOut
    | .err er s' => .err er s'
    | .ok _ s₁ =>
      match prev.expressionF s₁ with
      | .fuelOut => .fuelOut
      | .err er s' => .err er s'
      | .ok condition s₂ =>
        match expect tokens .RightParen ')' s₂ with
        | .fuelOut => .fuelOut
        | .err er s' => .err er s'
        | .ok _ s₃ =>
          match prev.blockF s₃ with
          | .fuelOut => .fuelOut
          | .err er s' => .err er s'
          | .ok body s₄ => .ok (.while_ s₄.line condition body) s₄
  /- The `while !check_next([Eof])` loop of parser.rs `parse`: parse
  statements, pushing successes onto `statements` and errors onto `errors`,
  re-synchronising after each error; at `Eof` return `Ok(statements)` when
  no error was collected and `Err(errors)` otherwise. -/
  driverF s statements errors :=
    if check_next tokens [.Eof] s then
      if errors.isEmpty then .stmts statements else .errs errors
    else
      match prev.statementF s with
      | .fuelOut => .fuelOut
      | .ok st s₁ => prev.driverF s₁ (statements ++ [st]) errors
      | .err er s₁ =>
        match sync tokens f s₁ with
        | .fuelOut => .fuelOut
        | .panicked => .panicked
        | .ok s₂ => prev.driverF s₂ statements (errors ++ [er])

/-- The family of parser routines, by fuel level. -/
def funsAt : Nat → Funs
  | 0 => botFuns
  | f+1 => funsStep tokens f (funsAt f)

/-- parser.rs `primary`, at fuel `f`. -/
def primary (f : Nat) : PState → PRes Expr := (funsAt tokens f).primaryF

/-- parser.rs `call`, at fuel `f`. -/
def call (f : Nat) : PState → PRes Expr := (funsAt tokens f).callF

/-- parser.rs `element`, at fuel `f`. -/
def element (f : Nat) : PState → PRes Expr := (funsAt tokens f).elementF

/-- parser.rs `unary`, at fuel `f`. -/
def unary (f : Nat) : PState → PRes Expr := (funsAt tokens f).unaryF

/-- parser.rs `mult_div_mod`, at fuel `f`. -/
def mult_div_mod (f : Nat) : PState → PRes Expr := (funsAt tokens f).multDivModF

/-- parser.rs `add_sub`, at fuel `f`. -/
def add_sub (f : Nat) : PState → PRes Expr := (funsAt tokens f).addSubF

/-- parser.rs `comparison`, at fuel `f`. -/
def comparison (f : Nat) : PState → PRes Expr := (funsAt tokens f).comparisonF

/-- parser.rs `equality`, at fuel `f`. -/
def equality (f : Nat) : PState → PRes Expr := (funsAt tokens f).equalityF

/-- parser.rs `and`, at fuel `f`. -/
def and_ (f : Nat) : PState → PRes Expr := (funsAt tokens f).andF

/-- parser.rs `or`, at fuel `f`. -/
def or_ (f : Nat) : PState → PRes Expr := (funsAt tokens f).orF

/-- parser.rs `assignment`, at fuel `f`. -/
def assignment (f : Nat) : PState → PRes Expr := (funsAt tokens f).assignmentF

/-- parser.rs `expression`, at fuel `f`. -/
def expression (f : Nat) : PState → PRes Expr := (funsAt tokens f).expressionF

/-- parser.rs `statement`, at fuel `f`. -/
def statement (f : Nat) : PState → PRes Stmt := (funsAt tokens f).statementF

/-- parser.rs `block`, at fuel `f`. -/
def block (f : Nat) : PState → PRes Stmt := (funsAt tokens f).blockF

/-- parser.rs `for_`, at fuel `f`. -/
def for_ (f : Nat) : PState → PRes Stmt := (funsAt tokens f).forF

/-- parser.rs `function`, at fuel `f`. -/
def function (f : Nat) : PState → PRes Stmt := (funsAt tokens f).functionF

/-- parser.rs `if_`, at fuel `f`. -/
def if_ (f : Nat) : PState → PRes Stmt := (funsAt tokens f).ifF

/-- parser.rs `else_body`, at fuel `f`. -/
def else_body (f : Nat) : PState → PRes Stmt := (funsAt tokens f).elseBodyF

/-- parser.rs `print`, at fuel `f`. -/
def print (f : Nat) : PState → PRes Stmt := (funsAt tokens f).printF

/-- parser.rs `return_`, at fuel `f`. -/
def return_ (f : Nat) : PState → PRes Stmt := (funsAt tokens f).returnF

/-- parser.rs `var`, at fuel `f`. -/
def var (f : Nat) : PState → PRes Stmt := (funsAt tokens f).varF

/-- parser.rs `while_`, at fuel `f`. -/
def while_ (f : Nat) : PState → PRes Stmt := (funsAt tokens f).whileF

/-- The statement loop of parser.rs `parse`, at fuel `f`. -/
def parseDriver (f : Nat) : PState → List Stmt → List ErrorType → ParseRes :=
  (funsAt tokens f).driverF

/-- parser.rs `parse`: run the statement loop from index 0, line 1.  (The
Rust code also prints the collected errors via `error::report_errors`
before returning `Err`; printing is modelled separately below.) -/
def parse (fuel : Nat) : ParseRes :=
  parseDriver tokens fuel ⟨0, 1⟩ [] []

end Parsing


/-! ## Error reporting (src/error.rs) -/

/-- Modelled from the spec: the `Display` rendering of runtime values lives
in value.rs, which is not under src/.  Spec §4.3 fixes: numbers without a
language-specific suffix, booleans as `true`/`false`, `Null` as a fixed
literal, strings as their raw characters; container renderings are not
needed by any claim here and are placeholders. -/
def valueDisplay : Value → String
  | .number n => toString n
  | .bool b => if b then "true" else "false"
  | .string_ s => s
  | .null => "null"
  | .array => "[...]"
  | .dictionary => "{...}"
  | .function => "<function>"

/-- error.rs `print_report`: the single human-readable line printed for one
error, transcribed arm by arm. -/
def print_report : ErrorType → String
  | .UnexpectedCharacter character line =>
      s!"Line {line}: unexpected character `{character}`."
  | .UnterminatedString =>
      "A string was never closed by the end of the program."
  | .ExpectedCharacter expected line =>
      s!"Line {line}: expected character `{expected}`"
  | .ExpectedExpression line =>
      s!"Line {line}: expected expression."
  | .ExpectedFunctionName line =>
      s!"Line {line}: expected function name. Make sure it is not a keyword."
  | .ExpectedParameterName line =>
      s!"Line {line}: expected parameter name in function declaration."
  | .ExpectedVariableName line =>
      s!"Line {line}: expected variable name. Make sure it is not a keyword."
  | .ExpectedSemicolonAfterInit line =>
      s!"Line {line}: expected `;` after initialising statement in `for` loop."
  | .ExpectedSemicolonAfterCondition line =>
      s!"Line {line}: expected `;` after condition in `for` loop."
  | .ExpectedParenAfterIncrement line =>
      s!"Line {line}: expected `)` after increment statement in `for` loop."
  | .ExpectedColonAfterKey line =>
      s!"Line {line}: expected colon after dictionary key."
  | .NameError name line =>
      s!"Line {line}: `{name}` is not defined."
  | .NotIndexable line =>
      s!"Line {line}: the value is not indexable."
  | .OutOfBoundsIndex index line =>
      s!"Line {line}: index `{index}` is out of bounds."
  | .InsertNonStringIntoString line =>
      s!"Line {line}: attempted to insert a non-string into a string."
  | .InvalidAssignmentTarget line =>
      s!"Line {line}: invalid assignment target. Make sure you are not assigning to a literal."
  | .ExpectedType expected got line =>
      s!"Line {line}: expected type {expected}; instead got type {got}."
  | .NonNaturalIndex got line =>
      let g := valueDisplay got
      s!"Line {line}: index evaluated to {g}, which is not a positive integer."
  | .NonNumberIndex got line =>
      s!"Line {line}: index evaluated to a {got}, which is not a positive integer."
  | .BinaryTypeError expected got_left got_right line =>
      s!"Line {line}: this operation requires both sides' types to be {expected}. Instead, got {got_left} and {got_right} respectively."
  | .DivideByZero line =>
      s!"Line {line}: divisor is 0."
  | .IfConditionNotBoolean line =>
      s!"Line {line}: the `if` condition did not evaluate to a Boolean value."
  | .LoopConditionNotBoolean line =>
      s!"Line {line}: the condition of the loop did not evaluate to a Boolean value."
  | .CannotCallName line =>
      s!"Line {line}: cannot call name as a function."
  | .ArgParamNumberMismatch arg_number param_number line =>
      s!"Line {line}: attempted to call function with {arg_number} argument(s), but function accepts {param_number}."
  | .CannotConvertToNumber line =>
      s!"Line {line}: could not convert to a number."
  | .CannotHashFunction line =>
      s!"Line {line}: cannot hash function (functions cannot be used as keys in dictionary entries)."
  | .CannotHashDictionary line =>
      s!"Line {line}: cannot hash dictionary (dictionaries cannot be used as keys in dictionary entries)."
  | .KeyError key line =>
      let k := valueDisplay key
      s!"Line {line}: key `{k}` does not exist in the dictionary."
  | .ThrownBreak line =>
      s!"Line {line}: `break` has to be used within a loop."
  | .ThrownReturn _ line =>
      s!"Line {line}: `return` has to be used within a function."

/-- error.rs `report_errors`: one fixed banner line, then one
`print_report` line per collected error, in order. -/
def report_errors (errors : List ErrorType) : List String :=
  "An error has occurred." :: errors.map print_report

/-- The source line recorded in an error, if the variant stores one:
every error.rs variant carries a `line` field except `UnterminatedString`. -/
def errorLine : ErrorType → Option Nat
  | .UnexpectedCharacter _ line => some line
  | .UnterminatedString => none
  | .ExpectedCharacter _ line => some line
  | .ExpectedExpression line => some line
  | .ExpectedFunctionName line => some line
  | .ExpectedParameterName line => some line
  | .ExpectedVariableName line => some line
  | .ExpectedSemicolonAfterInit line => some line
  | .ExpectedSemicolonAfterCondition line => some line
  | .ExpectedParenAfterIncrement line => some line
  | .ExpectedColonAfterKey line => some line
  | .NameError _ line => some line
  | .NotIndexable line => some line
  | .OutOfBoundsIndex _ line => some line
  | .InsertNonStringIntoString line => some line
  | .InvalidAssignmentTarget line => some line
  | .ExpectedType _ _ line => some line
  | .NonNaturalIndex _ line => some line
  | .NonNumberIndex _ line => some line
  | .BinaryTypeError _ _ _ line => some line
  | .DivideByZero line => some line
  | .IfConditionNotBoolean line => some line
  | .LoopConditionNotBoolean line => some line
  | .CannotCallName line => some line
  | .ArgParamNumberMismatch _ _ line => some line
  | .CannotConvertToNumber line => some line
  | .CannotHashFunction line => some line
  | .CannotHashDictionary line => some line
  | .KeyError _ line => some line
  | .ThrownBreak line => some line
  | .ThrownReturn _ line => some line

/-- A printed line starts with the tag `Line <n>:`. -/
def LineTagged (n : Nat) (l : String) : Prop :=
  ∃ rest, l = "Line " ++ (toString n ++ rest)

/-! ## Process entry points (src/main.rs) -/

/-- The pipeline stages of §2's data flow, for recording which stages a
main.rs entry point actually invokes. -/
inductive PipelineStep where
  | readSource
  | lexed
  | parsed
  | interpreted
  deriving DecidableEq, Repr

/-- main.rs `run_file` (lines 33–35): the file's contents are read into a
local `source` binding — and nothing further happens: the binding is unused
and no tokenizer, parser, or interpreter is invoked.  The returned list
records the pipeline stages run on the source text. -/
def run_file_steps (_source : String) : List PipelineStep :=
  [.readSource]

/-- main.rs `run` (lines 50–64), invoked by `run_prompt` on each line read:
tokenize; on success parse; on success interpret.  The tokenizer and
interpreter live outside src/, so `tok` abstracts tokenization (`none` on
lexical failure) and interpretation is recorded as a step; `fuel` is the
parse fuel. -/
def run_steps (tok : String → Option (List Token)) (fuel : Nat)
    (source : String) : List PipelineStep :=
  .lexed ::
    match tok source with
    | none => []
    | some tokens =>
      .parsed ::
        match parse tokens fuel with
        | .stmts _ => [.interpreted]
        | _ => []

/-- main.rs `main` (lines 21–31): more than one command argument beyond the
program name exits with usage, exactly one runs `run_file` on it, none runs
the interactive prompt. -/
inductive MainAction where
  | usageExit
  | runFile (path : String)
  | runPrompt
  deriving DecidableEq, Repr

/-- The dispatch of main.rs `main` on the argument vector (which includes
the program name as element 0). -/
def main_dispatch : List String → MainAction
  | [_, path] => .runFile path
  | args => if args.length > 2 then .usageExit else .runPrompt

/-! ## Concrete token sequences used in the claims

Each list is the tokenizer's output for the quoted source text, with
`line` fields as in the source and a terminating `Eof` token (the repo's
own parser tests go through `Tokenizer::tokenize`, which produces exactly
these sequences). -/

/-- A token with no literal payload. -/
def tkn (ty : TokenType) (lx : String) (ln : Nat) : Token := ⟨ty, lx, .null, ln⟩

/-- A number token. -/
def numTk (v : Int) (ln : Nat) : Token := ⟨.Number, "", .number v, ln⟩

/-- An identifier token. -/
def idTk (nm : String) (ln : Nat) : Token := ⟨.Identifier, nm, .null, ln⟩

/-- `for (var x = 5; x < 10; x = x + 1) {var y = x}` (the repo's `for_`
parser test). -/
def forToks : List Token :=
  [tkn .For "for" 1, tkn .LeftParen "(" 1, tkn .Var "var" 1, idTk "x" 1,
   tkn .Equal "=" 1, numTk 5 1, tkn .Semicolon ";" 1, idTk "x" 1,
   tkn .Less "<" 1, numTk 10 1, tkn .Semicolon ";" 1, idTk "x" 1,
   tkn .Equal "=" 1, idTk "x" 1, tkn .Plus "+" 1, numTk 1 1,
   tkn .RightParen ")" 1, tkn .LeftCurly "\x7b" 1, tkn .Var "var" 1, idTk "y" 1,
   tkn .Equal "=" 1, idTk "x" 1, tkn .RightCurly "\x7d" 1, tkn .Eof "" 1]

/-- `for (; x < 10; x = x + 1) {var y = x}` (the repo's `for_no_init`
parser test): a `for` with no initialiser. -/
def forNoInitToks : List Token :=
  [tkn .For "for" 1, tkn .LeftParen "(" 1, tkn .Semicolon ";" 1, idTk "x" 1,
   tkn .Less "<" 1, numTk 10 1, tkn .Semicolon ";" 1, idTk "x" 1,
   tkn .Equal "=" 1, idTk "x" 1, tkn .Plus "+" 1, numTk 1 1,
   tkn .RightParen ")" 1, tkn .LeftCurly "\x7b" 1, tkn .Var "var" 1, idTk "y" 1,
   tkn .Equal "=" 1, idTk "x" 1, tkn .RightCurly "\x7d" 1, tkn .Eof "" 1]

/-- `for (var x = 5;; x = x + 1) {var y = x}` (the repo's `for_no_cond`
parser test): a `for` with no condition. -/
def forNoCondToks : List Token :=
  [tkn .For "for" 1, tkn .LeftParen "(" 1, tkn .Var "var" 1, idTk "x" 1,
   tkn .Equal "=" 1, numTk 5 1, tkn .Semicolon ";" 1, tkn .Semicolon ";" 1,
   idTk "x" 1, tkn .Equal "=" 1, idTk "x" 1, tkn .Plus "+" 1, numTk 1 1,
   tkn .RightParen ")" 1, tkn .LeftCurly "\x7b" 1, tkn .Var "var" 1, idTk "y" 1,
   tkn .Equal "=" 1, idTk "x" 1, tkn .RightCurly "\x7d" 1, tkn .Eof "" 1]

/-- `print 5*1+2*(3-4/a)` (the repo's `print` parser test and §8's
precedence example). -/
def printToks : List Token :=
  [tkn .Print "print" 1, numTk 5 1, tkn .Star "*" 1, numTk 1 1, tkn .Plus "+" 1,
   numTk 2 1, tkn .Star "*" 1, tkn .LeftParen "(" 1, numTk 3 1, tkn .Minus "-" 1,
   numTk 4 1, tkn .Slash "/" 1, idTk "a" 1, tkn .RightParen ")" 1, tkn .Eof "" 1]

/-- `1 - 2 - 3`: left-associativity of a binary operator chain. -/
def subChainToks : List Token :=
  [numTk 1 1, tkn .Minus "-" 1, numTk 2 1, tkn .Minus "-" 1, numTk 3 1,
   tkn .Eof "" 1]

/-- `a = b = 5` (§8's associativity example). -/
def chainAsgToks : List Token :=
  [idTk "a" 1, tkn .Equal "=" 1, idTk "b" 1, tkn .Equal "=" 1, numTk 5 1,
   tkn .Eof "" 1]

/-- `5 = 3`: a literal as assignment target, accepted by the parser. -/
def litAsgToks : List Token :=
  [numTk 5 1, tkn .Equal "=" 1, numTk 3 1, tkn .Eof "" 1]

/-- `func f() { return }`: a bare `return` with no following expression. -/
def retNoneToks : List Token :=
  [tkn .Func "func" 1, idTk "f" 1, tkn .LeftParen "(" 1, tkn .RightParen ")" 1,
   tkn .LeftCurly "\x7b" 1, tkn .Return "return" 1, tkn .RightCurly "\x7d" 1,
   tkn .Eof "" 1]

/-- `return (5`: the return expression fails with a non-ExpectedExpression
error (`ExpectedCharacter ')'`), which must propagate. -/
def retBadToks : List Token :=
  [tkn .Return "return" 1, tkn .LeftParen "(" 1, numTk 5 1, tkn .Eof "" 1]

/-- `var 1` on line 1 and `var 2` on line 2: two independent malformed
statements separated by the statement-start keyword `var`. -/
def twoErrToks : List Token :=
  [tkn .Var "var" 1, numTk 1 1, tkn .Var "var" 2, numTk 2 2, tkn .Eof "" 2]

/-- A single `(` with no terminating `Eof` token: parsing this vector makes
the Rust `sync` index `self.tokens[2]` out of bounds and panic. -/
def noEofToks : List Token :=
  [tkn .LeftParen "(" 1]

/-- Is this statement a `Block`? -/
def isBlockStmt : Stmt → Bool
  | .block _ _ => true
  | _ => false

/-- Is this error `ExpectedExpression`?  (The variant parser.rs `return_`
swallows.) -/
def isExpectedExpression : ErrorType → Bool
  | .ExpectedExpression _ => true
  | _ => false

/-- There is an `Eof` token at index `e`. -/
def HasEofAt (tokens : List Token) (e : Nat) : Prop :=
  ∃ t, tokens[e]? = some t ∧ t.type_ = TokenType.Eof

/-- The fuel bound under which `parse` is proved to finish: a generous
linear measure of the token vector. -/
def parseFuel (tokens : List Token) : Nat :=
  (tokens.length + 1) * 32 + 32

/-! ## Specification predicates for the termination / in-bounds proof -/

/-- Behavioural invariant of one parser routine `p` at fuel `f`, relative
to a token vector with an `Eof` at index `e`: started at any cursor not
past `e`, the routine

* runs out of fuel only if `f` is below an explicit linear bound
  (so sufficient fuel rules `fuelOut` out),
* on error leaves the cursor between its start and `e`, and
* on success leaves the cursor at or beyond the start (strictly beyond it
  when `strict` — every routine but `return_` consumes at least one token
  on success) and not past `e`.

In particular no routine ever moves the cursor past the terminating `Eof`,
which is what makes every token access in-bounds. -/
def POk (tokens : List Token) (e : Nat) {α : Type} (p : Nat → PState → PRes α)
    (r : Nat) (strict : Bool) (f : Nat) : Prop :=
  ∀ s : PState, s.i ≤ e →
    match p f s with
    | .fuelOut => ¬ ((tokens.length + 1 - s.i) * 32 + r ≤ f)
    | .err _ s' => s.i ≤ s'.i ∧ s'.i ≤ e
    | .ok _ s' => (if strict then s.i + 1 else s.i) ≤ s'.i ∧ s'.i ≤ e

/-- Behavioural invariant of the `parse` statement loop at fuel `f`:
with an `Eof` at index `e` and the cursor not past it, the loop never
panics, runs out of fuel only below an explicit bound, and returns a
non-empty error collection whenever it returns errors at all. -/
def DOk (tokens : List Token) (e : Nat) (f : Nat) : Prop :=
  ∀ (s : PState) (statements : List Stmt) (errors : List ErrorType),
    s.i ≤ e →
    match parseDriver tokens f s statements errors with
    | .fuelOut => ¬ ((tokens.length + 1 - s.i) * 32 + 16 ≤ f)
    | .panicked => False
    | .errs es => es ≠ []
    | .stmts _ => True

/-- The sub-parser passed to a loop helper advances the cursor: strictly on
success, weakly on error, and never past the `Eof` at index `e`. -/
def SubAdv (e : Nat) {α : Type} (sub : PState → PRes α) : Prop :=
  ∀ s', s'.i ≤ e →
    match sub s' with
    | .fuelOut => True
    | .err _ s₂ => s'.i ≤ s₂.i ∧ s₂.i ≤ e
    | .ok _ s₂ => s'.i + 1 ≤ s₂.i ∧ s₂.i ≤ e

/-- The sub-parser passed to a loop helper has enough fuel applied to it to
never report fuel exhaustion when started at or beyond index `i0`. -/
def SubNF (e i0 : Nat) {α : Type} (sub : PState → PRes α) : Prop :=
  ∀ s', i0 ≤ s'.i → s'.i ≤ e → sub s' ≠ .fuelOut

/-! ## Expected parse results for the concrete token sequences -/

/-- The while-loop body shared by the desugarings of the three `for`
examples: `{ {var y = x} x = x + 1 }` — the inner block is the source
body, the trailing statement the increment. -/
def forWhileBody : Stmt :=
  .block 1
    [.block 1 [.varDecl 1 "y" (.variable_ 1 "x")],
     .expression 1
       (.assignment 1 (.variable_ 1 "x")
         (.binary 1 (.variable_ 1 "x") (tkn .Plus "+" 1)
           (.literal 1 (.number 1))))]

/-- The condition `x < 10`. -/
def forCondLess : Expr :=
  .binary 1 (.variable_ 1 "x") (tkn .Less "<" 1) (.literal 1 (.number 10))

/-- What `forToks` parses to: `Block[var x = 5, While(x < 10, body)]`. -/
def forParsed : Stmt :=
  .block 1 [.varDecl 1 "x" (.literal 1 (.number 5)),
            .while_ 1 forCondLess forWhileBody]

/-- What `forNoInitToks` parses to: the bare `While`, with no enclosing
block. -/
def forNoInitParsed : Stmt := .while_ 1 forCondLess forWhileBody

/-- What `forNoCondToks` parses to: the missing condition becomes the
literal `true`. -/
def forNoCondParsed : Stmt :=
  .block 1 [.varDecl 1 "x" (.literal 1 (.number 5)),
            .while_ 1 (.literal 1 (.bool true)) forWhileBody]

/-- What `printToks` parses to:
`Plus(Star(5, 1), Star(2, Grouping(Minus(3, Slash(4, a)))))`. -/
def printParsed : Stmt :=
  .print 1
    (.binary 1
      (.binary 1 (.literal 1 (.number 5)) (tkn .Star "*" 1)
        (.literal 1 (.number 1)))
      (tkn .Plus "+" 1)
      (.binary 1 (.literal 1 (.number 2)) (tkn .Star "*" 1)
        (.grouping 1
          (.binary 1 (.literal 1 (.number 3)) (tkn .Minus "-" 1)
            (.binary 1 (.literal 1 (.number 4)) (tkn .Slash "/" 1)
              (.variable_ 1 "a"))))))

/-- What `subChainToks` parses to: the left-biased chain
`Minus(Minus(1, 2), 3)`. -/
def subChainParsed : Stmt :=
  .expression 1
    (.binary 1
      (.binary 1 (.literal 1 (.number 1)) (tkn .Minus "-" 1)
        (.literal 1 (.number 2)))
      (tkn .Minus "-" 1) (.literal 1 (.number 3)))

/-- What `chainAsgToks` parses to: `a = (b = 5)`, right-nested. -/
def chainAsgParsed : Stmt :=
  .expression 1
    (.assignment 1 (.variable_ 1 "a")
      (.assignment 1 (.variable_ 1 "b") (.literal 1 (.number 5))))

/-- What `litAsgToks` parses to: the literal `5` accepted as an
assignment target at parse time. -/
def litAsgParsed : Stmt :=
  .expression 1
    (.assignment 1 (.literal 1 (.number 5)) (.literal 1 (.number 3)))

/-- What `retNoneToks` parses to: a function whose body is a bare
`return` carrying no value. -/
def retNoneParsed : Stmt :=
  .function 1 "f" [] (.block 1 [.return_ 1 none])

end Nea

namespace Nea

theorem hasEofAt_lt_length {tokens : List Token} {e : Nat}
    (hE : HasEofAt tokens e) : e < tokens.length := by
  obtain ⟨t, ht, -⟩ := hE
  exact (List.getElem?_eq_some.mp ht).1

theorem cac_some {tokens : List Token} {ts : List TokenType} {s : PState}
    {t : Token} {s' : PState}
    (h : check_and_consume tokens ts s = some (t, s')) :
    tokens[s.i]? = some t ∧ t.type_ ∈ ts ∧ s' = ⟨s.i + 1, t.line⟩ := by
  unfold check_and_consume at h
  cases hx : tokens[s.i]? with
  | none => rw [hx] at h; exact absurd h (by simp)
  | some u =>
    rw [hx] at h
    by_cases hm : u.type_ ∈ ts
    · simp [hm] at h
      obtain ⟨h1, h2⟩ := h
      subst h1
      exact ⟨rfl, hm, h2.symm⟩
    · simp [hm] at h

theorem cac_none {tokens : List Token} {ts : List TokenType} {s : PState}
    (h : check_and_consume tokens ts s = none) {t : Token}
    (ht : tokens[s.i]? = some t) : t.type_ ∉ ts := by
  unfold check_and_consume at h
  rw [ht] at h
  by_cases hm : t.type_ ∈ ts
  · simp [hm] at h
  · exact hm

theorem check_next_iff {tokens : List Token} {ts : List TokenType} {s : PState} :
    check_next tokens ts s = true ↔ ∃ t, tokens[s.i]? = some t ∧ t.type_ ∈ ts := by
  unfold check_next
  cases hx : tokens[s.i]? with
  | none => simp
  | some u => simp

theorem cac_bounds {tokens : List Token} {e : Nat} (hE : HasEofAt tokens e)
    {ts : List TokenType} {s : PState} {t : Token} {s' : PState}
    (hts : TokenType.Eof ∉ ts) (hs : s.i ≤ e)
    (h : check_and_consume tokens ts s = some (t, s')) :
    s.i < e ∧ s'.i = s.i + 1 ∧ s'.i ≤ e := by
  obtain ⟨ht, hm, hs'⟩ := cac_some h
  obtain ⟨tE, htE, htEty⟩ := hE
  have hne : s.i ≠ e := by
    intro heq
    rw [heq, htE] at ht
    cases ht
    rw [htEty] at hm
    exact hts hm
  have hlt : s.i < e := lt_of_le_of_ne hs hne
  subst hs'
  exact ⟨hlt, rfl, hlt⟩

theorem expect_ok {tokens : List Token} {ty : TokenType} {ch : Char}
    {s : PState} {u : Unit} {s' : PState}
    (h : expect tokens ty ch s = .ok u s') :
    ∃ t, tokens[s.i]? = some t ∧ t.type_ = ty ∧ s' = ⟨s.i + 1, t.line⟩ := by
  unfold expect at h
  cases hc : check_and_consume tokens [ty] s with
  | none => rw [hc] at h; exact absurd h (by simp)
  | some p =>
    obtain ⟨t, s₂⟩ := p
    rw [hc] at h
    obtain ⟨ht, hm, hs2⟩ := cac_some hc
    simp at h
    simp at hm
    exact ⟨t, ht, hm, by rw [← h]; exact hs2⟩

theorem expect_bounds {tokens : List Token} {e : Nat} (hE : HasEofAt tokens e)
    {ty : TokenType} {ch : Char} {s : PState} {u : Unit} {s' : PState}
    (hty : ty ≠ .Eof) (hs : s.i ≤ e)
    (h : expect tokens ty ch s = .ok u s') :
    s.i < e ∧ s'.i = s.i + 1 ∧ s'.i ≤ e := by
  unfold expect at h
  cases hc : check_and_consume tokens [ty] s with
  | none => rw [hc] at h; exact absurd h (by simp)
  | some p =>
    obtain ⟨t, s₂⟩ := p
    rw [hc] at h
    simp at h
    have hts : TokenType.Eof ∉ [ty] := by
      simpa using fun hx => hty hx.symm
    have hb := cac_bounds hE hts hs hc
    rw [← h]
    exact hb

theorem expect_err {tokens : List Token} {ty : TokenType} {ch : Char}
    {s : PState} {er : ErrorType} {s' : PState}
    (h : expect tokens ty ch s = .err er s') :
    er = .ExpectedCharacter ch s.line ∧ s' = s := by
  unfold expect at h
  cases hc : check_and_consume tokens [ty] s with
  | none => rw [hc] at h; simp at h; exact ⟨h.1.symm, h.2.symm⟩
  | some p => obtain ⟨t, s₂⟩ := p; rw [hc] at h; simp at h

theorem expect_not_fuelOut {tokens : List Token} {ty : TokenType} {ch : Char}
    {s : PState} : expect tokens ty ch s ≠ .fuelOut := by
  unfold expect
  cases hc : check_and_consume tokens [ty] s with
  | none => simp
  | some p => obtain ⟨t, s₂⟩ := p; simp

theorem sync_spec {tokens : List Token} {e : Nat} (hE : HasEofAt tokens e) :
    ∀ (f : Nat) (s : PState), s.i ≤ e →
      sync tokens f s ≠ .panicked ∧
      (∀ s', sync tokens f s = .ok s' →
        s.i ≤ s'.i ∧ s'.i ≤ e ∧ check_next tokens syncSet s' = true) ∧
      (e + 1 - s.i ≤ f → sync tokens f s ≠ .fuelOut) := by
  intro f
  induction f with
  | zero =>
    intro s hs
    refine ⟨by simp [sync], by simp [sync], ?_⟩
    intro hle
    omega
  | succ f IH =>
    intro s hs
    by_cases hcn : check_next tokens syncSet s
    · refine ⟨by simp [sync, hcn], ?_, by simp [sync, hcn]⟩
      intro s' h
      simp [sync, hcn] at h
      exact ⟨le_of_eq (congrArg PState.i h), h ▸ hs, h ▸ hcn⟩
    · have hlen : e < tokens.length := hasEofAt_lt_length hE
      obtain ⟨tE, htE, htEty⟩ := hE
      have hsome : ∃ t, tokens[s.i]? = some t := by
        have : s.i < tokens.length := by omega
        exact ⟨tokens[s.i], List.getElem?_eq_getElem this⟩
      obtain ⟨t, ht⟩ := hsome
      have htne : t.type_ ≠ .Eof := by
        intro hx
        apply hcn
        exact check_next_iff.mpr ⟨t, ht, by rw [hx]; simp [syncSet]⟩
      have hne : s.i ≠ e := by
        intro heq
        rw [heq, htE] at ht
        cases ht
        exact htne htEty
      have hlt : s.i < e := lt_of_le_of_ne hs hne
      have hnext : ∃ u, tokens[s.i + 1]? = some u := by
        have : s.i + 1 < tokens.length := by omega
        exact ⟨tokens[s.i + 1], List.getElem?_eq_getElem this⟩
      obtain ⟨u, hu⟩ := hnext
      have hrec := IH ⟨s.i + 1, u.line⟩ (by simpa using hlt)
      have hstep : sync tokens (f + 1) s = sync tokens f ⟨s.i + 1, u.line⟩ := by
        simp [sync, hcn, hu]
      refine ⟨?_, ?_, ?_⟩
      · rw [hstep]; exact hrec.1
      · intro s' h
        rw [hstep] at h
        have hq := hrec.2.1 s' h
        have h1 : s.i + 1 ≤ s'.i := hq.1
        exact ⟨by omega, hq.2.1, hq.2.2⟩
      · intro hle
        rw [hstep]
        refine hrec.2.2 ?_
        show e + 1 - (s.i + 1) ≤ f
        omega

theorem primary_zero (tokens : List Token) (s : PState) :
    primary tokens 0 s = .fuelOut := rfl

theorem call_zero (tokens : List Token) (s : PState) :
    call tokens 0 s = .fuelOut := rfl

theorem element_zero (tokens : List Token) (s : PState) :
    element tokens 0 s = .fuelOut := rfl

theorem unary_zero (tokens : List Token) (s : PState) :
    unary tokens 0 s = .fuelOut := rfl

theorem mult_div_mod_zero (tokens : List Token) (s : PState) :
    mult_div_mod tokens 0 s = .fuelOut := rfl

theorem add_sub_zero (tokens : List Token) (s : PState) :
    add_sub tokens 0 s = .fuelOut := rfl

theorem comparison_zero (tokens : List Token) (s : PState) :
    comparison tokens 0 s = .fuelOut := rfl

theorem equality_zero (tokens : List Token) (s : PState) :
    equality tokens 0 s = .fuelOut := rfl

theorem and_zero (tokens : List Token) (s : PState) :
    and_ tokens 0 s = .fuelOut := rfl

theorem or_zero (tokens : List Token) (s : PState) :
    or_ tokens 0 s = .fuelOut := rfl

theorem assignment_zero (tokens : List Token) (s : PState) :
    assignment tokens 0 s = .fuelOut := rfl

theorem expression_zero (tokens : List Token) (s : PState) :
    expression tokens 0 s = .fuelOut := rfl

theorem statement_zero (tokens : List Token) (s : PState) :
    statement tokens 0 s = .fuelOut := rfl

theorem block_zero (tokens : List Token) (s : PState) :
    block tokens 0 s = .fuelOut := rfl

theorem for_zero (tokens : List Token) (s : PState) :
    for_ tokens 0 s = .fuelOut := rfl

theorem function_zero (tokens : List Token) (s : PState) :
    function tokens 0 s = .fuelOut := rfl

theorem if_zero (tokens : List Token) (s : PState) :
    if_ tokens 0 s = .fuelOut := rfl

theorem else_body_zero (tokens : List Token) (s : PState) :
    else_body tokens 0 s = .fuelOut := rfl

theorem print_zero (tokens : List Token) (s : PState) :
    print tokens 0 s = .fuelOut := rfl

theorem return_zero (tokens : List Token) (s : PState) :
    return_ tokens 0 s = .fuelOut := rfl

theorem var_zero (tokens : List Token) (s : PState) :
    var tokens 0 s = .fuelOut := rfl

theorem while_zero (tokens : List Token) (s : PState) :
    while_ tokens 0 s = .fuelOut := rfl

theorem parseDriver_zero (tokens : List Token) (s : PState)
    (statements : List Stmt) (errors : List ErrorType) :
    parseDriver tokens 0 s statements errors = .fuelOut := rfl

theorem call_succ (tokens : List Token) (f : Nat) (s : PState) :
    call tokens (f+1) s =
      (match primary tokens f s with
       | .fuelOut => .fuelOut
       | .err er s' => .err er s'
       | .ok ex s₁ => callChain tokens (expression tokens f) f ex s₁) := rfl

theorem element_succ (tokens : List Token) (f : Nat) (s : PState) :
    element tokens (f+1) s =
      (match call tokens f s with
       | .fuelOut => .fuelOut
       | .err er s' => .err er s'
       | .ok ex s₁ => elemChain tokens (expression tokens f) f ex s₁) := rfl

theorem unary_succ (tokens : List Token) (f : Nat) (s : PState) :
    unary tokens (f+1) s =
      (match check_and_consume tokens [.Bang, .Minus] s with
       | some (operator, s₁) =>
         (match unary tokens f s₁ with
          | .fuelOut => .fuelOut
          | .err er s' => .err er s'
          | .ok right s₂ => .ok (.unary s₂.line operator right) s₂)
       | none => element tokens f s) := rfl

theorem mult_div_mod_succ (tokens : List Token) (f : Nat) (s : PState) :
    mult_div_mod tokens (f+1) s =
      (match unary tokens f s with
       | .fuelOut => .fuelOut
       | .err er s' => .err er s'
       | .ok ex s₁ =>
         leftChain tokens [.Star, .Slash, .Percent] (unary tokens f) f ex s₁) := rfl

theorem add_sub_succ (tokens : List Token) (f : Nat) (s : PState) :
    add_sub tokens (f+1) s =
      (match mult_div_mod tokens f s with
       | .fuelOut => .fuelOut
       | .err er s' => .err er s'
       | .ok ex s₁ =>
         leftChain tokens [.Plus, .Minus] (mult_div_mod tokens f) f ex s₁) := rfl

theorem comparison_succ (tokens : List Token) (f : Nat) (s : PState) :
    comparison tokens (f+1) s =
      (match add_sub tokens f s with
       | .fuelOut => .fuelOut
       | .err er s' => .err er s'
       | .ok ex s₁ =>
         leftChain tokens [.Greater, .Less, .GreaterEqual, .LessEqual]
           (add_sub tokens f) f ex s₁) := rfl

theorem equality_succ (tokens : List Token) (f : Nat) (s : PState) :
    equality tokens (f+1) s =
      (match comparison tokens f s with
       | .fuelOut => .fuelOut
       | .err er s' => .err er s'
       | .ok ex s₁ =>
         leftChain tokens [.EqualEqual, .BangEqual] (comparison tokens f) f ex s₁) := rfl

theorem and_succ (tokens : List Token) (f : Nat) (s : PState) :
    and_ tokens (f+1) s =
      (match equality tokens f s with
       | .fuelOut => .fuelOut
       | .err er s' => .err er s'
       | .ok ex s₁ => leftChain tokens [.And] (equality tokens f) f ex s₁) := rfl

theorem or_succ (tokens : List Token) (f : Nat) (s : PState) :
    or_ tokens (f+1) s =
      (match and_ tokens f s with
       | .fuelOut => .fuelOut
       | .err er s' => .err er s'
       | .ok ex s₁ => leftChain tokens [.Or] (and_ tokens f) f ex s₁) := rfl

theorem assignment_succ (tokens : List Token) (f : Nat) (s : PState) :
    assignment tokens (f+1) s =
      (match or_ tokens f s with
       | .fuelOut => .fuelOut
       | .err er s' => .err er s'
       | .ok ex s₁ =>
         match check_and_consume tokens [.Equal] s₁ with
         | none => .ok ex s₁
         | some (_, s₂) =>
           match assignment tokens f s₂ with
           | .fuelOut => .fuelOut
           | .err er s' => .err er s'
           | .ok value s₃ => .ok (.assignment s₃.line ex value) s₃) := rfl

theorem expression_succ (tokens : List Token) (f : Nat) (s : PState) :
    expression tokens (f+1) s = assignment tokens f s := rfl

theorem block_succ (tokens : List Token) (f : Nat) (s : PState) :
    block tokens (f+1) s =
      (match expect tokens .LeftCurly '{' s with
       | .fuelOut => .fuelOut
       | .err er s' => .err er s'
       | .ok _ s₁ =>
         match stmtsUntil tokens [.RightCurly, .Eof] (statement tokens f) f s₁ with
         | .fuelOut => .fuelOut
         | .err er s' => .err er s'
         | .ok body s₂ =>
           match expect tokens .RightCurly '}' s₂ with
           | .fuelOut => .fuelOut
           | .err er s' => .err er s'
           | .ok _ s₃ => .ok (.block s₃.line body) s₃) := rfl

theorem else_body_succ (tokens : List Token) (f : Nat) (s : PState) :
    else_body tokens (f+1) s =
      (match check_and_consume tokens [.If] s with
       | some (_, s₁) => if_ tokens f s₁
       | none => block tokens f s) := rfl

theorem print_succ (tokens : List Token) (f : Nat) (s : PState) :
    print tokens (f+1) s =
      (match expression tokens f s with
       | .fuelOut => .fuelOut
       | .err er s' => .err er s'
       | .ok ex s' => .ok (.print s.line ex) s') := rfl

theorem return_succ (tokens : List Token) (f : Nat) (s : PState) :
    return_ tokens (f+1) s =
      (match expression tokens f s with
       | .fuelOut => .fuelOut
       | .ok ex s' => .ok (.return_ s'.line (some ex)) s'
       | .err (.ExpectedExpression l) s' => .ok (.return_ s'.line none) s'
       | .err er s' => .err er s') := rfl

theorem var_succ (tokens : List Token) (f : Nat) (s : PState) :
    var tokens (f+1) s =
      (match check_and_consume tokens [.Identifier] s with
       | none => .err (.ExpectedVariableName s.line) s
       | some (identifier, s₁) =>
         match expect tokens .Equal '=' s₁ with
         | .fuelOut => .fuelOut
         | .err er s' => .err er s'
         | .ok _ s₂ =>
           match expression tokens f s₂ with
           | .fuelOut => .fuelOut
           | .err er s' => .err er s'
           | .ok value s₃ => .ok (.varDecl s₃.line identifier.lexeme value) s₃) := rfl

theorem while_succ (tokens : List Token) (f : Nat) (s : PState) :
    while_ tokens (f+1) s =
      (match expect tokens .LeftParen '(' s with
       | .fuelOut => .fuelOut
       | .err er s' => .err er s'
       | .ok _ s₁ =>
         match expression tokens f s₁ with
         | .fuelOut => .fuelOut
         | .err er s' => .err er s'
         | .ok condition s₂ =>
           match expect tokens .RightParen ')' s₂ with
           | .fuelOut => .fuelOut
           | .err er s' => .err er s'
           | .ok _ s₃ =>
             match block tokens f s₃ with
             | .fuelOut => .fuelOut
             | .err er s' => .err er s'
             | .ok body s₄ => .ok (.while_ s₄.line condition body) s₄) := rfl

theorem if_succ (tokens : List Token) (f : Nat) (s : PState) :
    if_ tokens (f+1) s =
      (match expect tokens .LeftParen '(' s with
       | .fuelOut => .fuelOut
       | .err er s' => .err er s'
       | .ok _ s₁ =>
         match expression tokens f s₁ with
         | .fuelOut => .fuelOut
         | .err er s' => .err er s'
         | .ok condition s₂ =>
           match expect tokens .RightParen ')' s₂ with
           | .fuelOut => .fuelOut
           | .err er s' => .err er s'
           | .ok _ s₃ =>
             match block tokens f s₃ with
             | .fuelOut => .fuelOut
             | .err er s' => .err er s'
             | .ok then_body s₄ =>
               match check_and_consume tokens [.Else] s₄ with
               | some (_, s₅) =>
                 (match else_body tokens f s₅ with
                  | .fuelOut => .fuelOut
                  | .err er s' => .err er s'
                  | .ok eb s₆ => .ok (.if_ s₆.line condition then_body (some eb)) s₆)
               | none => .ok (.if_ s₄.line condition then_body none) s₄) := rfl

theorem function_succ (tokens : List Token) (f : Nat) (s : PState) :
    function tokens (f+1) s =
      (match check_and_consume tokens [.Identifier] s with
       | none => .err (.ExpectedFunctionName s.line) s
       | some (identifier, s₁) =>
         match expect tokens .LeftParen '(' s₁ with
         | .fuelOut => .fuelOut
         | .err er s' => .err er s'
         | .ok _ s₂ =>
           match
             (if check_next tokens [.RightParen] s₂ then .ok [] s₂
              else paramsList tokens f s₂ : PRes (List String)) with
           | .fuelOut => .fuelOut
           | .err er s' => .err er s'
           | .ok parameters s₃ =>
             match expect tokens .RightParen ')' s₃ with
             | .fuelOut => .fuelOut
             | .err er s' => .err er s'
             | .ok _ s₄ =>
               match block tokens f s₄ with
               | .fuelOut => .fuelOut
               | .err er s' => .err er s'
               | .ok body s₅ =>
                 .ok (.function s₅.line identifier.lexeme parameters body) s₅) := rfl

theorem for_succ (tokens : List Token) (f : Nat) (s : PState) :
    for_ tokens (f+1) s =
      (match expect tokens .LeftParen '(' s with
       | .fuelOut => .fuelOut
       | .err er s' => .err er s'
       | .ok _ s₁ =>
         match
           (if check_next tokens [.Semicolon] s₁ then .ok none s₁
            else
              match statement tokens f s₁ with
              | .fuelOut => .fuelOut
              | .err er s' => .err er s'
              | .ok st s' => .ok (some st) s' : PRes (Option Stmt)) with
         | .fuelOut => .fuelOut
         | .err er s' => .err er s'
         | .ok initialiser s₂ =>
           match check_and_consume tokens [.Semicolon] s₂ with
           | none => .err (.ExpectedSemicolonAfterInit s₂.line) s₂
           | some (_, s₃) =>
             match
               (if check_next tokens [.Semicolon] s₃ then
                  .ok (.literal s₃.line (.bool true)) s₃
                else expression tokens f s₃ : PRes Expr) with
             | .fuelOut => .fuelOut
             | .err er s' => .err er s'
             | .ok condition s₄ =>
               match check_and_consume tokens [.Semicolon] s₄ with
               | none => .err (.ExpectedSemicolonAfterCondition s₄.line) s₄
               | some (_, s₅) =>
                 match
                   (if check_next tokens [.RightParen] s₅ then .ok none s₅
                    else
                      match statement tokens f s₅ with
                      | .fuelOut => .fuelOut
                      | .err er s' => .err er s'
                      | .ok st s' => .ok (some st) s' : PRes (Option Stmt)) with
                 | .fuelOut => .fuelOut
                 | .err er s' => .err er s'
                 | .ok increment s₆ =>
                   match check_and_consume tokens [.RightParen] s₆ with
                   | none => .err (.ExpectedParenAfterIncrement s₆.line) s₆
                   | some (_, s₇) =>
                     match block tokens f s₇ with
                     | .fuelOut => .fuelOut
                     | .err er s' => .err er s'
                     | .ok for_body s₈ =>
                       let while_body : Stmt :=
                         .block s₈.line
                           (match increment with
                            | none => [for_body]
                            | some inc => [for_body, inc])
                       let while_loop : Stmt := .while_ s₈.line condition while_body
                       match initialiser with
                       | some init => .ok (.block s₈.line [init, while_loop]) s₈
                       | none => .ok while_loop s₈) := rfl

theorem statement_succ (tokens : List Token) (f : Nat) (s : PState) :
    statement tokens (f+1) s =
      (match check_and_consume tokens [.Break] s with
       | some (_, s') => .ok (.break_ s'.line) s'
       | none =>
       match check_and_consume tokens [.For] s with
       | some (_, s') => for_ tokens f s'
       | none =>
       match check_and_consume tokens [.Func] s with
       | some (_, s') => function tokens f s'
       | none =>
       match check_and_consume tokens [.If] s with
       | some (_, s') => if_ tokens f s'
       | none =>
       match check_and_consume tokens [.Print] s with
       | some (_, s') => print tokens f s'
       | none =>
       match check_and_consume tokens [.Return] s with
       | some (_, s') => return_ tokens f s'
       | none =>
       match check_and_consume tokens [.Var] s with
       | some (_, s') => var tokens f s'
       | none =>
       match check_and_consume tokens [.While] s with
       | some (_, s') => while_ tokens f s'
       | none =>
         match expression tokens f s with
         | .fuelOut => .fuelOut
         | .err er s' => .err er s'
         | .ok ex s' => .ok (.expression s.line ex) s') := rfl

theorem parseDriver_succ (tokens : List Token) (f : Nat) (s : PState)
    (statements : List Stmt) (errors : List ErrorType) :
    parseDriver tokens (f+1) s statements errors =
      (if check_next tokens [.Eof] s then
        if errors.isEmpty then .stmts statements else .errs errors
      else
        match statement tokens f s with
        | .fuelOut => .fuelOut
        | .ok st s₁ => parseDriver tokens f s₁ (statements ++ [st]) errors
        | .err er s₁ =>
          match sync tokens f s₁ with
          | .fuelOut => .fuelOut
          | .panicked => .panicked
          | .ok s₂ => parseDriver tokens f s₂ statements (errors ++ [er])) := rfl

theorem primary_succ (tokens : List Token) (f : Nat) (s : PState) :
    primary tokens (f+1) s =
      (match check_and_consume tokens [.True] s with
       | some (_, s') => .ok (.literal s'.line (.bool true)) s'
       | none =>
       match check_and_consume tokens [.False] s with
       | some (_, s') => .ok (.literal s'.line (.bool false)) s'
       | none =>
       match check_and_consume tokens [.Null] s with
       | some (_, s') => .ok (.literal s'.line .null) s'
       | none =>
       match check_and_consume tokens [.String_, .Number] s with
       | some (t, s') => .ok (.literal s'.line t.literal) s'
       | none =>
       match check_and_consume tokens [.LeftParen] s with
       | some (_, s₁) =>
         (match expression tokens f s₁ with
          | .fuelOut => .fuelOut
          | .err er s' => .err er s'
          | .ok ex s₂ =>
            match expect tokens .RightParen ')' s₂ with
            | .fuelOut => .fuelOut
            | .err er s' => .err er s'
            | .ok _ s₃ => .ok (.grouping s₃.line ex) s₃)
       | none =>
       match check_and_consume tokens [.LeftSquare] s with
       | some (_, s₁) =>
         (match
            (if check_next tokens [.RightSquare] s₁ then .ok [] s₁
             else sepExprs tokens (expression tokens f) f s₁ : PRes (List Expr)) with
          | .fuelOut => .fuelOut
          | .err er s' => .err er s'
          | .ok elements s₂ =>
            match expect tokens .RightSquare ']' s₂ with
            | .fuelOut => .fuelOut
            | .err er s' => .err er s'
            | .ok _ s₃ => .ok (.array s₃.line elements) s₃)
       | none =>
       match check_and_consume tokens [.LeftCurly] s with
       | some (_, s₁) =>
         (match
            (if check_next tokens [.RightCurly] s₁ then .ok [] s₁
             else dictElems tokens (expression tokens f) f s₁ : PRes (List (Expr × Expr))) with
          | .fuelOut => .fuelOut
          | .err er s' => .err er s'
          | .ok elements s₂ =>
            match expect tokens .RightCurly '}' s₂ with
            | .fuelOut => .fuelOut
            | .err er s' => .err er s'
            | .ok _ s₃ => .ok (.dictionary s₃.line elements) s₃)
       | none =>
       match check_and_consume tokens [.Identifier] s with
       | some (t, s') => .ok (.variable_ s'.line t.lexeme) s'
       | none => .err (.ExpectedExpression s.line) s) := rfl

theorem leftChain_spec {tokens : List Token} {e : Nat} (hE : HasEofAt tokens e)
    {ops : List TokenType} {sub : PState → PRes Expr} {i0 : Nat}
    (hops : TokenType.Eof ∉ ops) (hadv : SubAdv e sub) (hnf : SubNF e i0 sub) :
    ∀ (f : Nat) (ex : Expr) (s : PState), i0 ≤ s.i → s.i ≤ e →
      match leftChain tokens ops sub f ex s with
      | .fuelOut => ¬ (e + 1 - s.i ≤ f)
      | .err _ s' => s.i ≤ s'.i ∧ s'.i ≤ e
      | .ok _ s' => s.i ≤ s'.i ∧ s'.i ≤ e := by
  intro f
  induction f with
  | zero =>
    intro ex s h0 hs
    simp only [leftChain]
    omega
  | succ f IH =>
    intro ex s h0 hs
    cases hc : check_and_consume tokens ops s with
    | none =>
      simp only [leftChain, hc]
      exact ⟨le_refl _, hs⟩
    | some p =>
      obtain ⟨op, s₁⟩ := p
      obtain ⟨hlt, h1i, h1e⟩ := cac_bounds hE hops hs hc
      cases hsub : sub s₁ with
      | fuelOut =>
        exact absurd hsub (hnf s₁ (by omega) h1e)
      | err er s' =>
        have hsubres := hadv s₁ h1e
        rw [hsub] at hsubres
        simp only [leftChain, hc, hsub]
        exact ⟨by omega, hsubres.2⟩
      | ok right s₂ =>
        have hsubres := hadv s₁ h1e
        rw [hsub] at hsubres
        have h2i : s₁.i + 1 ≤ s₂.i := hsubres.1
        have h2e : s₂.i ≤ e := hsubres.2
        have hrec := IH (.binary s₂.line ex op right) s₂ (by omega) h2e
        simp only [leftChain, hc, hsub]
        cases hLC : leftChain tokens ops sub f (.binary s₂.line ex op right) s₂ with
        | fuelOut => rw [hLC] at hrec; intro hle; exact hrec (by omega)
        | err er2 sf => rw [hLC] at hrec; exact ⟨by omega, hrec.2⟩
        | ok ex2 sf => rw [hLC] at hrec; exact ⟨by omega, hrec.2⟩

theorem sepExprs_spec {tokens : List Token} {e : Nat} (hE : HasEofAt tokens e)
    {sub : PState → PRes Expr} {i0 : Nat}
    (hadv : SubAdv e sub) (hnf : SubNF e i0 sub) :
    ∀ (f : Nat) (s : PState), i0 ≤ s.i → s.i ≤ e →
      match sepExprs tokens sub f s with
      | .fuelOut => ¬ (e + 1 - s.i ≤ f)
      | .err _ s' => s.i ≤ s'.i ∧ s'.i ≤ e
      | .ok _ s' => s.i + 1 ≤ s'.i ∧ s'.i ≤ e := by
  intro f
  induction f with
  | zero =>
    intro s h0 hs
    simp only [sepExprs]
    omega
  | succ f IH =>
    intro s h0 hs
    cases hsub : sub s with
    | fuelOut => exact absurd hsub (hnf s h0 hs)
    | err er s' =>
      have hsubres := hadv s hs
      rw [hsub] at hsubres
      simp only [sepExprs, hsub]
      exact hsubres
    | ok ex s₁ =>
      have hsubres := hadv s hs
      rw [hsub] at hsubres
      have h1i : s.i + 1 ≤ s₁.i := hsubres.1
      have h1e : s₁.i ≤ e := hsubres.2
      cases hcm : check_and_consume tokens [.Comma] s₁ with
      | none =>
        simp only [sepExprs, hsub, hcm]
        exact ⟨h1i, h1e⟩
      | some p =>
        obtain ⟨c, s₂⟩ := p
        obtain ⟨hlt2, h2i, h2e⟩ := cac_bounds hE (by decide) h1e hcm
        have hrec := IH s₂ (by omega) h2e
        simp only [sepExprs, hsub, hcm]
        cases hSE : sepExprs tokens sub f s₂ with
        | fuelOut => rw [hSE] at hrec; intro hle; exact hrec (by omega)
        | err er2 sf => rw [hSE] at hrec; exact ⟨by omega, hrec.2⟩
        | ok rest sf => rw [hSE] at hrec; exact ⟨by omega, hrec.2⟩

theorem dictElems_spec {tokens : List Token} {e : Nat} (hE : HasEofAt tokens e)
    {sub : PState → PRes Expr} {i0 : Nat}
    (hadv : SubAdv e sub) (hnf : SubNF e i0 sub) :
    ∀ (f : Nat) (s : PState), i0 ≤ s.i → s.i ≤ e →
      match dictElems tokens sub f s with
      | .fuelOut => ¬ (e + 1 - s.i ≤ f)
      | .err _ s' => s.i ≤ s'.i ∧ s'.i ≤ e
      | .ok _ s' => s.i + 1 ≤ s'.i ∧ s'.i ≤ e := by
  intro f
  induction f with
  | zero =>
    intro s h0 hs
    simp only [dictElems]
    omega
  | succ f IH =>
    intro s h0 hs
    cases hsub : sub s with
    | fuelOut => exact absurd hsub (hnf s h0 hs)
    | err er s' =>
      have hsubres := hadv s hs
      rw [hsub] at hsubres
      simp only [dictElems, hsub]
      exact hsubres
    | ok key s₁ =>
      have hsubres := hadv s hs
      rw [hsub] at hsubres
      have h1i : s.i + 1 ≤ s₁.i := hsubres.1
      have h1e : s₁.i ≤ e := hsubres.2
      cases hcl : check_and_consume tokens [.Colon] s₁ with
      | none =>
        simp only [dictElems, hsub, hcl]
        exact ⟨by omega, h1e⟩
      | some p =>
        obtain ⟨c, s₂⟩ := p
        obtain ⟨hlt2, h2i, h2e⟩ := cac_bounds hE (by decide) h1e hcl
        cases hval : sub s₂ with
        | fuelOut => exact absurd hval (hnf s₂ (by omega) h2e)
        | err er s' =>
          have hvres := hadv s₂ h2e
          rw [hval] at hvres
          simp only [dictElems, hsub, hcl, hval]
          exact ⟨by omega, hvres.2⟩
        | ok value s₃ =>
          have hvres := hadv s₂ h2e
          rw [hval] at hvres
          have h3i : s₂.i + 1 ≤ s₃.i := hvres.1
          have h3e : s₃.i ≤ e := hvres.2
          cases hcm : check_and_consume tokens [.Comma] s₃ with
          | none =>
            simp only [dictElems, hsub, hcl, hval, hcm]
            exact ⟨by omega, h3e⟩
          | some q =>
            obtain ⟨c2, s₄⟩ := q
            obtain ⟨hlt4, h4i, h4e⟩ := cac_bounds hE (by decide) h3e hcm
            have hrec := IH s₄ (by omega) h4e
            simp only [dictElems, hsub, hcl, hval, hcm]
            cases hDE : dictElems tokens sub f s₄ with
            | fuelOut => rw [hDE] at hrec; intro hle; exact hrec (by omega)
            | err er2 sf => rw [hDE] at hrec; exact ⟨by omega, hrec.2⟩
            | ok rest sf => rw [hDE] at hrec; exact ⟨by omega, hrec.2⟩

theorem stmtsUntil_spec {tokens : List Token} {e : Nat}
    {stop : List TokenType} {sub : PState → PRes Stmt} {i0 : Nat}
    (hadv : SubAdv e sub) (hnf : SubNF e i0 sub) :
    ∀ (f : Nat) (s : PState), i0 ≤ s.i → s.i ≤ e →
      match stmtsUntil tokens stop sub f s with
      | .fuelOut => ¬ (e + 1 - s.i ≤ f)
      | .err _ s' => s.i ≤ s'.i ∧ s'.i ≤ e
      | .ok _ s' => s.i ≤ s'.i ∧ s'.i ≤ e := by
  intro f
  induction f with
  | zero =>
    intro s h0 hs
    simp only [stmtsUntil]
    omega
  | succ f IH =>
    intro s h0 hs
    by_cases hcn : check_next tokens stop s = true
    · simp only [stmtsUntil, hcn, if_true]
      exact ⟨le_refl _, hs⟩
    · cases hsub : sub s with
      | fuelOut => exact absurd hsub (hnf s h0 hs)
      | err er s' =>
        have hsubres := hadv s hs
        rw [hsub] at hsubres
        simp only [stmtsUntil, hcn, if_false, hsub]
        exact hsubres
      | ok st s₁ =>
        have hsubres := hadv s hs
        rw [hsub] at hsubres
        have h1i : s.i + 1 ≤ s₁.i := hsubres.1
        have h1e : s₁.i ≤ e := hsubres.2
        have hrec := IH s₁ (by omega) h1e
        simp only [stmtsUntil, hcn, if_false, hsub]
        cases hSU : stmtsUntil tokens stop sub f s₁ with
        | fuelOut => rw [hSU] at hrec; intro hle; exact hrec (by omega)
        | err er2 sf => rw [hSU] at hrec; exact ⟨by omega, hrec.2⟩
        | ok rest sf => rw [hSU] at hrec; exact ⟨by omega, hrec.2⟩

theorem paramsList_spec {tokens : List Token} {e : Nat} (hE : HasEofAt tokens e) :
    ∀ (f : Nat) (s : PState), s.i ≤ e →
      match paramsList tokens f s with
      | .fuelOut => ¬ (e + 1 - s.i ≤ f)
      | .err _ s' => s.i ≤ s'.i ∧ s'.i ≤ e
      | .ok _ s' => s.i + 1 ≤ s'.i ∧ s'.i ≤ e := by
  intro f
  induction f with
  | zero =>
    intro s hs
    simp only [paramsList]
    omega
  | succ f IH =>
    intro s hs
    cases hid : check_and_consume tokens [.Identifier] s with
    | none =>
      simp only [paramsList, hid]
      exact ⟨le_refl _, hs⟩
    | some p =>
      obtain ⟨t, s₁⟩ := p
      obtain ⟨hlt, h1i, h1e⟩ := cac_bounds hE (by decide) hs hid
      cases hcm : check_and_consume tokens [.Comma] s₁ with
      | none =>
        simp only [paramsList, hid, hcm]
        exact ⟨by omega, h1e⟩
      | some q =>
        obtain ⟨c, s₂⟩ := q
        obtain ⟨hlt2, h2i, h2e⟩ := cac_bounds hE (by decide) h1e hcm
        have hrec := IH s₂ h2e
        simp only [paramsList, hid, hcm]
        cases hPL : paramsList tokens f s₂ with
        | fuelOut => rw [hPL] at hrec; intro hle; exact hrec (by omega)
        | err er2 sf => rw [hPL] at hrec; exact ⟨by omega, hrec.2⟩
        | ok rest sf => rw [hPL] at hrec; exact ⟨by omega, hrec.2⟩

theorem elemChain_spec {tokens : List Token} {e : Nat} (hE : HasEofAt tokens e)
    {sub : PState → PRes Expr} {i0 : Nat}
    (hadv : SubAdv e sub) (hnf : SubNF e i0 sub) :
    ∀ (f : Nat) (ex : Expr) (s : PState), i0 ≤ s.i → s.i ≤ e →
      match elemChain tokens sub f ex s with
      | .fuelOut => ¬ (e + 1 - s.i ≤ f)
      | .err _ s' => s.i ≤ s'.i ∧ s'.i ≤ e
      | .ok _ s' => s.i ≤ s'.i ∧ s'.i ≤ e := by
  intro f
  induction f with
  | zero =>
    intro ex s h0 hs
    simp only [elemChain]
    omega
  | succ f IH =>
    intro ex s h0 hs
    cases hc : check_and_consume tokens [.LeftSquare] s with
    | none =>
      simp only [elemChain, hc]
      exact ⟨le_refl _, hs⟩
    | some p =>
      obtain ⟨b, s₁⟩ := p
      obtain ⟨hlt, h1i, h1e⟩ := cac_bounds hE (by decide) hs hc
      cases hsub : sub s₁ with
      | fuelOut => exact absurd hsub (hnf s₁ (by omega) h1e)
      | err er s' =>
        have hsubres := hadv s₁ h1e
        rw [hsub] at hsubres
        simp only [elemChain, hc, hsub]
        exact ⟨by omega, hsubres.2⟩
      | ok index s₂ =>
        have hsubres := hadv s₁ h1e
        rw [hsub] at hsubres
        have h2i : s₁.i + 1 ≤ s₂.i := hsubres.1
        have h2e : s₂.i ≤ e := hsubres.2
        cases hx : expect tokens .RightSquare ']' s₂ with
        | fuelOut => exact absurd hx expect_not_fuelOut
        | err er s' =>
          obtain ⟨her, hs'⟩ := expect_err hx
          simp only [elemChain, hc, hsub, hx]
          subst hs'
          exact ⟨by omega, h2e⟩
        | ok u s₃ =>
          obtain ⟨hlt3, h3i, h3e⟩ := expect_bounds hE (by decide) h2e hx
          have hrec := IH (.element s₂.line ex index) s₃ (by omega) h3e
          simp only [elemChain, hc, hsub, hx]
          cases hEC : elemChain tokens sub f (.element s₂.line ex index) s₃ with
          | fuelOut => rw [hEC] at hrec; intro hle; exact hrec (by omega)
          | err er2 sf => rw [hEC] at hrec; exact ⟨by omega, hrec.2⟩
          | ok ex2 sf => rw [hEC] at hrec; exact ⟨by omega, hrec.2⟩

theorem callChain_spec {tokens : List Token} {e : Nat} (hE : HasEofAt tokens e)
    {sub : PState → PRes Expr} {i0 : Nat}
    (hadv : SubAdv e sub) (hnf : SubNF e i0 sub) :
    ∀ (f : Nat) (ex : Expr) (s : PState), i0 ≤ s.i → s.i ≤ e →
      match callChain tokens sub f ex s with
      | .fuelOut => ¬ (e + 1 - s.i ≤ f)
      | .err _ s' => s.i ≤ s'.i ∧ s'.i ≤ e
      | .ok _ s' => s.i ≤ s'.i ∧ s'.i ≤ e := by
  intro f
  induction f with
  | zero =>
    intro ex s h0 hs
    simp only [callChain]
    omega
  | succ f IH =>
    intro ex s h0 hs
    cases hc : check_and_consume tokens [.LeftParen] s with
    | none =>
      simp only [callChain, hc]
      exact ⟨le_refl _, hs⟩
    | some p =>
      obtain ⟨b, s₁⟩ := p
      obtain ⟨hlt, h1i, h1e⟩ := cac_bounds hE (by decide) hs hc
      have hargs :
          ∀ (res : PRes (List Expr)),
            (if check_next tokens [.RightParen] s₁ then .ok [] s₁
             else sepExprs tokens sub f s₁ : PRes (List Expr)) = res →
            match res with
            | .fuelOut => ¬ (e + 1 - s₁.i ≤ f)
            | .err _ s' => s₁.i ≤ s'.i ∧ s'.i ≤ e
            | .ok _ s' => s₁.i ≤ s'.i ∧ s'.i ≤ e := by
        intro res hres
        by_cases hrp : check_next tokens [.RightParen] s₁ = true
        · rw [if_pos hrp] at hres
          subst hres
          exact ⟨le_refl _, h1e⟩
        · rw [if_neg hrp] at hres
          have := sepExprs_spec hE hadv hnf f s₁ (by omega) h1e
          rw [hres] at this
          cases res with
          | fuelOut => exact this
          | err er s' => exact this
          | ok a s' => exact ⟨by omega, this.2⟩
      cases hif :
          (if check_next tokens [.RightParen] s₁ then .ok [] s₁
           else sepExprs tokens sub f s₁ : PRes (List Expr)) with
      | fuelOut =>
        have := hargs _ hif
        simp only [callChain, hc, hif]
        intro hle
        exact this (by omega)
      | err er s' =>
        have := hargs _ hif
        simp only [callChain, hc, hif]
        exact ⟨by omega, this.2⟩
      | ok arguments s₂ =>
        have hargres := hargs _ hif
        have h2i : s₁.i ≤ s₂.i := hargres.1
        have h2e : s₂.i ≤ e := hargres.2
        cases hx : expect tokens .RightParen ')' s₂ with
        | fuelOut => exact absurd hx expect_not_fuelOut
        | err er s' =>
          obtain ⟨her, hs'⟩ := expect_err hx
          simp only [callChain, hc, hif, hx]
          subst hs'
          exact ⟨by omega, h2e⟩
        | ok u s₃ =>
          obtain ⟨hlt3, h3i, h3e⟩ := expect_bounds hE (by decide) h2e hx
          have hrec := IH (.call s₃.line ex arguments) s₃ (by omega) h3e
          simp only [callChain, hc, hif, hx]
          cases hCC : callChain tokens sub f (.call s₃.line ex arguments) s₃ with
          | fuelOut => rw [hCC] at hrec; intro hle; exact hrec (by omega)
          | err er2 sf => rw [hCC] at hrec; exact ⟨by omega, hrec.2⟩
          | ok ex2 sf => rw [hCC] at hrec; exact ⟨by omega, hrec.2⟩

theorem leftChain_adv {tokens : List Token} {e : Nat} (hE : HasEofAt tokens e)
    {ops : List TokenType} {sub : PState → PRes Expr}
    (hops : TokenType.Eof ∉ ops) (hadv : SubAdv e sub) :
    ∀ (f : Nat) (ex : Expr) (s : PState), s.i ≤ e →
      match leftChain tokens ops sub f ex s with
      | .fuelOut => True
      | .err _ s' => s.i ≤ s'.i ∧ s'.i ≤ e
      | .ok _ s' => s.i ≤ s'.i ∧ s'.i ≤ e := by
  intro f
  induction f with
  | zero =>
    intro ex s hs
    simp only [leftChain]
  | succ f IH =>
    intro ex s hs
    cases hc : check_and_consume tokens ops s with
    | none =>
      simp only [leftChain, hc]
      exact ⟨le_refl _, hs⟩
    | some p =>
      obtain ⟨op, s₁⟩ := p
      obtain ⟨hlt, h1i, h1e⟩ := cac_bounds hE hops hs hc
      cases hsub : sub s₁ with
      | fuelOut => simp only [leftChain, hc, hsub]
      | err er s' =>
        have hsubres := hadv s₁ h1e
        rw [hsub] at hsubres
        simp only [leftChain, hc, hsub]
        exact ⟨by omega, hsubres.2⟩
      | ok right s₂ =>
        have hsubres := hadv s₁ h1e
        rw [hsub] at hsubres
        have h2i : s₁.i + 1 ≤ s₂.i := hsubres.1
        have h2e : s₂.i ≤ e := hsubres.2
        have hrec := IH (.binary s₂.line ex op right) s₂ h2e
        simp only [leftChain, hc, hsub]
        cases hLC : leftChain tokens ops sub f (.binary s₂.line ex op right) s₂ with
        | fuelOut => trivial
        | err er2 sf => rw [hLC] at hrec; exact ⟨by omega, hrec.2⟩
        | ok ex2 sf => rw [hLC] at hrec; exact ⟨by omega, hrec.2⟩

theorem sepExprs_adv {tokens : List Token} {e : Nat} (hE : HasEofAt tokens e)
    {sub : PState → PRes Expr} (hadv : SubAdv e sub) :
    ∀ (f : Nat) (s : PState), s.i ≤ e →
      match sepExprs tokens sub f s with
      | .fuelOut => True
      | .err _ s' => s.i ≤ s'.i ∧ s'.i ≤ e
      | .ok _ s' => s.i + 1 ≤ s'.i ∧ s'.i ≤ e := by
  intro f
  induction f with
  | zero =>
    intro s hs
    simp only [sepExprs]
  | succ f IH =>
    intro s hs
    cases hsub : sub s with
    | fuelOut => simp only [sepExprs, hsub]
    | err er s' =>
      have hsubres := hadv s hs
      rw [hsub] at hsubres
      simp only [sepExprs, hsub]
      exact hsubres
    | ok ex s₁ =>
      have hsubres := hadv s hs
      rw [hsub] at hsubres
      have h1i : s.i + 1 ≤ s₁.i := hsubres.1
      have h1e : s₁.i ≤ e := hsubres.2
      cases hcm : check_and_consume tokens [.Comma] s₁ with
      | none =>
        simp only [sepExprs, hsub, hcm]
        exact ⟨h1i, h1e⟩
      | some p =>
        obtain ⟨c, s₂⟩ := p
        obtain ⟨hlt2, h2i, h2e⟩ := cac_bounds hE (by decide) h1e hcm
        have hrec := IH s₂ h2e
        simp only [sepExprs, hsub, hcm]
        cases hSE : sepExprs tokens sub f s₂ with
        | fuelOut => trivial
        | err er2 sf => rw [hSE] at hrec; exact ⟨by omega, hrec.2⟩
        | ok rest sf => rw [hSE] at hrec; exact ⟨by omega, hrec.2⟩

theorem dictElems_adv {tokens : List Token} {e : Nat} (hE : HasEofAt tokens e)
    {sub : PState → PRes Expr} (hadv : SubAdv e sub) :
    ∀ (f : Nat) (s : PState), s.i ≤ e →
      match dictElems tokens sub f s with
      | .fuelOut => True
      | .err _ s' => s.i ≤ s'.i ∧ s'.i ≤ e
      | .ok _ s' => s.i + 1 ≤ s'.i ∧ s'.i ≤ e := by
  intro f
  induction f with
  | zero =>
    intro s hs
    simp only [dictElems]
  | succ f IH =>
    intro s hs
    cases hsub : sub s with
    | fuelOut => simp only [dictElems, hsub]
    | err er s' =>
      have hsubres := hadv s hs
      rw [hsub] at hsubres
      simp only [dictElems, hsub]
      exact hsubres
    | ok key s₁ =>
      have hsubres := hadv s hs
      rw [hsub] at hsubres
      have h1i : s.i + 1 ≤ s₁.i := hsubres.1
      have h1e : s₁.i ≤ e := hsubres.2
      cases hcl : check_and_consume tokens [.Colon] s₁ with
      | none =>
        simp only [dictElems, hsub, hcl]
        exact ⟨by omega, h1e⟩
      | some p =>
        obtain ⟨c, s₂⟩ := p
        obtain ⟨hlt2, h2i, h2e⟩ := cac_bounds hE (by decide) h1e hcl
        cases hval : sub s₂ with
        | fuelOut => simp only [dictElems, hsub, hcl, hval]
        | err er s' =>
          have hvres := hadv s₂ h2e
          rw [hval] at hvres
          simp only [dictElems, hsub, hcl, hval]
          exact ⟨by omega, hvres.2⟩
        | ok value s₃ =>
          have hvres := hadv s₂ h2e
          rw [hval] at hvres
          have h3i : s₂.i + 1 ≤ s₃.i := hvres.1
          have h3e : s₃.i ≤ e := hvres.2
          cases hcm : check_and_consume tokens [.Comma] s₃ with
          | none =>
            simp only [dictElems, hsub, hcl, hval, hcm]
            exact ⟨by omega, h3e⟩
          | some q =>
            obtain ⟨c2, s₄⟩ := q
            obtain ⟨hlt4, h4i, h4e⟩ := cac_bounds hE (by decide) h3e hcm
            have hrec := IH s₄ h4e
            simp only [dictElems, hsub, hcl, hval, hcm]
            cases hDE : dictElems tokens sub f s₄ with
            | fuelOut => trivial
            | err er2 sf => rw [hDE] at hrec; exact ⟨by omega, hrec.2⟩
            | ok rest sf => rw [hDE] at hrec; exact ⟨by omega, hrec.2⟩

theorem stmtsUntil_adv {tokens : List Token} {e : Nat}
    {stop : List TokenType} {sub : PState → PRes Stmt}
    (hadv : SubAdv e sub) :
    ∀ (f : Nat) (s : PState), s.i ≤ e →
      match stmtsUntil tokens stop sub f s with
      | .fuelOut => True
      | .err _ s' => s.i ≤ s'.i ∧ s'.i ≤ e
      | .ok _ s' => s.i ≤ s'.i ∧ s'.i ≤ e := by
  intro f
  induction f with
  | zero =>
    intro s hs
    simp only [stmtsUntil]
  | succ f IH =>
    intro s hs
    by_cases hcn : check_next tokens stop s = true
    · simp only [stmtsUntil, hcn, if_true]
      exact ⟨le_refl _, hs⟩
    · cases hsub : sub s with
      | fuelOut => simp [stmtsUntil, hcn, hsub]
      | err er s' =>
        have hsubres := hadv s hs
        rw [hsub] at hsubres
        simp only [stmtsUntil, hcn, if_false, hsub]
        exact hsubres
      | ok st s₁ =>
        have hsubres := hadv s hs
        rw [hsub] at hsubres
        have h1i : s.i + 1 ≤ s₁.i := hsubres.1
        have h1e : s₁.i ≤ e := hsubres.2
        have hrec := IH s₁ h1e
        simp only [stmtsUntil, hcn, if_false, hsub]
        cases hSU : stmtsUntil tokens stop sub f s₁ with
        | fuelOut => trivial
        | err er2 sf => rw [hSU] at hrec; exact ⟨by omega, hrec.2⟩
        | ok rest sf => rw [hSU] at hrec; exact ⟨by omega, hrec.2⟩

theorem paramsList_adv {tokens : List Token} {e : Nat} (hE : HasEofAt tokens e) :
    ∀ (f : Nat) (s : PState), s.i ≤ e →
      match paramsList tokens f s with
      | .fuelOut => True
      | .err _ s' => s.i ≤ s'.i ∧ s'.i ≤ e
      | .ok _ s' => s.i + 1 ≤ s'.i ∧ s'.i ≤ e := by
  intro f
  induction f with
  | zero =>
    intro s hs
    simp only [paramsList]
  | succ f IH =>
    intro s hs
    cases hid : check_and_consume tokens [.Identifier] s with
    | none =>
      simp only [paramsList, hid]
      exact ⟨le_refl _, hs⟩
    | some p =>
      obtain ⟨t, s₁⟩ := p
      obtain ⟨hlt, h1i, h1e⟩ := cac_bounds hE (by decide) hs hid
      cases hcm : check_and_consume tokens [.Comma] s₁ with
      | none =>
        simp only [paramsList, hid, hcm]
        exact ⟨by omega, h1e⟩
      | some q =>
        obtain ⟨c, s₂⟩ := q
        obtain ⟨hlt2, h2i, h2e⟩ := cac_bounds hE (by decide) h1e hcm
        have hrec := IH s₂ h2e
        simp only [paramsList, hid, hcm]
        cases hPL : paramsList tokens f s₂ with
        | fuelOut => trivial
        | err er2 sf => rw [hPL] at hrec; exact ⟨by omega, hrec.2⟩
        | ok rest sf => rw [hPL] at hrec; exact ⟨by omega, hrec.2⟩

theorem elemChain_adv {tokens : List Token} {e : Nat} (hE : HasEofAt tokens e)
    {sub : PState → PRes Expr} (hadv : SubAdv e sub) :
    ∀ (f : Nat) (ex : Expr) (s : PState), s.i ≤ e →
      match elemChain tokens sub f ex s with
      | .fuelOut => True
      | .err _ s' => s.i ≤ s'.i ∧ s'.i ≤ e
      | .ok _ s' => s.i ≤ s'.i ∧ s'.i ≤ e := by
  intro f
  induction f with
  | zero =>
    intro ex s hs
    simp only [elemChain]
  | succ f IH =>
    intro ex s hs
    cases hc : check_and_consume tokens [.LeftSquare] s with
    | none =>
      simp only [elemChain, hc]
      exact ⟨le_refl _, hs⟩
    | some p =>
      obtain ⟨b, s₁⟩ := p
      obtain ⟨hlt, h1i, h1e⟩ := cac_bounds hE (by decide) hs hc
      cases hsub : sub s₁ with
      | fuelOut => simp only [elemChain, hc, hsub]
      | err er s' =>
        have hsubres := hadv s₁ h1e
        rw [hsub] at hsubres
        simp only [elemChain, hc, hsub]
        exact ⟨by omega, hsubres.2⟩
      | ok index s₂ =>
        have hsubres := hadv s₁ h1e
        rw [hsub] at hsubres
        have h2i : s₁.i + 1 ≤ s₂.i := hsubres.1
        have h2e : s₂.i ≤ e := hsubres.2
        cases hx : expect tokens .RightSquare ']' s₂ with
        | fuelOut => exact absurd hx expect_not_fuelOut
        | err er s' =>
          obtain ⟨her, hs'⟩ := expect_err hx
          simp only [elemChain, hc, hsub, hx]
          subst hs'
          exact ⟨by omega, h2e⟩
        | ok u s₃ =>
          obtain ⟨hlt3, h3i, h3e⟩ := expect_bounds hE (by decide) h2e hx
          have hrec := IH (.element s₂.line ex index) s₃ h3e
          simp only [elemChain, hc, hsub, hx]
          cases hEC : elemChain tokens sub f (.element s₂.line ex index) s₃ with
          | fuelOut => trivial
          | err er2 sf => rw [hEC] at hrec; exact ⟨by omega, hrec.2⟩
          | ok ex2 sf => rw [hEC] at hrec; exact ⟨by omega, hrec.2⟩

theorem callChain_adv {tokens : List Token} {e : Nat} (hE : HasEofAt tokens e)
    {sub : PState → PRes Expr} (hadv : SubAdv e sub) :
    ∀ (f : Nat) (ex : Expr) (s : PState), s.i ≤ e →
      match callChain tokens sub f ex s with
      | .fuelOut => True
      | .err _ s' => s.i ≤ s'.i ∧ s'.i ≤ e
      | .ok _ s' => s.i ≤ s'.i ∧ s'.i ≤ e := by
  intro f
  induction f with
  | zero =>
    intro ex s hs
    simp only [callChain]
  | succ f IH =>
    intro ex s hs
    cases hc : check_and_consume tokens [.LeftParen] s with
    | none =>
      simp only [callChain, hc]
      exact ⟨le_refl _, hs⟩
    | some p =>
      obtain ⟨b, s₁⟩ := p
      obtain ⟨hlt, h1i, h1e⟩ := cac_bounds hE (by decide) hs hc
      have hargs :
          ∀ (res : PRes (List Expr)),
            (if check_next tokens [.RightParen] s₁ then .ok [] s₁
             else sepExprs tokens sub f s₁ : PRes (List Expr)) = res →
            match res with
            | .fuelOut => True
            | .err _ s' => s₁.i ≤ s'.i ∧ s'.i ≤ e
            | .ok _ s' => s₁.i ≤ s'.i ∧ s'.i ≤ e := by
        intro res hres
        by_cases hrp : check_next tokens [.RightParen] s₁ = true
        · rw [if_pos hrp] at hres
          subst hres
          exact ⟨le_refl _, h1e⟩
        · rw [if_neg hrp] at hres
          have := sepExprs_adv hE hadv f s₁ h1e
          rw [hres] at this
          cases res with
          | fuelOut => trivial
          | err er s' => exact this
          | ok a s' => exact ⟨by omega, this.2⟩
      cases hif :
          (if check_next tokens [.RightParen] s₁ then .ok [] s₁
           else sepExprs tokens sub f s₁ : PRes (List Expr)) with
      | fuelOut => simp only [callChain, hc, hif]
      | err er s' =>
        have := hargs _ hif
        simp only [callChain, hc, hif]
        exact ⟨by omega, this.2⟩
      | ok arguments s₂ =>
        have hargres := hargs _ hif
        have h2i : s₁.i ≤ s₂.i := hargres.1
        have h2e : s₂.i ≤ e := hargres.2
        cases hx : expect tokens .RightParen ')' s₂ with
        | fuelOut => exact absurd hx expect_not_fuelOut
        | err er s' =>
          obtain ⟨her, hs'⟩ := expect_err hx
          simp only [callChain, hc, hif, hx]
          subst hs'
          exact ⟨by omega, h2e⟩
        | ok u s₃ =>
          obtain ⟨hlt3, h3i, h3e⟩ := expect_bounds hE (by decide) h2e hx
          have hrec := IH (.call s₃.line ex arguments) s₃ h3e
          simp only [callChain, hc, hif, hx]
          cases hCC : callChain tokens sub f (.call s₃.line ex arguments) s₃ with
          | fuelOut => trivial
          | err er2 sf => rw [hCC] at hrec; exact ⟨by omega, hrec.2⟩
          | ok ex2 sf => rw [hCC] at hrec; exact ⟨by omega, hrec.2⟩

theorem pok_subAdv {tokens : List Token} {e : Nat} {α : Type}
    {p : Nat → PState → PRes α} {r : Nat} {f : Nat}
    (h : POk tokens e p r true f) : SubAdv e (p f) := by
  intro s' hs'
  have hres := h s' hs'
  cases hp : p f s' with
  | fuelOut => trivial
  | err er s₂ => rw [hp] at hres; exact hres
  | ok a s₂ => rw [hp] at hres; simpa using hres

theorem pok_subNF {tokens : List Token} {e : Nat} {α : Type}
    {p : Nat → PState → PRes α} {r : Nat} {strict : Bool} {f : Nat} {i0 : Nat}
    (h : POk tokens e p r strict f)
    (harith : ∀ i, i0 ≤ i → i ≤ e → (tokens.length + 1 - i) * 32 + r ≤ f) :
    SubNF e i0 (p f) := by
  intro s' h0 hs' hfo
  have hres := h s' hs'
  rw [hfo] at hres
  exact hres (harith s'.i h0 hs')

theorem mult_div_mod_step {tokens : List Token} {e f : Nat} (hE : HasEofAt tokens e)
    (hun : POk tokens e (unary tokens) 4 true f) :
    POk tokens e (mult_div_mod tokens) 5 true (f+1) := by
  have hlen : e < tokens.length := hasEofAt_lt_length hE
  intro s hs
  cases ha : unary tokens f s with
  | fuelOut =>
    have hstep : mult_div_mod tokens (f+1) s = .fuelOut := by
      simp only [mult_div_mod_succ, ha]
    rw [hstep]
    intro hle
    have hres := hun s hs
    rw [ha] at hres
    exact hres (by omega)
  | err er s' =>
    have hstep : mult_div_mod tokens (f+1) s = .err er s' := by
      simp only [mult_div_mod_succ, ha]
    rw [hstep]
    have hres := hun s hs
    rw [ha] at hres
    exact hres
  | ok ex s₁ =>
    have hstep : mult_div_mod tokens (f+1) s =
        leftChain tokens [.Star, .Slash, .Percent] (unary tokens f) f ex s₁ := by
      simp only [mult_div_mod_succ, ha]
    rw [hstep]
    have hares := hun s hs
    rw [ha] at hares
    have h1i : s.i + 1 ≤ s₁.i := by simpa using hares.1
    have h1e : s₁.i ≤ e := hares.2
    have hadv : SubAdv e (unary tokens f) := pok_subAdv hun
    have hLC := leftChain_adv hE
      (by decide : TokenType.Eof ∉ [TokenType.Star, TokenType.Slash, TokenType.Percent]) hadv f ex s₁ h1e
    cases hlc : leftChain tokens [.Star, .Slash, .Percent] (unary tokens f) f ex s₁ with
    | fuelOut =>
      intro hle
      have hnf : SubNF e (s.i + 1) (unary tokens f) :=
        pok_subNF hun (by intro i h0 hie; omega)
      have hfc := leftChain_spec hE (by decide : TokenType.Eof ∉ [TokenType.Star, TokenType.Slash, TokenType.Percent]) hadv hnf f ex s₁ (by omega) h1e
      rw [hlc] at hfc
      exact hfc (by omega)
    | err er sf => rw [hlc] at hLC; exact ⟨by omega, hLC.2⟩
    | ok exf sf => rw [hlc] at hLC; exact ⟨by simp; omega, hLC.2⟩

theorem add_sub_step {tokens : List Token} {e f : Nat} (hE : HasEofAt tokens e)
    (hmd : POk tokens e (mult_div_mod tokens) 5 true f) :
    POk tokens e (add_sub tokens) 6 true (f+1) := by
  have hlen : e < tokens.length := hasEofAt_lt_length hE
  intro s hs
  cases ha : mult_div_mod tokens f s with
  | fuelOut =>
    have hstep : add_sub tokens (f+1) s = .fuelOut := by
      simp only [add_sub_succ, ha]
    rw [hstep]
    intro hle
    have hres := hmd s hs
    rw [ha] at hres
    exact hres (by omega)
  | err er s' =>
    have hstep : add_sub tokens (f+1) s = .err er s' := by
      simp only [add_sub_succ, ha]
    rw [hstep]
    have hres := hmd s hs
    rw [ha] at hres
    exact hres
  | ok ex s₁ =>
    have hstep : add_sub tokens (f+1) s =
        leftChain tokens [.Plus, .Minus] (mult_div_mod tokens f) f ex s₁ := by
      simp only [add_sub_succ, ha]
    rw [hstep]
    have hares := hmd s hs
    rw [ha] at hares
    have h1i : s.i + 1 ≤ s₁.i := by simpa using hares.1
    have h1e : s₁.i ≤ e := hares.2
    have hadv : SubAdv e (mult_div_mod tokens f) := pok_subAdv hmd
    have hLC := leftChain_adv hE
      (by decide : TokenType.Eof ∉ [TokenType.Plus, TokenType.Minus]) hadv f ex s₁ h1e
    cases hlc : leftChain tokens [.Plus, .Minus] (mult_div_mod tokens f) f ex s₁ with
    | fuelOut =>
      intro hle
      have hnf : SubNF e (s.i + 1) (mult_div_mod tokens f) :=
        pok_subNF hmd (by intro i h0 hie; omega)
      have hfc := leftChain_spec hE (by decide : TokenType.Eof ∉ [TokenType.Plus, TokenType.Minus]) hadv hnf f ex s₁ (by omega) h1e
      rw [hlc] at hfc
      exact hfc (by omega)
    | err er sf => rw [hlc] at hLC; exact ⟨by omega, hLC.2⟩
    | ok exf sf => rw [hlc] at hLC; exact ⟨by simp; omega, hLC.2⟩

theorem comparison_step {tokens : List Token} {e f : Nat} (hE : HasEofAt tokens e)
    (has : POk tokens e (add_sub tokens) 6 true f) :
    POk tokens e (comparison tokens) 7 true (f+1) := by
  have hlen : e < tokens.length := hasEofAt_lt_length hE
  intro s hs
  cases ha : add_sub tokens f s with
  | fuelOut =>
    have hstep : comparison tokens (f+1) s = .fuelOut := by
      simp only [comparison_succ, ha]
    rw [hstep]
    intro hle
    have hres := has s hs
    rw [ha] at hres
    exact hres (by omega)
  | err er s' =>
    have hstep : comparison tokens (f+1) s = .err er s' := by
      simp only [comparison_succ, ha]
    rw [hstep]
    have hres := has s hs
    rw [ha] at hres
    exact hres
  | ok ex s₁ =>
    have hstep : comparison tokens (f+1) s =
        leftChain tokens [.Greater, .Less, .GreaterEqual, .LessEqual]
          (add_sub tokens f) f ex s₁ := by
      simp only [comparison_succ, ha]
    rw [hstep]
    have hares := has s hs
    rw [ha] at hares
    have h1i : s.i + 1 ≤ s₁.i := by simpa using hares.1
    have h1e : s₁.i ≤ e := hares.2
    have hadv : SubAdv e (add_sub tokens f) := pok_subAdv has
    have hLC := leftChain_adv hE
      (by decide : TokenType.Eof ∉ [TokenType.Greater, TokenType.Less, TokenType.GreaterEqual, TokenType.LessEqual])
      hadv f ex s₁ h1e
    cases hlc : leftChain tokens [.Greater, .Less, .GreaterEqual, .LessEqual]
        (add_sub tokens f) f ex s₁ with
    | fuelOut =>
      intro hle
      have hnf : SubNF e (s.i + 1) (add_sub tokens f) :=
        pok_subNF has (by intro i h0 hie; omega)
      have hfc := leftChain_spec hE (by decide : TokenType.Eof ∉ [TokenType.Greater, TokenType.Less, TokenType.GreaterEqual, TokenType.LessEqual]) hadv hnf f ex s₁ (by omega) h1e
      rw [hlc] at hfc
      exact hfc (by omega)
    | err er sf => rw [hlc] at hLC; exact ⟨by omega, hLC.2⟩
    | ok exf sf => rw [hlc] at hLC; exact ⟨by simp; omega, hLC.2⟩

theorem equality_step {tokens : List Token} {e f : Nat} (hE : HasEofAt tokens e)
    (hcp : POk tokens e (comparison tokens) 7 true f) :
    POk tokens e (equality tokens) 8 true (f+1) := by
  have hlen : e < tokens.length := hasEofAt_lt_length hE
  intro s hs
  cases ha : comparison tokens f s with
  | fuelOut =>
    have hstep : equality tokens (f+1) s = .fuelOut := by
      simp only [equality_succ, ha]
    rw [hstep]
    intro hle
    have hres := hcp s hs
    rw [ha] at hres
    exact hres (by omega)
  | err er s' =>
    have hstep : equality tokens (f+1) s = .err er s' := by
      simp only [equality_succ, ha]
    rw [hstep]
    have hres := hcp s hs
    rw [ha] at hres
    exact hres
  | ok ex s₁ =>
    have hstep : equality tokens (f+1) s =
        leftChain tokens [.EqualEqual, .BangEqual] (comparison tokens f) f ex s₁ := by
      simp only [equality_succ, ha]
    rw [hstep]
    have hares := hcp s hs
    rw [ha] at hares
    have h1i : s.i + 1 ≤ s₁.i := by simpa using hares.1
    have h1e : s₁.i ≤ e := hares.2
    have hadv : SubAdv e (comparison tokens f) := pok_subAdv hcp
    have hLC := leftChain_adv hE
      (by decide : TokenType.Eof ∉ [TokenType.EqualEqual, TokenType.BangEqual]) hadv f ex s₁ h1e
    cases hlc : leftChain tokens [.EqualEqual, .BangEqual] (comparison tokens f) f ex s₁ with
    | fuelOut =>
      intro hle
      have hnf : SubNF e (s.i + 1) (comparison tokens f) :=
        pok_subNF hcp (by intro i h0 hie; omega)
      have hfc := leftChain_spec hE (by decide : TokenType.Eof ∉ [TokenType.EqualEqual, TokenType.BangEqual]) hadv hnf f ex s₁ (by omega) h1e
      rw [hlc] at hfc
      exact hfc (by omega)
    | err er sf => rw [hlc] at hLC; exact ⟨by omega, hLC.2⟩
    | ok exf sf => rw [hlc] at hLC; exact ⟨by simp; omega, hLC.2⟩

theorem and_step {tokens : List Token} {e f : Nat} (hE : HasEofAt tokens e)
    (heq : POk tokens e (equality tokens) 8 true f) :
    POk tokens e (and_ tokens) 9 true (f+1) := by
  have hlen : e < tokens.length := hasEofAt_lt_length hE
  intro s hs
  cases ha : equality tokens f s with
  | fuelOut =>
    have hstep : and_ tokens (f+1) s = .fuelOut := by
      simp only [and_succ, ha]
    rw [hstep]
    intro hle
    have hres := heq s hs
    rw [ha] at hres
    exact hres (by omega)
  | err er s' =>
    have hstep : and_ tokens (f+1) s = .err er s' := by
      simp only [and_succ, ha]
    rw [hstep]
    have hres := heq s hs
    rw [ha] at hres
    exact hres
  | ok ex s₁ =>
    have hstep : and_ tokens (f+1) s =
        leftChain tokens [.And] (equality tokens f) f ex s₁ := by
      simp only [and_succ, ha]
    rw [hstep]
    have hares := heq s hs
    rw [ha] at hares
    have h1i : s.i + 1 ≤ s₁.i := by simpa using hares.1
    have h1e : s₁.i ≤ e := hares.2
    have hadv : SubAdv e (equality tokens f) := pok_subAdv heq
    have hLC := leftChain_adv hE
      (by decide : TokenType.Eof ∉ [TokenType.And]) hadv f ex s₁ h1e
    cases hlc : leftChain tokens [.And] (equality tokens f) f ex s₁ with
    | fuelOut =>
      intro hle
      have hnf : SubNF e (s.i + 1) (equality tokens f) :=
        pok_subNF heq (by intro i h0 hie; omega)
      have hfc := leftChain_spec hE (by decide : TokenType.Eof ∉ [TokenType.And]) hadv hnf f ex s₁ (by omega) h1e
      rw [hlc] at hfc
      exact hfc (by omega)
    | err er sf => rw [hlc] at hLC; exact ⟨by omega, hLC.2⟩
    | ok exf sf => rw [hlc] at hLC; exact ⟨by simp; omega, hLC.2⟩

theorem or_step {tokens : List Token} {e f : Nat} (hE : HasEofAt tokens e)
    (hand : POk tokens e (and_ tokens) 9 true f) :
    POk tokens e (or_ tokens) 10 true (f+1) := by
  have hlen : e < tokens.length := hasEofAt_lt_length hE
  intro s hs
  cases ha : and_ tokens f s with
  | fuelOut =>
    have hstep : or_ tokens (f+1) s = .fuelOut := by
      simp only [or_succ, ha]
    rw [hstep]
    intro hle
    have hres := hand s hs
    rw [ha] at hres
    exact hres (by omega)
  | err er s' =>
    have hstep : or_ tokens (f+1) s = .err er s' := by
      simp only [or_succ, ha]
    rw [hstep]
    have hres := hand s hs
    rw [ha] at hres
    exact hres
  | ok ex s₁ =>
    have hstep : or_ tokens (f+1) s =
        leftChain tokens [.Or] (and_ tokens f) f ex s₁ := by
      simp only [or_succ, ha]
    rw [hstep]
    have hares := hand s hs
    rw [ha] at hares
    have h1i : s.i + 1 ≤ s₁.i := by simpa using hares.1
    have h1e : s₁.i ≤ e := hares.2
    have hadv : SubAdv e (and_ tokens f) := pok_subAdv hand
    have hLC := leftChain_adv hE
      (by decide : TokenType.Eof ∉ [TokenType.Or]) hadv f ex s₁ h1e
    cases hlc : leftChain tokens [.Or] (and_ tokens f) f ex s₁ with
    | fuelOut =>
      intro hle
      have hnf : SubNF e (s.i + 1) (and_ tokens f) :=
        pok_subNF hand (by intro i h0 hie; omega)
      have hfc := leftChain_spec hE (by decide : TokenType.Eof ∉ [TokenType.Or]) hadv hnf f ex s₁ (by omega) h1e
      rw [hlc] at hfc
      exact hfc (by omega)
    | err er sf => rw [hlc] at hLC; exact ⟨by omega, hLC.2⟩
    | ok exf sf => rw [hlc] at hLC; exact ⟨by simp; omega, hLC.2⟩

theorem unary_step {tokens : List Token} {e f : Nat} (hE : HasEofAt tokens e)
    (hun : POk tokens e (unary tokens) 4 true f)
    (hel : POk tokens e (element tokens) 3 true f) :
    POk tokens e (unary tokens) 4 true (f+1) := by
  have hlen : e < tokens.length := hasEofAt_lt_length hE
  intro s hs
  cases hc : check_and_consume tokens [.Bang, .Minus] s with
  | none =>
    have hstep : unary tokens (f+1) s = element tokens f s := by
      simp only [unary_succ, hc]
    rw [hstep]
    have hres := hel s hs
    cases ha : element tokens f s with
    | fuelOut =>
      rw [ha] at hres
      intro hle
      exact hres (by omega)
    | err er s' => rw [ha] at hres; exact hres
    | ok ex s' =>
      rw [ha] at hres
      have hx : s.i + 1 ≤ s'.i := by simpa using hres.1
      exact ⟨by simp; omega, hres.2⟩
  | some p =>
    obtain ⟨op, s₁⟩ := p
    obtain ⟨hlt, h1i, h1e⟩ := cac_bounds hE (by decide) hs hc
    cases ha : unary tokens f s₁ with
    | fuelOut =>
      have hstep : unary tokens (f+1) s = .fuelOut := by
        simp only [unary_succ, hc, ha]
      rw [hstep]
      intro hle
      have hres := hun s₁ h1e
      rw [ha] at hres
      exact hres (by omega)
    | err er s' =>
      have hstep : unary tokens (f+1) s = .err er s' := by
        simp only [unary_succ, hc, ha]
      rw [hstep]
      have hres := hun s₁ h1e
      rw [ha] at hres
      exact ⟨by omega, hres.2⟩
    | ok right s₂ =>
      have hstep : unary tokens (f+1) s = .ok (.unary s₂.line op right) s₂ := by
        simp only [unary_succ, hc, ha]
      rw [hstep]
      have hres := hun s₁ h1e
      rw [ha] at hres
      have h2i : s₁.i + 1 ≤ s₂.i := by simpa using hres.1
      exact ⟨by simp; omega, hres.2⟩

theorem assignment_step {tokens : List Token} {e f : Nat} (hE : HasEofAt tokens e)
    (hor : POk tokens e (or_ tokens) 10 true f)
    (hasg : POk tokens e (assignment tokens) 11 true f) :
    POk tokens e (assignment tokens) 11 true (f+1) := by
  have hlen : e < tokens.length := hasEofAt_lt_length hE
  intro s hs
  cases ha : or_ tokens f s with
  | fuelOut =>
    have hstep : assignment tokens (f+1) s = .fuelOut := by
      simp only [assignment_succ, ha]
    rw [hstep]
    intro hle
    have hres := hor s hs
    rw [ha] at hres
    exact hres (by omega)
  | err er s' =>
    have hstep : assignment tokens (f+1) s = .err er s' := by
      simp only [assignment_succ, ha]
    rw [hstep]
    have hres := hor s hs
    rw [ha] at hres
    exact hres
  | ok ex s₁ =>
    have hares := hor s hs
    rw [ha] at hares
    have h1i : s.i + 1 ≤ s₁.i := by simpa using hares.1
    have h1e : s₁.i ≤ e := hares.2
    cases hcq : check_and_consume tokens [.Equal] s₁ with
    | none =>
      have hstep : assignment tokens (f+1) s = .ok ex s₁ := by
        simp only [assignment_succ, ha, hcq]
      rw [hstep]
      exact ⟨by simp; omega, h1e⟩
    | some p =>
      obtain ⟨t, s₂⟩ := p
      obtain ⟨hlt2, h2i, h2e⟩ := cac_bounds hE (by decide) h1e hcq
      cases hv : assignment tokens f s₂ with
      | fuelOut =>
        have hstep : assignment tokens (f+1) s = .fuelOut := by
          simp only [assignment_succ, ha, hcq, hv]
        rw [hstep]
        intro hle
        have hres := hasg s₂ h2e
        rw [hv] at hres
        exact hres (by omega)
      | err er s' =>
        have hstep : assignment tokens (f+1) s = .err er s' := by
          simp only [assignment_succ, ha, hcq, hv]
        rw [hstep]
        have hres := hasg s₂ h2e
        rw [hv] at hres
        exact ⟨by omega, hres.2⟩
      | ok value s₃ =>
        have hstep : assignment tokens (f+1) s =
            .ok (.assignment s₃.line ex value) s₃ := by
          simp only [assignment_succ, ha, hcq, hv]
        rw [hstep]
        have hres := hasg s₂ h2e
        rw [hv] at hres
        have h3i : s₂.i + 1 ≤ s₃.i := by simpa using hres.1
        exact ⟨by simp; omega, hres.2⟩

theorem expression_step {tokens : List Token} {e f : Nat}
    (hasg : POk tokens e (assignment tokens) 11 true f) :
    POk tokens e (expression tokens) 12 true (f+1) := by
  intro s hs
  rw [expression_succ]
  have hres := hasg s hs
  cases ha : assignment tokens f s with
  | fuelOut =>
    rw [ha] at hres
    intro hle
    exact hres (by omega)
  | err er s' => rw [ha] at hres; exact hres
  | ok ex s' => rw [ha] at hres; exact hres

theorem primary_step {tokens : List Token} {e f : Nat} (hE : HasEofAt tokens e)
    (hexp : POk tokens e (expression tokens) 12 true f) :
    POk tokens e (primary tokens) 1 true (f+1) := by
  have hlen : e < tokens.length := hasEofAt_lt_length hE
  intro s hs
  have hadv : SubAdv e (expression tokens f) := pok_subAdv hexp
  cases hT : check_and_consume tokens [.True] s with
  | some p =>
    obtain ⟨t, s'⟩ := p
    obtain ⟨hlt, h1i, h1e⟩ := cac_bounds hE (by decide) hs hT
    have hstep : primary tokens (f+1) s = .ok (.literal s'.line (.bool true)) s' := by
      simp only [primary_succ, hT]
    rw [hstep]
    exact ⟨by simp; omega, h1e⟩
  | none =>
  cases hF : check_and_consume tokens [.False] s with
  | some p =>
    obtain ⟨t, s'⟩ := p
    obtain ⟨hlt, h1i, h1e⟩ := cac_bounds hE (by decide) hs hF
    have hstep : primary tokens (f+1) s = .ok (.literal s'.line (.bool false)) s' := by
      simp only [primary_succ, hT, hF]
    rw [hstep]
    exact ⟨by simp; omega, h1e⟩
  | none =>
  cases hN : check_and_consume tokens [.Null] s with
  | some p =>
    obtain ⟨t, s'⟩ := p
    obtain ⟨hlt, h1i, h1e⟩ := cac_bounds hE (by decide) hs hN
    have hstep : primary tokens (f+1) s = .ok (.literal s'.line .null) s' := by
      simp only [primary_succ, hT, hF, hN]
    rw [hstep]
    exact ⟨by simp; omega, h1e⟩
  | none =>
  cases hSN : check_and_consume tokens [.String_, .Number] s with
  | some p =>
    obtain ⟨t, s'⟩ := p
    obtain ⟨hlt, h1i, h1e⟩ := cac_bounds hE (by decide) hs hSN
    have hstep : primary tokens (f+1) s = .ok (.literal s'.line t.literal) s' := by
      simp only [primary_succ, hT, hF, hN, hSN]
    rw [hstep]
    exact ⟨by simp; omega, h1e⟩
  | none =>
  cases hLP : check_and_consume tokens [.LeftParen] s with
  | some p =>
    obtain ⟨t, s₁⟩ := p
    obtain ⟨hlt, h1i, h1e⟩ := cac_bounds hE (by decide) hs hLP
    cases hex : expression tokens f s₁ with
    | fuelOut =>
      have hstep : primary tokens (f+1) s = .fuelOut := by
        simp only [primary_succ, hT, hF, hN, hSN, hLP, hex]
      rw [hstep]
      intro hle
      have hres := hexp s₁ h1e
      rw [hex] at hres
      exact hres (by omega)
    | err er s' =>
      have hstep : primary tokens (f+1) s = .err er s' := by
        simp only [primary_succ, hT, hF, hN, hSN, hLP, hex]
      rw [hstep]
      have hres := hexp s₁ h1e
      rw [hex] at hres
      exact ⟨by omega, hres.2⟩
    | ok ex s₂ =>
      have hres := hexp s₁ h1e
      rw [hex] at hres
      have h2i : s₁.i + 1 ≤ s₂.i := by simpa using hres.1
      have h2e : s₂.i ≤ e := hres.2
      cases hx : expect tokens .RightParen ')' s₂ with
      | fuelOut => exact absurd hx expect_not_fuelOut
      | err er s' =>
        obtain ⟨her, hs'⟩ := expect_err hx
        have hstep : primary tokens (f+1) s = .err er s' := by
          simp only [primary_succ, hT, hF, hN, hSN, hLP, hex, hx]
        rw [hstep]
        subst hs'
        exact ⟨by omega, h2e⟩
      | ok u s₃ =>
        obtain ⟨hlt3, h3i, h3e⟩ := expect_bounds hE (by decide) h2e hx
        have hstep : primary tokens (f+1) s = .ok (.grouping s₃.line ex) s₃ := by
          simp only [primary_succ, hT, hF, hN, hSN, hLP, hex, hx]
        rw [hstep]
        exact ⟨by simp; omega, h3e⟩
  | none =>
  cases hLS : check_and_consume tokens [.LeftSquare] s with
  | some p =>
    obtain ⟨t, s₁⟩ := p
    obtain ⟨hlt, h1i, h1e⟩ := cac_bounds hE (by decide) hs hLS
    have hargs :
        ∀ (res : PRes (List Expr)),
          (if check_next tokens [.RightSquare] s₁ then .ok [] s₁
           else sepExprs tokens (expression tokens f) f s₁ : PRes (List Expr)) = res →
          match res with
          | .fuelOut => True
          | .err _ s' => s₁.i ≤ s'.i ∧ s'.i ≤ e
          | .ok _ s' => s₁.i ≤ s'.i ∧ s'.i ≤ e := by
      intro res hres
      by_cases hrp : check_next tokens [.RightSquare] s₁ = true
      · rw [if_pos hrp] at hres
        subst hres
        exact ⟨le_refl _, h1e⟩
      · rw [if_neg hrp] at hres
        have := sepExprs_adv hE hadv f s₁ h1e
        rw [hres] at this
        cases res with
        | fuelOut => trivial
        | err er s' => exact this
        | ok a s' => exact ⟨by omega, this.2⟩
    cases hif :
        (if check_next tokens [.RightSquare] s₁ then .ok [] s₁
         else sepExprs tokens (expression tokens f) f s₁ : PRes (List Expr)) with
    | fuelOut =>
      have hstep : primary tokens (f+1) s = .fuelOut := by
        simp only [primary_succ, hT, hF, hN, hSN, hLP, hLS, hif]
      rw [hstep]
      intro hle
      have hrp : ¬ check_next tokens [.RightSquare] s₁ = true := by
        intro hx
        rw [if_pos hx] at hif
        exact PRes.noConfusion hif
      rw [if_neg hrp] at hif
      have hnf : SubNF e s₁.i (expression tokens f) :=
        pok_subNF hexp (by intro i h0 hie; omega)
      have hfc := sepExprs_spec hE hadv hnf f s₁ (le_refl _) h1e
      rw [hif] at hfc
      exact hfc (by omega)
    | err er s' =>
      have hstep : primary tokens (f+1) s = .err er s' := by
        simp only [primary_succ, hT, hF, hN, hSN, hLP, hLS, hif]
      rw [hstep]
      have := hargs _ hif
      exact ⟨by omega, this.2⟩
    | ok elements s₂ =>
      have hargres := hargs _ hif
      have h2i : s₁.i ≤ s₂.i := hargres.1
      have h2e : s₂.i ≤ e := hargres.2
      cases hx : expect tokens .RightSquare ']' s₂ with
      | fuelOut => exact absurd hx expect_not_fuelOut
      | err er s' =>
        obtain ⟨her, hs'⟩ := expect_err hx
        have hstep : primary tokens (f+1) s = .err er s' := by
          simp only [primary_succ, hT, hF, hN, hSN, hLP, hLS, hif, hx]
        rw [hstep]
        subst hs'
        exact ⟨by omega, h2e⟩
      | ok u s₃ =>
        obtain ⟨hlt3, h3i, h3e⟩ := expect_bounds hE (by decide) h2e hx
        have hstep : primary tokens (f+1) s = .ok (.array s₃.line elements) s₃ := by
          simp only [primary_succ, hT, hF, hN, hSN, hLP, hLS, hif, hx]
        rw [hstep]
        exact ⟨by simp; omega, h3e⟩
  | none =>
  cases hLC : check_and_consume tokens [.LeftCurly] s with
  | some p =>
    obtain ⟨t, s₁⟩ := p
    obtain ⟨hlt, h1i, h1e⟩ := cac_bounds hE (by decide) hs hLC
    have hargs :
        ∀ (res : PRes (List (Expr × Expr))),
          (if check_next tokens [.RightCurly] s₁ then .ok [] s₁
           else dictElems tokens (expression tokens f) f s₁ : PRes (List (Expr × Expr))) = res →
          match res with
          | .fuelOut => True
          | .err _ s' => s₁.i ≤ s'.i ∧ s'.i ≤ e
          | .ok _ s' => s₁.i ≤ s'.i ∧ s'.i ≤ e := by
      intro res hres
      by_cases hrp : check_next tokens [.RightCurly] s₁ = true
      · rw [if_pos hrp] at hres
        subst hres
        exact ⟨le_refl _, h1e⟩
      · rw [if_neg hrp] at hres
        have := dictElems_adv hE hadv f s₁ h1e
        rw [hres] at this
        cases res with
        | fuelOut => trivial
        | err er s' => exact this
        | ok a s' => exact ⟨by omega, this.2⟩
    cases hif :
        (if check_next tokens [.RightCurly] s₁ then .ok [] s₁
         else dictElems tokens (expression tokens f) f s₁ : PRes (List (Expr × Expr))) with
    | fuelOut =>
      have hstep : primary tokens (f+1) s = .fuelOut := by
        simp only [primary_succ, hT, hF, hN, hSN, hLP, hLS, hLC, hif]
      rw [hstep]
      intro hle
      have hrp : ¬ check_next tokens [.RightCurly] s₁ = true := by
        intro hx
        rw [if_pos hx] at hif
        exact PRes.noConfusion hif
      rw [if_neg hrp] at hif
      have hnf : SubNF e s₁.i (expression tokens f) :=
        pok_subNF hexp (by intro i h0 hie; omega)
      have hfc := dictElems_spec hE hadv hnf f s₁ (le_refl _) h1e
      rw [hif] at hfc
      exact hfc (by omega)
    | err er s' =>
      have hstep : primary tokens (f+1) s = .err er s' := by
        simp only [primary_succ, hT, hF, hN, hSN, hLP, hLS, hLC, hif]
      rw [hstep]
      have := hargs _ hif
      exact ⟨by omega, this.2⟩
    | ok elements s₂ =>
      have hargres := hargs _ hif
      have h2i : s₁.i ≤ s₂.i := hargres.1
      have h2e : s₂.i ≤ e := hargres.2
      cases hx : expect tokens .RightCurly '}' s₂ with
      | fuelOut => exact absurd hx expect_not_fuelOut
      | err er s' =>
        obtain ⟨her, hs'⟩ := expect_err hx
        have hstep : primary tokens (f+1) s = .err er s' := by
          simp only [primary_succ, hT, hF, hN, hSN, hLP, hLS, hLC, hif, hx]
        rw [hstep]
        subst hs'
        exact ⟨by omega, h2e⟩
      | ok u s₃ =>
        obtain ⟨hlt3, h3i, h3e⟩ := expect_bounds hE (by decide) h2e hx
        have hstep : primary tokens (f+1) s = .ok (.dictionary s₃.line elements) s₃ := by
          simp only [primary_succ, hT, hF, hN, hSN, hLP, hLS, hLC, hif, hx]
        rw [hstep]
        exact ⟨by simp; omega, h3e⟩
  | none =>
  cases hId : check_and_consume tokens [.Identifier] s with
  | some p =>
    obtain ⟨t, s'⟩ := p
    obtain ⟨hlt, h1i, h1e⟩ := cac_bounds hE (by decide) hs hId
    have hstep : primary tokens (f+1) s = .ok (.variable_ s'.line t.lexeme) s' := by
      simp only [primary_succ, hT, hF, hN, hSN, hLP, hLS, hLC, hId]
    rw [hstep]
    exact ⟨by simp; omega, h1e⟩
  | none =>
    have hstep : primary tokens (f+1) s = .err (.ExpectedExpression s.line) s := by
      simp only [primary_succ, hT, hF, hN, hSN, hLP, hLS, hLC, hId]
    rw [hstep]
    exact ⟨le_refl _, hs⟩

theorem call_step {tokens : List Token} {e f : Nat} (hE : HasEofAt tokens e)
    (hpr : POk tokens e (primary tokens) 1 true f)
    (hexp : POk tokens e (expression tokens) 12 true f) :
    POk tokens e (call tokens) 2 true (f+1) := by
  have hlen : e < tokens.length := hasEofAt_lt_length hE
  intro s hs
  have hadv : SubAdv e (expression tokens f) := pok_subAdv hexp
  cases hp : primary tokens f s with
  | fuelOut =>
    have hstep : call tokens (f+1) s = .fuelOut := by
      simp only [call_succ, hp]
    rw [hstep]
    intro hle
    have hres := hpr s hs
    rw [hp] at hres
    exact hres (by omega)
  | err er s' =>
    have hstep : call tokens (f+1) s = .err er s' := by
      simp only [call_succ, hp]
    rw [hstep]
    have hres := hpr s hs
    rw [hp] at hres
    exact hres
  | ok ex s₁ =>
    have hstep : call tokens (f+1) s =
        callChain tokens (expression tokens f) f ex s₁ := by
      simp only [call_succ, hp]
    rw [hstep]
    have hres := hpr s hs
    rw [hp] at hres
    have h1i : s.i + 1 ≤ s₁.i := by simpa using hres.1
    have h1e : s₁.i ≤ e := hres.2
    have hCC := callChain_adv hE hadv f ex s₁ h1e
    cases hcc : callChain tokens (expression tokens f) f ex s₁ with
    | fuelOut =>
      intro hle
      have hnf : SubNF e (s.i + 1) (expression tokens f) :=
        pok_subNF hexp (by intro i h0 hie; omega)
      have hfc := callChain_spec hE hadv hnf f ex s₁ (by omega) h1e
      rw [hcc] at hfc
      exact hfc (by omega)
    | err er sf => rw [hcc] at hCC; exact ⟨by omega, hCC.2⟩
    | ok exf sf => rw [hcc] at hCC; exact ⟨by simp; omega, hCC.2⟩

theorem element_step {tokens : List Token} {e f : Nat} (hE : HasEofAt tokens e)
    (hcl : POk tokens e (call tokens) 2 true f)
    (hexp : POk tokens e (expression tokens) 12 true f) :
    POk tokens e (element tokens) 3 true (f+1) := by
  have hlen : e < tokens.length := hasEofAt_lt_length hE
  intro s hs
  have hadv : SubAdv e (expression tokens f) := pok_subAdv hexp
  cases hp : call tokens f s with
  | fuelOut =>
    have hstep : element tokens (f+1) s = .fuelOut := by
      simp only [element_succ, hp]
    rw [hstep]
    intro hle
    have hres := hcl s hs
    rw [hp] at hres
    exact hres (by omega)
  | err er s' =>
    have hstep : element tokens (f+1) s = .err er s' := by
      simp only [element_succ, hp]
    rw [hstep]
    have hres := hcl s hs
    rw [hp] at hres
    exact hres
  | ok ex s₁ =>
    have hstep : element tokens (f+1) s =
        elemChain tokens (expression tokens f) f ex s₁ := by
      simp only [element_succ, hp]
    rw [hstep]
    have hres := hcl s hs
    rw [hp] at hres
    have h1i : s.i + 1 ≤ s₁.i := by simpa using hres.1
    have h1e : s₁.i ≤ e := hres.2
    have hEC := elemChain_adv hE hadv f ex s₁ h1e
    cases hec : elemChain tokens (expression tokens f) f ex s₁ with
    | fuelOut =>
      intro hle
      have hnf : SubNF e (s.i + 1) (expression tokens f) :=
        pok_subNF hexp (by intro i h0 hie; omega)
      have hfc := elemChain_spec hE hadv hnf f ex s₁ (by omega) h1e
      rw [hec] at hfc
      exact hfc (by omega)
    | err er sf => rw [hec] at hEC; exact ⟨by omega, hEC.2⟩
    | ok exf sf => rw [hec] at hEC; exact ⟨by simp; omega, hEC.2⟩

theorem return_succ_ok {tokens : List Token} {f : Nat} {s : PState} {ex : Expr}
    {s' : PState} (hex : expression tokens f s = .ok ex s') :
    return_ tokens (f+1) s = .ok (.return_ s'.line (some ex)) s' := by
  rw [return_succ, hex]

theorem return_succ_swallow {tokens : List Token} {f : Nat} {s : PState}
    {l : Nat} {s' : PState}
    (hex : expression tokens f s = .err (.ExpectedExpression l) s') :
    return_ tokens (f+1) s = .ok (.return_ s'.line none) s' := by
  rw [return_succ, hex]

theorem return_succ_propagate {tokens : List Token} {f : Nat} {s : PState}
    {er : ErrorType} {s' : PState}
    (hex : expression tokens f s = .err er s')
    (hne : isExpectedExpression er = false) :
    return_ tokens (f+1) s = .err er s' := by
  rw [return_succ, hex]
  cases er <;> simp_all [isExpectedExpression]

theorem return_succ_fuelOut {tokens : List Token} {f : Nat} {s : PState}
    (hex : expression tokens f s = .fuelOut) :
    return_ tokens (f+1) s = .fuelOut := by
  rw [return_succ, hex]

theorem print_step {tokens : List Token} {e f : Nat} (hE : HasEofAt tokens e)
    (hexp : POk tokens e (expression tokens) 12 true f) :
    POk tokens e (print tokens) 13 true (f+1) := by
  have hlen : e < tokens.length := hasEofAt_lt_length hE
  intro s hs
  cases hex : expression tokens f s with
  | fuelOut =>
    have hstep : print tokens (f+1) s = .fuelOut := by
      simp only [print_succ, hex]
    rw [hstep]
    intro hle
    have hres := hexp s hs
    rw [hex] at hres
    exact hres (by omega)
  | err er s' =>
    have hstep : print tokens (f+1) s = .err er s' := by
      simp only [print_succ, hex]
    rw [hstep]
    have hres := hexp s hs
    rw [hex] at hres
    exact hres
  | ok ex s' =>
    have hstep : print tokens (f+1) s = .ok (.print s.line ex) s' := by
      simp only [print_succ, hex]
    rw [hstep]
    have hres := hexp s hs
    rw [hex] at hres
    have h1 : s.i + 1 ≤ s'.i := by simpa using hres.1
    exact ⟨by simp; omega, hres.2⟩

theorem return_step {tokens : List Token} {e f : Nat} (hE : HasEofAt tokens e)
    (hexp : POk tokens e (expression tokens) 12 true f) :
    POk tokens e (return_ tokens) 13 false (f+1) := by
  have hlen : e < tokens.length := hasEofAt_lt_length hE
  intro s hs
  cases hex : expression tokens f s with
  | fuelOut =>
    rw [return_succ_fuelOut hex]
    intro hle
    have hres := hexp s hs
    rw [hex] at hres
    exact hres (by omega)
  | err er s' =>
    have hres := hexp s hs
    rw [hex] at hres
    cases hee : isExpectedExpression er with
    | true =>
      cases er <;> simp [isExpectedExpression] at hee
      case ExpectedExpression l =>
        rw [return_succ_swallow hex]
        exact ⟨by simp; omega, hres.2⟩
    | false =>
      rw [return_succ_propagate hex hee]
      exact hres
  | ok ex s' =>
    rw [return_succ_ok hex]
    have hres := hexp s hs
    rw [hex] at hres
    have h1 : s.i + 1 ≤ s'.i := by simpa using hres.1
    exact ⟨by simp; omega, hres.2⟩

theorem var_step {tokens : List Token} {e f : Nat} (hE : HasEofAt tokens e)
    (hexp : POk tokens e (expression tokens) 12 true f) :
    POk tokens e (var tokens) 13 true (f+1) := by
  have hlen : e < tokens.length := hasEofAt_lt_length hE
  intro s hs
  cases hid : check_and_consume tokens [.Identifier] s with
  | none =>
    have hstep : var tokens (f+1) s = .err (.ExpectedVariableName s.line) s := by
      simp only [var_succ, hid]
    rw [hstep]
    exact ⟨le_refl _, hs⟩
  | some p =>
    obtain ⟨idt, s₁⟩ := p
    obtain ⟨hlt, h1i, h1e⟩ := cac_bounds hE (by decide) hs hid
    cases hq : expect tokens .Equal '=' s₁ with
    | fuelOut => exact absurd hq expect_not_fuelOut
    | err er s' =>
      obtain ⟨her, hs'⟩ := expect_err hq
      have hstep : var tokens (f+1) s = .err er s' := by
        simp only [var_succ, hid, hq]
      rw [hstep]
      subst hs'
      exact ⟨by omega, h1e⟩
    | ok u s₂ =>
      obtain ⟨hlt2, h2i, h2e⟩ := expect_bounds hE (by decide) h1e hq
      cases hex : expression tokens f s₂ with
      | fuelOut =>
        have hstep : var tokens (f+1) s = .fuelOut := by
          simp only [var_succ, hid, hq, hex]
        rw [hstep]
        intro hle
        have hres := hexp s₂ h2e
        rw [hex] at hres
        exact hres (by omega)
      | err er s' =>
        have hstep : var tokens (f+1) s = .err er s' := by
          simp only [var_succ, hid, hq, hex]
        rw [hstep]
        have hres := hexp s₂ h2e
        rw [hex] at hres
        exact ⟨by omega, hres.2⟩
      | ok value s₃ =>
        have hstep : var tokens (f+1) s = .ok (.varDecl s₃.line idt.lexeme value) s₃ := by
          simp only [var_succ, hid, hq, hex]
        rw [hstep]
        have hres := hexp s₂ h2e
        rw [hex] at hres
        have h3 : s₂.i + 1 ≤ s₃.i := by simpa using hres.1
        exact ⟨by simp; omega, hres.2⟩

theorem while_step {tokens : List Token} {e f : Nat} (hE : HasEofAt tokens e)
    (hexp : POk tokens e (expression tokens) 12 true f)
    (hblk : POk tokens e (block tokens) 13 true f) :
    POk tokens e (while_ tokens) 13 true (f+1) := by
  have hlen : e < tokens.length := hasEofAt_lt_length hE
  intro s hs
  cases hq : expect tokens .LeftParen '(' s with
  | fuelOut => exact absurd hq expect_not_fuelOut
  | err er s' =>
    obtain ⟨her, hs'⟩ := expect_err hq
    have hstep : while_ tokens (f+1) s = .err er s' := by
      simp only [while_succ, hq]
    rw [hstep]
    subst hs'
    exact ⟨le_refl _, hs⟩
  | ok u s₁ =>
    obtain ⟨hlt, h1i, h1e⟩ := expect_bounds hE (by decide) hs hq
    cases hex : expression tokens f s₁ with
    | fuelOut =>
      have hstep : while_ tokens (f+1) s = .fuelOut := by
        simp only [while_succ, hq, hex]
      rw [hstep]
      intro hle
      have hres := hexp s₁ h1e
      rw [hex] at hres
      exact hres (by omega)
    | err er s' =>
      have hstep : while_ tokens (f+1) s = .err er s' := by
        simp only [while_succ, hq, hex]
      rw [hstep]
      have hres := hexp s₁ h1e
      rw [hex] at hres
      exact ⟨by omega, hres.2⟩
    | ok condition s₂ =>
      have hres := hexp s₁ h1e
      rw [hex] at hres
      have h2i : s₁.i + 1 ≤ s₂.i := by simpa using hres.1
      have h2e : s₂.i ≤ e := hres.2
      cases hq2 : expect tokens .RightParen ')' s₂ with
      | fuelOut => exact absurd hq2 expect_not_fuelOut
      | err er s' =>
        obtain ⟨her, hs'⟩ := expect_err hq2
        have hstep : while_ tokens (f+1) s = .err er s' := by
          simp only [while_succ, hq, hex, hq2]
        rw [hstep]
        subst hs'
        exact ⟨by omega, h2e⟩
      | ok u2 s₃ =>
        obtain ⟨hlt3, h3i, h3e⟩ := expect_bounds hE (by decide) h2e hq2
        cases hb : block tokens f s₃ with
        | fuelOut =>
          have hstep : while_ tokens (f+1) s = .fuelOut := by
            simp only [while_succ, hq, hex, hq2, hb]
          rw [hstep]
          intro hle
          have hres2 := hblk s₃ h3e
          rw [hb] at hres2
          exact hres2 (by omega)
        | err er s' =>
          have hstep : while_ tokens (f+1) s = .err er s' := by
            simp only [while_succ, hq, hex, hq2, hb]
          rw [hstep]
          have hres2 := hblk s₃ h3e
          rw [hb] at hres2
          exact ⟨by omega, hres2.2⟩
        | ok body s₄ =>
          have hstep : while_ tokens (f+1) s = .ok (.while_ s₄.line condition body) s₄ := by
            simp only [while_succ, hq, hex, hq2, hb]
          rw [hstep]
          have hres2 := hblk s₃ h3e
          rw [hb] at hres2
          have h4 : s₃.i + 1 ≤ s₄.i := by simpa using hres2.1
          exact ⟨by simp; omega, hres2.2⟩

theorem if_step {tokens : List Token} {e f : Nat} (hE : HasEofAt tokens e)
    (hexp : POk tokens e (expression tokens) 12 true f)
    (hblk : POk tokens e (block tokens) 13 true f)
    (heb : POk tokens e (else_body tokens) 15 true f) :
    POk tokens e (if_ tokens) 13 true (f+1) := by
  have hlen : e < tokens.length := hasEofAt_lt_length hE
  intro s hs
  cases hq : expect tokens .LeftParen '(' s with
  | fuelOut => exact absurd hq expect_not_fuelOut
  | err er s' =>
    obtain ⟨her, hs'⟩ := expect_err hq
    have hstep : if_ tokens (f+1) s = .err er s' := by
      simp only [if_succ, hq]
    rw [hstep]
    subst hs'
    exact ⟨le_refl _, hs⟩
  | ok u s₁ =>
    obtain ⟨hlt, h1i, h1e⟩ := expect_bounds hE (by decide) hs hq
    cases hex : expression tokens f s₁ with
    | fuelOut =>
      have hstep : if_ tokens (f+1) s = .fuelOut := by
        simp only [if_succ, hq, hex]
      rw [hstep]
      intro hle
      have hres := hexp s₁ h1e
      rw [hex] at hres
      exact hres (by omega)
    | err er s' =>
      have hstep : if_ tokens (f+1) s = .err er s' := by
        simp only [if_succ, hq, hex]
      rw [hstep]
      have hres := hexp s₁ h1e
      rw [hex] at hres
      exact ⟨by omega, hres.2⟩
    | ok condition s₂ =>
      have hres := hexp s₁ h1e
      rw [hex] at hres
      have h2i : s₁.i + 1 ≤ s₂.i := by simpa using hres.1
      have h2e : s₂.i ≤ e := hres.2
      cases hq2 : expect tokens .RightParen ')' s₂ with
      | fuelOut => exact absurd hq2 expect_not_fuelOut
      | err er s' =>
        obtain ⟨her, hs'⟩ := expect_err hq2
        have hstep : if_ tokens (f+1) s = .err er s' := by
          simp only [if_succ, hq, hex, hq2]
        rw [hstep]
        subst hs'
        exact ⟨by omega, h2e⟩
      | ok u2 s₃ =>
        obtain ⟨hlt3, h3i, h3e⟩ := expect_bounds hE (by decide) h2e hq2
        cases hb : block tokens f s₃ with
        | fuelOut =>
          have hstep : if_ tokens (f+1) s = .fuelOut := by
            simp only [if_succ, hq, hex, hq2, hb]
          rw [hstep]
          intro hle
          have hres2 := hblk s₃ h3e
          rw [hb] at hres2
          exact hres2 (by omega)
        | err er s' =>
          have hstep : if_ tokens (f+1) s = .err er s' := by
            simp only [if_succ, hq, hex, hq2, hb]
          rw [hstep]
          have hres2 := hblk s₃ h3e
          rw [hb] at hres2
          exact ⟨by omega, hres2.2⟩
        | ok then_body s₄ =>
          have hres2 := hblk s₃ h3e
          rw [hb] at hres2
          have h4i : s₃.i + 1 ≤ s₄.i := by simpa using hres2.1
          have h4e : s₄.i ≤ e := hres2.2
          cases hel : check_and_consume tokens [.Else] s₄ with
          | none =>
            have hstep : if_ tokens (f+1) s =
                .ok (.if_ s₄.line condition then_body none) s₄ := by
              simp only [if_succ, hq, hex, hq2, hb, hel]
            rw [hstep]
            exact ⟨by simp; omega, h4e⟩
          | some p =>
            obtain ⟨t, s₅⟩ := p
            obtain ⟨hlt5, h5i, h5e⟩ := cac_bounds hE (by decide) h4e hel
            cases heb2 : else_body tokens f s₅ with
            | fuelOut =>
              have hstep : if_ tokens (f+1) s = .fuelOut := by
                simp only [if_succ, hq, hex, hq2, hb, hel, heb2]
              rw [hstep]
              intro hle
              have hres3 := heb s₅ h5e
              rw [heb2] at hres3
              exact hres3 (by omega)
            | err er s' =>
              have hstep : if_ tokens (f+1) s = .err er s' := by
                simp only [if_succ, hq, hex, hq2, hb, hel, heb2]
              rw [hstep]
              have hres3 := heb s₅ h5e
              rw [heb2] at hres3
              exact ⟨by omega, hres3.2⟩
            | ok eb s₆ =>
              have hstep : if_ tokens (f+1) s =
                  .ok (.if_ s₆.line condition then_body (some eb)) s₆ := by
                simp only [if_succ, hq, hex, hq2, hb, hel, heb2]
              rw [hstep]
              have hres3 := heb s₅ h5e
              rw [heb2] at hres3
              have h6 : s₅.i + 1 ≤ s₆.i := by simpa using hres3.1
              exact ⟨by simp; omega, hres3.2⟩

theorem else_body_step {tokens : List Token} {e f : Nat} (hE : HasEofAt tokens e)
    (hif : POk tokens e (if_ tokens) 13 true f)
    (hblk : POk tokens e (block tokens) 13 true f) :
    POk tokens e (else_body tokens) 15 true (f+1) := by
  have hlen : e < tokens.length := hasEofAt_lt_length hE
  intro s hs
  cases hc : check_and_consume tokens [.If] s with
  | some p =>
    obtain ⟨t, s₁⟩ := p
    obtain ⟨hlt, h1i, h1e⟩ := cac_bounds hE (by decide) hs hc
    have hstep : else_body tokens (f+1) s = if_ tokens f s₁ := by
      simp only [else_body_succ, hc]
    rw [hstep]
    have hres := hif s₁ h1e
    cases hi : if_ tokens f s₁ with
    | fuelOut =>
      rw [hi] at hres
      intro hle
      exact hres (by omega)
    | err er s' =>
      rw [hi] at hres
      exact ⟨by omega, hres.2⟩
    | ok st s' =>
      rw [hi] at hres
      have hx : s₁.i + 1 ≤ s'.i := by simpa using hres.1
      exact ⟨by simp; omega, hres.2⟩
  | none =>
    have hstep : else_body tokens (f+1) s = block tokens f s := by
      simp only [else_body_succ, hc]
    rw [hstep]
    have hres := hblk s hs
    cases hb : block tokens f s with
    | fuelOut =>
      rw [hb] at hres
      intro hle
      exact hres (by omega)
    | err er s' => rw [hb] at hres; exact hres
    | ok st s' =>
      rw [hb] at hres
      have hx : s.i + 1 ≤ s'.i := by simpa using hres.1
      exact ⟨by simp; omega, hres.2⟩

theorem block_step {tokens : List Token} {e f : Nat} (hE : HasEofAt tokens e)
    (hst : POk tokens e (statement tokens) 14 true f) :
    POk tokens e (block tokens) 13 true (f+1) := by
  have hlen : e < tokens.length := hasEofAt_lt_length hE
  intro s hs
  have hadv : SubAdv e (statement tokens f) := pok_subAdv hst
  cases hq : expect tokens .LeftCurly '{' s with
  | fuelOut => exact absurd hq expect_not_fuelOut
  | err er s' =>
    obtain ⟨her, hs'⟩ := expect_err hq
    have hstep : block tokens (f+1) s = .err er s' := by
      simp only [block_succ, hq]
    rw [hstep]
    subst hs'
    exact ⟨le_refl _, hs⟩
  | ok u s₁ =>
    obtain ⟨hlt, h1i, h1e⟩ := expect_bounds hE (by decide) hs hq
    have hSU := @stmtsUntil_adv tokens e [TokenType.RightCurly, TokenType.Eof]
      (statement tokens f) hadv f s₁ h1e
    cases hsu : stmtsUntil tokens [.RightCurly, .Eof] (statement tokens f) f s₁ with
    | fuelOut =>
      have hstep : block tokens (f+1) s = .fuelOut := by
        simp only [block_succ, hq, hsu]
      rw [hstep]
      intro hle
      have hnf : SubNF e s₁.i (statement tokens f) :=
        pok_subNF hst (by intro i h0 hie; omega)
      have hfc := @stmtsUntil_spec tokens e [TokenType.RightCurly, TokenType.Eof]
        (statement tokens f) s₁.i hadv hnf f s₁ (le_refl _) h1e
      rw [hsu] at hfc
      exact hfc (by omega)
    | err er s' =>
      rw [hsu] at hSU
      have hstep : block tokens (f+1) s = .err er s' := by
        simp only [block_succ, hq, hsu]
      rw [hstep]
      exact ⟨by omega, hSU.2⟩
    | ok body s₂ =>
      rw [hsu] at hSU
      have h2i : s₁.i ≤ s₂.i := hSU.1
      have h2e : s₂.i ≤ e := hSU.2
      cases hq2 : expect tokens .RightCurly '}' s₂ with
      | fuelOut => exact absurd hq2 expect_not_fuelOut
      | err er s' =>
        obtain ⟨her, hs'⟩ := expect_err hq2
        have hstep : block tokens (f+1) s = .err er s' := by
          simp only [block_succ, hq, hsu, hq2]
        rw [hstep]
        subst hs'
        exact ⟨by omega, h2e⟩
      | ok u2 s₃ =>
        obtain ⟨hlt3, h3i, h3e⟩ := expect_bounds hE (by decide) h2e hq2
        have hstep : block tokens (f+1) s = .ok (.block s₃.line body) s₃ := by
          simp only [block_succ, hq, hsu, hq2]
        rw [hstep]
        exact ⟨by simp; omega, h3e⟩

theorem function_step {tokens : List Token} {e f : Nat} (hE : HasEofAt tokens e)
    (hblk : POk tokens e (block tokens) 13 true f) :
    POk tokens e (function tokens) 13 true (f+1) := by
  have hlen : e < tokens.length := hasEofAt_lt_length hE
  intro s hs
  cases hid : check_and_consume tokens [.Identifier] s with
  | none =>
    have hstep : function tokens (f+1) s = .err (.ExpectedFunctionName s.line) s := by
      simp only [function_succ, hid]
    rw [hstep]
    exact ⟨le_refl _, hs⟩
  | some p =>
    obtain ⟨idt, s₁⟩ := p
    obtain ⟨hlt, h1i, h1e⟩ := cac_bounds hE (by decide) hs hid
    cases hq : expect tokens .LeftParen '(' s₁ with
    | fuelOut => exact absurd hq expect_not_fuelOut
    | err er s' =>
      obtain ⟨her, hs'⟩ := expect_err hq
      have hstep : function tokens (f+1) s = .err er s' := by
        simp only [function_succ, hid, hq]
      rw [hstep]
      subst hs'
      exact ⟨by omega, h1e⟩
    | ok u s₂ =>
      obtain ⟨hlt2, h2i, h2e⟩ := expect_bounds hE (by decide) h1e hq
      have hargs :
          ∀ (res : PRes (List String)),
            (if check_next tokens [.RightParen] s₂ then .ok [] s₂
             else paramsList tokens f s₂ : PRes (List String)) = res →
            match res with
            | .fuelOut => True
            | .err _ s' => s₂.i ≤ s'.i ∧ s'.i ≤ e
            | .ok _ s' => s₂.i ≤ s'.i ∧ s'.i ≤ e := by
        intro res hres
        by_cases hrp : check_next tokens [.RightParen] s₂ = true
        · rw [if_pos hrp] at hres
          subst hres
          exact ⟨le_refl _, h2e⟩
        · rw [if_neg hrp] at hres
          have := paramsList_adv hE f s₂ h2e
          rw [hres] at this
          cases res with
          | fuelOut => trivial
          | err er s' => exact this
          | ok a s' => exact ⟨by omega, this.2⟩
      cases hif :
          (if check_next tokens [.RightParen] s₂ then .ok [] s₂
           else paramsList tokens f s₂ : PRes (List String)) with
      | fuelOut =>
        have hstep : function tokens (f+1) s = .fuelOut := by
          simp only [function_succ, hid, hq, hif]
        rw [hstep]
        intro hle
        have hrp : ¬ check_next tokens [.RightParen] s₂ = true := by
          intro hx
          rw [if_pos hx] at hif
          exact PRes.noConfusion hif
        rw [if_neg hrp] at hif
        have hfc := paramsList_spec hE f s₂ h2e
        rw [hif] at hfc
        exact hfc (by omega)
      | err er s' =>
        have hstep : function tokens (f+1) s = .err er s' := by
          simp only [function_succ, hid, hq, hif]
        rw [hstep]
        have := hargs _ hif
        exact ⟨by omega, this.2⟩
      | ok parameters s₃ =>
        have hargres := hargs _ hif
        have h3i : s₂.i ≤ s₃.i := hargres.1
        have h3e : s₃.i ≤ e := hargres.2
        cases hq2 : expect tokens .RightParen ')' s₃ with
        | fuelOut => exact absurd hq2 expect_not_fuelOut
        | err er s' =>
          obtain ⟨her, hs'⟩ := expect_err hq2
          have hstep : function tokens (f+1) s = .err er s' := by
            simp only [function_succ, hid, hq, hif, hq2]
          rw [hstep]
          subst hs'
          exact ⟨by omega, h3e⟩
        | ok u2 s₄ =>
          obtain ⟨hlt4, h4i, h4e⟩ := expect_bounds hE (by decide) h3e hq2
          cases hb : block tokens f s₄ with
          | fuelOut =>
            have hstep : function tokens (f+1) s = .fuelOut := by
              simp only [function_succ, hid, hq, hif, hq2, hb]
            rw [hstep]
            intro hle
            have hres := hblk s₄ h4e
            rw [hb] at hres
            exact hres (by omega)
          | err er s' =>
            have hstep : function tokens (f+1) s = .err er s' := by
              simp only [function_succ, hid, hq, hif, hq2, hb]
            rw [hstep]
            have hres := hblk s₄ h4e
            rw [hb] at hres
            exact ⟨by omega, hres.2⟩
          | ok body s₅ =>
            have hstep : function tokens (f+1) s =
                .ok (.function s₅.line idt.lexeme parameters body) s₅ := by
              simp only [function_succ, hid, hq, hif, hq2, hb]
            rw [hstep]
            have hres := hblk s₄ h4e
            rw [hb] at hres
            have h5 : s₄.i + 1 ≤ s₅.i := by simpa using hres.1
            exact ⟨by simp; omega, hres.2⟩

theorem for_step {tokens : List Token} {e f : Nat} (hE : HasEofAt tokens e)
    (hst : POk tokens e (statement tokens) 14 true f)
    (hexp : POk tokens e (expression tokens) 12 true f)
    (hblk : POk tokens e (block tokens) 13 true f) :
    POk tokens e (for_ tokens) 13 true (f+1) := by
  have hlen : e < tokens.length := hasEofAt_lt_length hE
  intro s hs
  cases hq : expect tokens .LeftParen '(' s with
  | fuelOut => exact absurd hq expect_not_fuelOut
  | err er s' =>
    obtain ⟨her, hs'⟩ := expect_err hq
    have hstep : for_ tokens (f+1) s = .err er s' := by
      simp only [for_succ, hq]
    rw [hstep]
    subst hs'
    exact ⟨le_refl _, hs⟩
  | ok u s₁ =>
    obtain ⟨hlt, h1i, h1e⟩ := expect_bounds hE (by decide) hs hq
    have hargs1 :
        ∀ (res : PRes (Option Stmt)),
          (if check_next tokens [.Semicolon] s₁ then .ok none s₁
           else
             match statement tokens f s₁ with
             | .fuelOut => .fuelOut
             | .err er s' => .err er s'
             | .ok st s' => .ok (some st) s' : PRes (Option Stmt)) = res →
          match res with
          | .fuelOut => True
          | .err _ s' => s₁.i ≤ s'.i ∧ s'.i ≤ e
          | .ok _ s' => s₁.i ≤ s'.i ∧ s'.i ≤ e := by
      intro res hres
      by_cases hsc : check_next tokens [.Semicolon] s₁ = true
      · rw [if_pos hsc] at hres
        subst hres
        exact ⟨le_refl _, h1e⟩
      · rw [if_neg hsc] at hres
        have hx := hst s₁ h1e
        cases hsi : statement tokens f s₁ with
        | fuelOut => rw [hsi] at hres; subst hres; trivial
        | err er s' =>
          rw [hsi] at hres
          rw [hsi] at hx
          subst hres
          exact hx
        | ok st s' =>
          rw [hsi] at hres
          rw [hsi] at hx
          subst hres
          refine ⟨?_, hx.2⟩
          have hzz : s₁.i + 1 ≤ s'.i := by simpa using hx.1
          omega
    cases hif1 :
        (if check_next tokens [.Semicolon] s₁ then .ok none s₁
         else
           match statement tokens f s₁ with
           | .fuelOut => .fuelOut
           | .err er s' => .err er s'
           | .ok st s' => .ok (some st) s' : PRes (Option Stmt)) with
    | fuelOut =>
      have hstep : for_ tokens (f+1) s = .fuelOut := by
        simp only [for_succ, hq, hif1]
      rw [hstep]
      intro hle
      have hsc : ¬ check_next tokens [.Semicolon] s₁ = true := by
        intro hx
        rw [if_pos hx] at hif1
        exact PRes.noConfusion hif1
      rw [if_neg hsc] at hif1
      have hx := hst s₁ h1e
      cases hsi : statement tokens f s₁ with
      | fuelOut =>
        rw [hsi] at hx
        exact hx (by omega)
      | err er s' => rw [hsi] at hif1; exact PRes.noConfusion hif1
      | ok st s' => rw [hsi] at hif1; exact PRes.noConfusion hif1
    | err er s₂ =>
      have hstep : for_ tokens (f+1) s = .err er s₂ := by
        simp only [for_succ, hq, hif1]
      rw [hstep]
      have := hargs1 _ hif1
      exact ⟨by omega, this.2⟩
    | ok initialiser s₂ =>
      have hargres1 := hargs1 _ hif1
      have h2i : s₁.i ≤ s₂.i := hargres1.1
      have h2e : s₂.i ≤ e := hargres1.2
      cases hcs1 : check_and_consume tokens [.Semicolon] s₂ with
      | none =>
        have hstep : for_ tokens (f+1) s =
            .err (.ExpectedSemicolonAfterInit s₂.line) s₂ := by
          simp only [for_succ, hq, hif1, hcs1]
        rw [hstep]
        exact ⟨by omega, h2e⟩
      | some p =>
        obtain ⟨t3, s₃⟩ := p
        obtain ⟨hlt3, h3i, h3e⟩ := cac_bounds hE (by decide) h2e hcs1
        have hargs2 :
            ∀ (res : PRes Expr),
              (if check_next tokens [.Semicolon] s₃ then
                 .ok (.literal s₃.line (.bool true)) s₃
               else expression tokens f s₃ : PRes Expr) = res →
              match res with
              | .fuelOut => True
              | .err _ s' => s₃.i ≤ s'.i ∧ s'.i ≤ e
              | .ok _ s' => s₃.i ≤ s'.i ∧ s'.i ≤ e := by
          intro res hres
          by_cases hsc : check_next tokens [.Semicolon] s₃ = true
          · rw [if_pos hsc] at hres
            subst hres
            exact ⟨le_refl _, h3e⟩
          · rw [if_neg hsc] at hres
            have hx := hexp s₃ h3e
            rw [hres] at hx
            cases res with
            | fuelOut => trivial
            | err er s' => exact hx
            | ok a s' =>
              refine ⟨?_, hx.2⟩
              have hzz : s₃.i + 1 ≤ s'.i := by simpa using hx.1
              omega
        cases hif2 :
            (if check_next tokens [.Semicolon] s₃ then
               .ok (.literal s₃.line (.bool true)) s₃
             else expression tokens f s₃ : PRes Expr) with
        | fuelOut =>
          have hstep : for_ tokens (f+1) s = .fuelOut := by
            simp only [for_succ, hq, hif1, hcs1, hif2]
          rw [hstep]
          intro hle
          have hsc : ¬ check_next tokens [.Semicolon] s₃ = true := by
            intro hx
            rw [if_pos hx] at hif2
            exact PRes.noConfusion hif2
          rw [if_neg hsc] at hif2
          have hx := hexp s₃ h3e
          rw [hif2] at hx
          exact hx (by omega)
        | err er s' =>
          have hstep : for_ tokens (f+1) s = .err er s' := by
            simp only [for_succ, hq, hif1, hcs1, hif2]
          rw [hstep]
          have := hargs2 _ hif2
          exact ⟨by omega, this.2⟩
        | ok condition s₄ =>
          have hargres2 := hargs2 _ hif2
          have h4i : s₃.i ≤ s₄.i := hargres2.1
          have h4e : s₄.i ≤ e := hargres2.2
          cases hcs2 : check_and_consume tokens [.Semicolon] s₄ with
          | none =>
            have hstep : for_ tokens (f+1) s =
                .err (.ExpectedSemicolonAfterCondition s₄.line) s₄ := by
              simp only [for_succ, hq, hif1, hcs1, hif2, hcs2]
            rw [hstep]
            exact ⟨by omega, h4e⟩
          | some p2 =>
            obtain ⟨t5, s₅⟩ := p2
            obtain ⟨hlt5, h5i, h5e⟩ := cac_bounds hE (by decide) h4e hcs2
            have hargs3 :
                ∀ (res : PRes (Option Stmt)),
                  (if check_next tokens [.RightParen] s₅ then .ok none s₅
                   else
                     match statement tokens f s₅ with
                     | .fuelOut => .fuelOut
                     | .err er s' => .err er s'
                     | .ok st s' => .ok (some st) s' : PRes (Option Stmt)) = res →
                  match res with
                  | .fuelOut => True
                  | .err _ s' => s₅.i ≤ s'.i ∧ s'.i ≤ e
                  | .ok _ s' => s₅.i ≤ s'.i ∧ s'.i ≤ e := by
              intro res hres
              by_cases hsc : check_next tokens [.RightParen] s₅ = true
              · rw [if_pos hsc] at hres
                subst hres
                exact ⟨le_refl _, h5e⟩
              · rw [if_neg hsc] at hres
                have hx := hst s₅ h5e
                cases hsi : statement tokens f s₅ with
                | fuelOut => rw [hsi] at hres; subst hres; trivial
                | err er s' =>
                  rw [hsi] at hres
                  rw [hsi] at hx
                  subst hres
                  exact hx
                | ok st s' =>
                  rw [hsi] at hres
                  rw [hsi] at hx
                  subst hres
                  refine ⟨?_, hx.2⟩
                  have hzz : s₅.i + 1 ≤ s'.i := by simpa using hx.1
                  omega
            cases hif3 :
                (if check_next tokens [.RightParen] s₅ then .ok none s₅
                 else
                   match statement tokens f s₅ with
                   | .fuelOut => .fuelOut
                   | .err er s' => .err er s'
                   | .ok st s' => .ok (some st) s' : PRes (Option Stmt)) with
            | fuelOut =>
              have hstep : for_ tokens (f+1) s = .fuelOut := by
                simp only [for_succ, hq, hif1, hcs1, hif2, hcs2, hif3]
              rw [hstep]
              intro hle
              have hsc : ¬ check_next tokens [.RightParen] s₅ = true := by
                intro hx
                rw [if_pos hx] at hif3
                exact PRes.noConfusion hif3
              rw [if_neg hsc] at hif3
              have hx := hst s₅ h5e
              cases hsi : statement tokens f s₅ with
              | fuelOut =>
                rw [hsi] at hx
                exact hx (by omega)
              | err er s' => rw [hsi] at hif3; exact PRes.noConfusion hif3
              | ok st s' => rw [hsi] at hif3; exact PRes.noConfusion hif3
            | err er s' =>
              have hstep : for_ tokens (f+1) s = .err er s' := by
                simp only [for_succ, hq, hif1, hcs1, hif2, hcs2, hif3]
              rw [hstep]
              have := hargs3 _ hif3
              exact ⟨by omega, this.2⟩
            | ok increment s₆ =>
              have hargres3 := hargs3 _ hif3
              have h6i : s₅.i ≤ s₆.i := hargres3.1
              have h6e : s₆.i ≤ e := hargres3.2
              cases hcs3 : check_and_consume tokens [.RightParen] s₆ with
              | none =>
                have hstep : for_ tokens (f+1) s =
                    .err (.ExpectedParenAfterIncrement s₆.line) s₆ := by
                  simp only [for_succ, hq, hif1, hcs1, hif2, hcs2, hif3, hcs3]
                rw [hstep]
                exact ⟨by omega, h6e⟩
              | some p3 =>
                obtain ⟨t7, s₇⟩ := p3
                obtain ⟨hlt7, h7i, h7e⟩ := cac_bounds hE (by decide) h6e hcs3
                cases hb : block tokens f s₇ with
                | fuelOut =>
                  have hstep : for_ tokens (f+1) s = .fuelOut := by
                    simp only [for_succ, hq, hif1, hcs1, hif2, hcs2, hif3, hcs3, hb]
                  rw [hstep]
                  intro hle
                  have hx := hblk s₇ h7e
                  rw [hb] at hx
                  exact hx (by omega)
                | err er s' =>
                  have hstep : for_ tokens (f+1) s = .err er s' := by
                    simp only [for_succ, hq, hif1, hcs1, hif2, hcs2, hif3, hcs3, hb]
                  rw [hstep]
                  have hx := hblk s₇ h7e
                  rw [hb] at hx
                  exact ⟨by omega, hx.2⟩
                | ok for_body s₈ =>
                  have hx := hblk s₇ h7e
                  rw [hb] at hx
                  have h8i : s₇.i + 1 ≤ s₈.i := by simpa using hx.1
                  have h8e : s₈.i ≤ e := hx.2
                  cases initialiser with
                  | some init =>
                    have hstep : for_ tokens (f+1) s =
                        .ok (.block s₈.line [init,
                          .while_ s₈.line condition
                            (.block s₈.line
                              (match increment with
                               | none => [for_body]
                               | some inc => [for_body, inc]))]) s₈ := by
                      simp only [for_succ, hq, hif1, hcs1, hif2, hcs2, hif3, hcs3, hb]
                      cases increment <;> rfl
                    rw [hstep]
                    exact ⟨by simp; omega, h8e⟩
                  | none =>
                    have hstep : for_ tokens (f+1) s =
                        .ok (.while_ s₈.line condition
                          (.block s₈.line
                            (match increment with
                             | none => [for_body]
                             | some inc => [for_body, inc]))) s₈ := by
                      simp only [for_succ, hq, hif1, hcs1, hif2, hcs2, hif3, hcs3, hb]
                      cases increment <;> rfl
                    rw [hstep]
                    exact ⟨by simp; omega, h8e⟩

theorem statement_step {tokens : List Token} {e f : Nat} (hE : HasEofAt tokens e)
    (hfor : POk tokens e (for_ tokens) 13 true f)
    (hfun : POk tokens e (function tokens) 13 true f)
    (hif : POk tokens e (if_ tokens) 13 true f)
    (hprn : POk tokens e (print tokens) 13 true f)
    (hret : POk tokens e (return_ tokens) 13 false f)
    (hvar : POk tokens e (var tokens) 13 true f)
    (hwhl : POk tokens e (while_ tokens) 13 true f)
    (hexp : POk tokens e (expression tokens) 12 true f) :
    POk tokens e (statement tokens) 14 true (f+1) := by
  have hlen : e < tokens.length := hasEofAt_lt_length hE
  intro s hs
  cases hBr : check_and_consume tokens [.Break] s with
  | some p =>
    obtain ⟨t, s'⟩ := p
    obtain ⟨hlt, h1i, h1e⟩ := cac_bounds hE (by decide) hs hBr
    have hstep : statement tokens (f+1) s = .ok (.break_ s'.line) s' := by
      simp only [statement_succ, hBr]
    rw [hstep]
    exact ⟨by simp; omega, h1e⟩
  | none =>
  cases hFo : check_and_consume tokens [.For] s with
  | some p =>
    obtain ⟨t, s'⟩ := p
    obtain ⟨hlt, h1i, h1e⟩ := cac_bounds hE (by decide) hs hFo
    have hstep : statement tokens (f+1) s = for_ tokens f s' := by
      simp only [statement_succ, hBr, hFo]
    rw [hstep]
    have hres := hfor s' h1e
    cases hr : for_ tokens f s' with
    | fuelOut => rw [hr] at hres; intro hle; exact hres (by omega)
    | err er sf => rw [hr] at hres; exact ⟨by omega, hres.2⟩
    | ok st sf =>
      rw [hr] at hres
      have : s'.i + 1 ≤ sf.i := by simpa using hres.1
      exact ⟨by simp; omega, hres.2⟩
  | none =>
  cases hFu : check_and_consume tokens [.Func] s with
  | some p =>
    obtain ⟨t, s'⟩ := p
    obtain ⟨hlt, h1i, h1e⟩ := cac_bounds hE (by decide) hs hFu
    have hstep : statement tokens (f+1) s = function tokens f s' := by
      simp only [statement_succ, hBr, hFo, hFu]
    rw [hstep]
    have hres := hfun s' h1e
    cases hr : function tokens f s' with
    | fuelOut => rw [hr] at hres; intro hle; exact hres (by omega)
    | err er sf => rw [hr] at hres; exact ⟨by omega, hres.2⟩
    | ok st sf =>
      rw [hr] at hres
      have : s'.i + 1 ≤ sf.i := by simpa using hres.1
      exact ⟨by simp; omega, hres.2⟩
  | none =>
  cases hIf : check_and_consume tokens [.If] s with
  | some p =>
    obtain ⟨t, s'⟩ := p
    obtain ⟨hlt, h1i, h1e⟩ := cac_bounds hE (by decide) hs hIf
    have hstep : statement tokens (f+1) s = if_ tokens f s' := by
      simp only [statement_succ, hBr, hFo, hFu, hIf]
    rw [hstep]
    have hres := hif s' h1e
    cases hr : if_ tokens f s' with
    | fuelOut => rw [hr] at hres; intro hle; exact hres (by omega)
    | err er sf => rw [hr] at hres; exact ⟨by omega, hres.2⟩
    | ok st sf =>
      rw [hr] at hres
      have : s'.i + 1 ≤ sf.i := by simpa using hres.1
      exact ⟨by simp; omega, hres.2⟩
  | none =>
  cases hPr : check_and_consume tokens [.Print] s with
  | some p =>
    obtain ⟨t, s'⟩ := p
    obtain ⟨hlt, h1i, h1e⟩ := cac_bounds hE (by decide) hs hPr
    have hstep : statement tokens (f+1) s = print tokens f s' := by
      simp only [statement_succ, hBr, hFo, hFu, hIf, hPr]
    rw [hstep]
    have hres := hprn s' h1e
    cases hr : print tokens f s' with
    | fuelOut => rw [hr] at hres; intro hle; exact hres (by omega)
    | err er sf => rw [hr] at hres; exact ⟨by omega, hres.2⟩
    | ok st sf =>
      rw [hr] at hres
      have : s'.i + 1 ≤ sf.i := by simpa using hres.1
      exact ⟨by simp; omega, hres.2⟩
  | none =>
  cases hRe : check_and_consume tokens [.Return] s with
  | some p =>
    obtain ⟨t, s'⟩ := p
    obtain ⟨hlt, h1i, h1e⟩ := cac_bounds hE (by decide) hs hRe
    have hstep : statement tokens (f+1) s = return_ tokens f s' := by
      simp only [statement_succ, hBr, hFo, hFu, hIf, hPr, hRe]
    rw [hstep]
    have hres := hret s' h1e
    cases hr : return_ tokens f s' with
    | fuelOut => rw [hr] at hres; intro hle; exact hres (by omega)
    | err er sf => rw [hr] at hres; exact ⟨by omega, hres.2⟩
    | ok st sf =>
      rw [hr] at hres
      have : s'.i ≤ sf.i := by simpa using hres.1
      exact ⟨by simp; omega, hres.2⟩
  | none =>
  cases hVa : check_and_consume tokens [.Var] s with
  | some p =>
    obtain ⟨t, s'⟩ := p
    obtain ⟨hlt, h1i, h1e⟩ := cac_bounds hE (by decide) hs hVa
    have hstep : statement tokens (f+1) s = var tokens f s' := by
      simp only [statement_succ, hBr, hFo, hFu, hIf, hPr, hRe, hVa]
    rw [hstep]
    have hres := hvar s' h1e
    cases hr : var tokens f s' with
    | fuelOut => rw [hr] at hres; intro hle; exact hres (by omega)
    | err er sf => rw [hr] at hres; exact ⟨by omega, hres.2⟩
    | ok st sf =>
      rw [hr] at hres
      have : s'.i + 1 ≤ sf.i := by simpa using hres.1
      exact ⟨by simp; omega, hres.2⟩
  | none =>
  cases hWh : check_and_consume tokens [.While] s with
  | some p =>
    obtain ⟨t, s'⟩ := p
    obtain ⟨hlt, h1i, h1e⟩ := cac_bounds hE (by decide) hs hWh
    have hstep : statement tokens (f+1) s = while_ tokens f s' := by
      simp only [statement_succ, hBr, hFo, hFu, hIf, hPr, hRe, hVa, hWh]
    rw [hstep]
    have hres := hwhl s' h1e
    cases hr : while_ tokens f s' with
    | fuelOut => rw [hr] at hres; intro hle; exact hres (by omega)
    | err er sf => rw [hr] at hres; exact ⟨by omega, hres.2⟩
    | ok st sf =>
      rw [hr] at hres
      have : s'.i + 1 ≤ sf.i := by simpa using hres.1
      exact ⟨by simp; omega, hres.2⟩
  | none =>
    cases hex : expression tokens f s with
    | fuelOut =>
      have hstep : statement tokens (f+1) s = .fuelOut := by
        simp only [statement_succ, hBr, hFo, hFu, hIf, hPr, hRe, hVa, hWh, hex]
      rw [hstep]
      intro hle
      have hres := hexp s hs
      rw [hex] at hres
      exact hres (by omega)
    | err er s' =>
      have hstep : statement tokens (f+1) s = .err er s' := by
        simp only [statement_succ, hBr, hFo, hFu, hIf, hPr, hRe, hVa, hWh, hex]
      rw [hstep]
      have hres := hexp s hs
      rw [hex] at hres
      exact hres
    | ok ex s' =>
      have hstep : statement tokens (f+1) s = .ok (.expression s.line ex) s' := by
        simp only [statement_succ, hBr, hFo, hFu, hIf, hPr, hRe, hVa, hWh, hex]
      rw [hstep]
      have hres := hexp s hs
      rw [hex] at hres
      have : s.i + 1 ≤ s'.i := by simpa using hres.1
      exact ⟨by simp; omega, hres.2⟩

theorem pok_zero {tokens : List Token} {e : Nat} {α : Type}
    {p : Nat → PState → PRes α} {r : Nat} {strict : Bool}
    (hp : ∀ s, p 0 s = .fuelOut) (hr : 1 ≤ r) : POk tokens e p r strict 0 := by
  intro s hs
  rw [hp]
  intro hle
  omega

/-- The combined safety invariant of every parser routine, for every fuel
level: each routine keeps the cursor between its start and the terminating
`Eof`, consumes at least one token on success (except `return_`), and can
only report fuel exhaustion when its fuel is below an explicit linear bound
in the remaining token count. -/
theorem parser_spec {tokens : List Token} {e : Nat} (hE : HasEofAt tokens e) :
    ∀ f,
      POk tokens e (primary tokens) 1 true f ∧
      POk tokens e (call tokens) 2 true f ∧
      POk tokens e (element tokens) 3 true f ∧
      POk tokens e (unary tokens) 4 true f ∧
      POk tokens e (mult_div_mod tokens) 5 true f ∧
      POk tokens e (add_sub tokens) 6 true f ∧
      POk tokens e (comparison tokens) 7 true f ∧
      POk tokens e (equality tokens) 8 true f ∧
      POk tokens e (and_ tokens) 9 true f ∧
      POk tokens e (or_ tokens) 10 true f ∧
      POk tokens e (assignment tokens) 11 true f ∧
      POk tokens e (expression tokens) 12 true f ∧
      POk tokens e (statement tokens) 14 true f ∧
      POk tokens e (block tokens) 13 true f ∧
      POk tokens e (for_ tokens) 13 true f ∧
      POk tokens e (function tokens) 13 true f ∧
      POk tokens e (if_ tokens) 13 true f ∧
      POk tokens e (else_body tokens) 15 true f ∧
      POk tokens e (print tokens) 13 true f ∧
      POk tokens e (return_ tokens) 13 false f ∧
      POk tokens e (var tokens) 13 true f ∧
      POk tokens e (while_ tokens) 13 true f := by
  intro f
  induction f with
  | zero =>
    exact ⟨pok_zero (primary_zero tokens) (by omega),
      pok_zero (call_zero tokens) (by omega),
      pok_zero (element_zero tokens) (by omega),
      pok_zero (unary_zero tokens) (by omega),
      pok_zero (mult_div_mod_zero tokens) (by omega),
      pok_zero (add_sub_zero tokens) (by omega),
      pok_zero (comparison_zero tokens) (by omega),
      pok_zero (equality_zero tokens) (by omega),
      pok_zero (and_zero tokens) (by omega),
      pok_zero (or_zero tokens) (by omega),
      pok_zero (assignment_zero tokens) (by omega),
      pok_zero (expression_zero tokens) (by omega),
      pok_zero (statement_zero tokens) (by omega),
      pok_zero (block_zero tokens) (by omega),
      pok_zero (for_zero tokens) (by omega),
      pok_zero (function_zero tokens) (by omega),
      pok_zero (if_zero tokens) (by omega),
      pok_zero (else_body_zero tokens) (by omega),
      pok_zero (print_zero tokens) (by omega),
      pok_zero (return_zero tokens) (by omega),
      pok_zero (var_zero tokens) (by omega),
      pok_zero (while_zero tokens) (by omega)⟩
  | succ f IH =>
    obtain ⟨hpr, hcl, hel, hun, hmd, has, hcp, heq, hand, hor, hasg, hexp,
      hst, hblk, hfor, hfun, hift, heb, hprn, hret, hvar, hwhl⟩ := IH
    exact ⟨primary_step hE hexp,
      call_step hE hpr hexp,
      element_step hE hcl hexp,
      unary_step hE hun hel,
      mult_div_mod_step hE hun,
      add_sub_step hE hmd,
      comparison_step hE has,
      equality_step hE hcp,
      and_step hE heq,
      or_step hE hand,
      assignment_step hE hor hasg,
      expression_step hasg,
      statement_step hE hfor hfun hift hprn hret hvar hwhl hexp,
      block_step hE hst,
      for_step hE hst hexp hblk,
      function_step hE hblk,
      if_step hE hexp hblk heb,
      else_body_step hE hift hblk,
      print_step hE hexp,
      return_step hE hexp,
      var_step hE hexp,
      while_step hE hexp hblk⟩

theorem check_next_congr {tokens : List Token} {ts : List TokenType}
    {s s' : PState} (h : s.i = s'.i) :
    check_next tokens ts s = check_next tokens ts s' := by
  unfold check_next
  rw [h]

/-- If `statement` fails without consuming any token, the offending token is
not one of the statement-start keywords: since every keyword branch of
parser.rs `statement` first consumes its keyword, a zero-progress error can
only come from the expression branch, whose first token is not in
`syncSet` (given it is not `Eof` either, by the caller's loop condition). -/
theorem statement_err_stuck {tokens : List Token} {e : Nat}
    (hE : HasEofAt tokens e) {f : Nat} {s : PState} {er : ErrorType}
    {s_e : PState} (hs : s.i ≤ e)
    (hne : check_next tokens [.Eof] s = false)
    (h : statement tokens f s = .err er s_e) (hidx : s_e.i = s.i) :
    check_next tokens syncSet s = false := by
  have hlen : e < tokens.length := hasEofAt_lt_length hE
  have hsome : ∃ t, tokens[s.i]? = some t := by
    have : s.i < tokens.length := by omega
    exact ⟨tokens[s.i], List.getElem?_eq_getElem this⟩
  obtain ⟨t, ht⟩ := hsome
  have htne : t.type_ ≠ .Eof := by
    intro hx
    have hcx : check_next tokens [TokenType.Eof] s = true :=
      check_next_iff.mpr ⟨t, ht, by rw [hx]; simp⟩
    rw [hcx] at hne
    exact Bool.noConfusion hne
  cases f with
  | zero => rw [statement_zero] at h; exact PRes.noConfusion h
  | succ f =>
    obtain ⟨-, -, -, -, -, -, -, -, -, -, -, -, hst, hblk, hfor, hfun, hift,
      heb, hprn, hret, hvar, hwhl⟩ := parser_spec hE f
    have hkw : ∀ (K : TokenType),
        (∀ (t2 : Token) (s' : PState), check_and_consume tokens [K] s = some (t2, s') →
          s'.i = s.i + 1) := by
      intro K t2 s' hc
      exact (cac_some hc).2.2 ▸ rfl
    -- rule out each keyword branch by progress
    have hbranch : ∀ (q : POk tokens e (fun fz => fun sz => statement tokens fz sz) 14 true f), True := fun _ => trivial
    have hBr : check_and_consume tokens [.Break] s = none := by
      cases hc : check_and_consume tokens [.Break] s with
      | none => rfl
      | some p =>
        obtain ⟨t2, s'⟩ := p
        have hstep : statement tokens (f+1) s = .ok (.break_ s'.line) s' := by
          simp only [statement_succ, hc]
        rw [hstep] at h
        exact PRes.noConfusion h
    have hFo : check_and_consume tokens [.For] s = none := by
      cases hc : check_and_consume tokens [.For] s with
      | none => rfl
      | some p =>
        obtain ⟨t2, s'⟩ := p
        obtain ⟨-, h1i, h1e⟩ := cac_bounds hE (by decide) hs hc
        have hstep : statement tokens (f+1) s = for_ tokens f s' := by
          simp only [statement_succ, hBr, hc]
        rw [hstep] at h
        have hres := hfor s' h1e
        rw [h] at hres
        omega
    have hFu : check_and_consume tokens [.Func] s = none := by
      cases hc : check_and_consume tokens [.Func] s with
      | none => rfl
      | some p =>
        obtain ⟨t2, s'⟩ := p
        obtain ⟨-, h1i, h1e⟩ := cac_bounds hE (by decide) hs hc
        have hstep : statement tokens (f+1) s = function tokens f s' := by
          simp only [statement_succ, hBr, hFo, hc]
        rw [hstep] at h
        have hres := hfun s' h1e
        rw [h] at hres
        omega
    have hIf : check_and_consume tokens [.If] s = none := by
      cases hc : check_and_consume tokens [.If] s with
      | none => rfl
      | some p =>
        obtain ⟨t2, s'⟩ := p
        obtain ⟨-, h1i, h1e⟩ := cac_bounds hE (by decide) hs hc
        have hstep : statement tokens (f+1) s = if_ tokens f s' := by
          simp only [statement_succ, hBr, hFo, hFu, hc]
        rw [hstep] at h
        have hres := hift s' h1e
        rw [h] at hres
        omega
    have hPr : check_and_consume tokens [.Print] s = none := by
      cases hc : check_and_consume tokens [.Print] s with
      | none => rfl
      | some p =>
        obtain ⟨t2, s'⟩ := p
        obtain ⟨-, h1i, h1e⟩ := cac_bounds hE (by decide) hs hc
        have hstep : statement tokens (f+1) s = print tokens f s' := by
          simp only [statement_succ, hBr, hFo, hFu, hIf, hc]
        rw [hstep] at h
        have hres := hprn s' h1e
        rw [h] at hres
        omega
    have hRe : check_and_consume tokens [.Return] s = none := by
      cases hc : check_and_consume tokens [.Return] s with
      | none => rfl
      | some p =>
        obtain ⟨t2, s'⟩ := p
        obtain ⟨-, h1i, h1e⟩ := cac_bounds hE (by decide) hs hc
        have hstep : statement tokens (f+1) s = return_ tokens f s' := by
          simp only [statement_succ, hBr, hFo, hFu, hIf, hPr, hc]
        rw [hstep] at h
        have hres := hret s' h1e
        rw [h] at hres
        omega
    have hVa : check_and_consume tokens [.Var] s = none := by
      cases hc : check_and_consume tokens [.Var] s with
      | none => rfl
      | some p =>
        obtain ⟨t2, s'⟩ := p
        obtain ⟨-, h1i, h1e⟩ := cac_bounds hE (by decide) hs hc
        have hstep : statement tokens (f+1) s = var tokens f s' := by
          simp only [statement_succ, hBr, hFo, hFu, hIf, hPr, hRe, hc]
        rw [hstep] at h
        have hres := hvar s' h1e
        rw [h] at hres
        omega
    have hWh : check_and_consume tokens [.While] s = none := by
      cases hc : check_and_consume tokens [.While] s with
      | none => rfl
      | some p =>
        obtain ⟨t2, s'⟩ := p
        obtain ⟨-, h1i, h1e⟩ := cac_bounds hE (by decide) hs hc
        have hstep : statement tokens (f+1) s = while_ tokens f s' := by
          simp only [statement_succ, hBr, hFo, hFu, hIf, hPr, hRe, hVa, hc]
        rw [hstep] at h
        have hres := hwhl s' h1e
        rw [h] at hres
        omega
    have hnotFo := cac_none hFo ht
    have hnotFu := cac_none hFu ht
    have hnotIf := cac_none hIf ht
    have hnotPr := cac_none hPr ht
    have hnotRe := cac_none hRe ht
    have hnotVa := cac_none hVa ht
    have hnotWh := cac_none hWh ht
    unfold check_next
    rw [ht]
    simp only [syncSet]
    simp at hnotFo hnotFu hnotIf hnotPr hnotRe hnotVa hnotWh
    simp [htne, hnotFo, hnotFu, hnotIf, hnotPr, hnotRe, hnotVa, hnotWh]

/-- If `sync` starts on a token outside `syncSet`, it advances the cursor
by at least one position before stopping. -/
theorem sync_progress {tokens : List Token} {e : Nat} (hE : HasEofAt tokens e)
    {f : Nat} {s s₂ : PState} (hs : s.i ≤ e)
    (hcn : check_next tokens syncSet s = false)
    (h : sync tokens f s = .ok s₂) : s.i + 1 ≤ s₂.i := by
  have hlen : e < tokens.length := hasEofAt_lt_length hE
  cases f with
  | zero => simp [sync] at h
  | succ f =>
    have hcn' : ¬ check_next tokens syncSet s = true := by simp [hcn]
    have hsome : ∃ t, tokens[s.i]? = some t := by
      have : s.i < tokens.length := by omega
      exact ⟨tokens[s.i], List.getElem?_eq_getElem this⟩
    obtain ⟨t, ht⟩ := hsome
    have htne : t.type_ ≠ .Eof := by
      intro hx
      exact hcn' (check_next_iff.mpr ⟨t, ht, by rw [hx]; simp [syncSet]⟩)
    have hslt : s.i < e := by
      obtain ⟨tE, htE, htEty⟩ := hE
      have : s.i ≠ e := by
        intro heq
        rw [heq, htE] at ht
        cases ht
        exact htne htEty
      omega
    have hnext : ∃ u, tokens[s.i + 1]? = some u := by
      have : s.i + 1 < tokens.length := by omega
      exact ⟨tokens[s.i + 1], List.getElem?_eq_getElem this⟩
    obtain ⟨u, hu⟩ := hnext
    have hstep : sync tokens (f+1) s = sync tokens f ⟨s.i + 1, u.line⟩ := by
      simp [sync, hcn', hu]
    rw [hstep] at h
    have hq := (sync_spec hE f ⟨s.i + 1, u.line⟩ (by simpa using hslt)).2.1 s₂ h
    exact hq.1

/-- The statement loop of `parse` is safe: with an `Eof` terminator it never
panics, runs out of fuel only below an explicit bound, and returns a
non-empty error list whenever it returns errors. -/
theorem parseDriver_spec {tokens : List Token} {e : Nat} (hE : HasEofAt tokens e) :
    ∀ f, DOk tokens e f := by
  have hlen : e < tokens.length := hasEofAt_lt_length hE
  intro f
  induction f with
  | zero =>
    intro s sts errs hs
    rw [parseDriver_zero]
    intro hle
    omega
  | succ f IH =>
    intro s sts errs hs
    by_cases hcn : check_next tokens [.Eof] s = true
    · have hstep : parseDriver tokens (f+1) s sts errs =
          if errs.isEmpty then .stmts sts else .errs errs := by
        simp only [parseDriver_succ, hcn, if_true]
      rw [hstep]
      by_cases hemp : errs.isEmpty
      · rw [if_pos hemp]
        trivial
      · rw [if_neg hemp]
        simpa [List.isEmpty_iff] using hemp
    · have hlt : s.i < e := by
        have hsome : ∃ t, tokens[s.i]? = some t := by
          have : s.i < tokens.length := by omega
          exact ⟨tokens[s.i], List.getElem?_eq_getElem this⟩
        obtain ⟨t, ht⟩ := hsome
        have htne : t.type_ ≠ .Eof := by
          intro hx
          exact hcn (check_next_iff.mpr ⟨t, ht, by rw [hx]; simp⟩)
        obtain ⟨tE, htE, htEty⟩ := hE
        have : s.i ≠ e := by
          intro heq
          rw [heq, htE] at ht
          cases ht
          exact htne htEty
        omega
      obtain ⟨-, -, -, -, -, -, -, -, -, -, -, -, hst, -⟩ := parser_spec hE f
      have hcnf : ¬ check_next tokens [.Eof] s = true := hcn
      cases hsi : statement tokens f s with
      | fuelOut =>
        have hstep : parseDriver tokens (f+1) s sts errs = .fuelOut := by
          simp [parseDriver_succ, hcnf, hsi]
        rw [hstep]
        intro hle
        have hres := hst s hs
        rw [hsi] at hres
        exact hres (by omega)
      | ok st s₁ =>
        have hres := hst s hs
        rw [hsi] at hres
        have h1i : s.i + 1 ≤ s₁.i := by simpa using hres.1
        have h1e : s₁.i ≤ e := hres.2
        have hstep : parseDriver tokens (f+1) s sts errs =
            parseDriver tokens f s₁ (sts ++ [st]) errs := by
          simp [parseDriver_succ, hcnf, hsi]
        rw [hstep]
        have hrec := IH s₁ (sts ++ [st]) errs h1e
        cases hd : parseDriver tokens f s₁ (sts ++ [st]) errs with
        | fuelOut =>
          rw [hd] at hrec
          intro hle
          exact hrec (by omega)
        | panicked => rw [hd] at hrec; exact hrec
        | errs es => rw [hd] at hrec; exact hrec
        | stmts out => trivial
      | err er s_e =>
        have hres := hst s hs
        rw [hsi] at hres
        have hei : s.i ≤ s_e.i := hres.1
        have hee : s_e.i ≤ e := hres.2
        obtain ⟨hsnp, hsok, hsnf⟩ := sync_spec hE f s_e hee
        cases hsy : sync tokens f s_e with
        | fuelOut =>
          have hstep : parseDriver tokens (f+1) s sts errs = .fuelOut := by
            simp [parseDriver_succ, hcnf, hsi, hsy]
          rw [hstep]
          intro hle
          exact (hsnf (by omega)) hsy
        | panicked =>
          have hstep : parseDriver tokens (f+1) s sts errs = .panicked := by
            simp [parseDriver_succ, hcnf, hsi, hsy]
          rw [hstep]
          exact hsnp hsy
        | ok s₂ =>
          obtain ⟨h2i, h2e, h2cn⟩ := hsok s₂ hsy
          have hprog : s.i + 1 ≤ s₂.i := by
            by_cases hgt : s.i + 1 ≤ s_e.i
            · omega
            · have hidx : s_e.i = s.i := by omega
              have hstuck := statement_err_stuck hE hs
                (by simpa using hcn) hsi hidx
              have hstuck2 : check_next tokens syncSet s_e = false := by
                rw [check_next_congr hidx]
                exact hstuck
              have := sync_progress hE hee hstuck2 hsy
              omega
          have hstep : parseDriver tokens (f+1) s sts errs =
              parseDriver tokens f s₂ sts (errs ++ [er]) := by
            simp [parseDriver_succ, hcnf, hsi, hsy]
          rw [hstep]
          have hrec := IH s₂ sts (errs ++ [er]) h2e
          cases hd : parseDriver tokens f s₂ sts (errs ++ [er]) with
          | fuelOut =>
            rw [hd] at hrec
            intro hle
            exact hrec (by omega)
          | panicked => rw [hd] at hrec; exact hrec
          | errs es => rw [hd] at hrec; exact hrec
          | stmts out => trivial

/-- With an `Eof`-terminated token vector and fuel at least `parseFuel`,
`parse` neither panics nor runs out of fuel, and it returns either a
statement list or a non-empty error list. -/
theorem parse_safe {tokens : List Token} {e : Nat} (hE : HasEofAt tokens e)
    {fuel : Nat} (hf : parseFuel tokens ≤ fuel) :
    parse tokens fuel ≠ .panicked ∧ parse tokens fuel ≠ .fuelOut ∧
    ((∃ sts, parse tokens fuel = .stmts sts) ∨
     (∃ es, parse tokens fuel = .errs es ∧ es ≠ [])) := by
  have hD := parseDriver_spec hE fuel ⟨0, 1⟩ [] [] (Nat.zero_le e)
  have hp : parse tokens fuel = parseDriver tokens fuel ⟨0, 1⟩ [] [] := rfl
  rw [hp]
  cases hd : parseDriver tokens fuel ⟨0, 1⟩ [] [] with
  | fuelOut =>
    rw [hd] at hD
    exfalso
    apply hD
    unfold parseFuel at hf
    omega
  | panicked =>
    rw [hd] at hD
    exact hD.elim
  | errs es =>
    rw [hd] at hD
    exact ⟨by simp, by simp, Or.inr ⟨es, rfl, hD⟩⟩
  | stmts sts =>
    exact ⟨by simp, by simp, Or.inl ⟨sts, rfl⟩⟩

/-- At or past the end of the token vector, `check_and_consume` returns
`None` rather than panicking. -/
theorem cac_at_end {tokens : List Token} (ts : List TokenType) {s : PState}
    (h : tokens.length ≤ s.i) : check_and_consume tokens ts s = none := by
  unfold check_and_consume
  rw [List.getElem?_eq_none h]

/-- At or past the end of the token vector, `check_next` returns `false`
rather than panicking. -/
theorem check_next_at_end {tokens : List Token} (ts : List TokenType)
    {s : PState} (h : tokens.length ≤ s.i) : check_next tokens ts s = false := by
  unfold check_next
  rw [List.getElem?_eq_none h]

/-- A successful parser.rs `block` always returns a `Block` statement. -/
theorem block_ok_shape {tokens : List Token} {f : Nat} {s : PState}
    {st : Stmt} {s' : PState} (h : block tokens f s = .ok st s') :
    ∃ l body, st = .block l body := by
  cases f with
  | zero => rw [block_zero] at h; exact PRes.noConfusion h
  | succ f =>
    rw [block_succ] at h
    split at h
    · exact PRes.noConfusion h
    · exact PRes.noConfusion h
    · split at h
      · exact PRes.noConfusion h
      · exact PRes.noConfusion h
      · split at h
        · exact PRes.noConfusion h
        · exact PRes.noConfusion h
        · rename_i body s₂ u s₃
          obtain ⟨h1, h2⟩ := PRes.ok.inj h
          exact ⟨_, _, h1.symm⟩

/-- A successful parser.rs `for_` desugars to a `While` whose body is a
block holding the original body block (and the increment, when present);
an initialiser wraps this in one more block, and without one the bare
`While` is returned. -/
theorem for_ok_shape {tokens : List Token} {f : Nat} {s : PState}
    {st : Stmt} {s' : PState} (h : for_ tokens f s = .ok st s') :
    ∃ lw c lb fb rest,
      isBlockStmt fb = true ∧
      (rest = [] ∨ ∃ inc, rest = [inc]) ∧
      (st = .while_ lw c (.block lb (fb :: rest)) ∨
       ∃ lo init, st = .block lo [init, .while_ lw c (.block lb (fb :: rest))]) := by
  cases f with
  | zero => rw [for_zero] at h; exact PRes.noConfusion h
  | succ f =>
    rw [for_succ] at h
    split at h
    · exact PRes.noConfusion h
    · exact PRes.noConfusion h
    · split at h
      · exact PRes.noConfusion h
      · exact PRes.noConfusion h
      · split at h
        · exact PRes.noConfusion h
        · split at h
          · exact PRes.noConfusion h
          · exact PRes.noConfusion h
          · split at h
            · exact PRes.noConfusion h
            · split at h
              · exact PRes.noConfusion h
              · exact PRes.noConfusion h
              · split at h
                · exact PRes.noConfusion h
                · split at h
                  · exact PRes.noConfusion h
                  · exact PRes.noConfusion h
                  · obtain ⟨lb, body, hbs⟩ := block_ok_shape (by assumption)
                    subst hbs
                    simp only [] at h
                    split at h
                    · split at h
                      · obtain ⟨h1, h2⟩ := PRes.ok.inj h
                        refine ⟨_, _, _, Stmt.block lb body, [], rfl,
                          Or.inl rfl, Or.inr ⟨_, _, h1.symm⟩⟩
                      · obtain ⟨h1, h2⟩ := PRes.ok.inj h
                        refine ⟨_, _, _, Stmt.block lb body, _, rfl, ?_,
                          Or.inr ⟨_, _, h1.symm⟩⟩
                        exact Or.inr ⟨_, rfl⟩
                    · split at h
                      · obtain ⟨h1, h2⟩ := PRes.ok.inj h
                        refine ⟨_, _, _, Stmt.block lb body, [], rfl,
                          Or.inl rfl, Or.inl h1.symm⟩
                      · obtain ⟨h1, h2⟩ := PRes.ok.inj h
                        refine ⟨_, _, _, Stmt.block lb body, _, rfl, ?_,
                          Or.inl h1.symm⟩
                        exact Or.inr ⟨_, rfl⟩

/-- When the token after the `(` is a semicolon (no initialiser), a
successful `for_` returns a bare `While` statement, not wrapped in a block. -/
theorem for_no_init_while {tokens : List Token} {f : Nat} {s : PState}
    {st : Stmt} {s' : PState}
    (hsemi : ∃ t, tokens[s.i + 1]? = some t ∧ t.type_ = .Semicolon)
    (h : for_ tokens f s = .ok st s') :
    ∃ l c b, st = .while_ l c b := by
  cases f with
  | zero => rw [for_zero] at h; exact PRes.noConfusion h
  | succ f =>
    rw [for_succ] at h
    cases hexp : expect tokens .LeftParen '(' s with
    | fuelOut => rw [hexp] at h; exact PRes.noConfusion h
    | err er s₁ => rw [hexp] at h; exact PRes.noConfusion h
    | ok u s₁ =>
      rw [hexp] at h
      simp only [] at h
      obtain ⟨tp, htp, htpty, hs₁⟩ := expect_ok hexp
      have hcn : check_next tokens [.Semicolon] s₁ = true := by
        rw [check_next_iff]
        obtain ⟨t, ht, hty⟩ := hsemi
        refine ⟨t, ?_, by simp [hty]⟩
        rw [hs₁]
        exact ht
      rw [if_pos hcn] at h
      simp only [] at h
      repeat' split at h
      all_goals first
        | exact PRes.noConfusion h
        | (obtain ⟨h1, h2⟩ := PRes.ok.inj h; exact ⟨_, _, _, h1.symm⟩)

/-- `toString` on a string is the string itself. -/
theorem toString_str (s : String) : toString s = s := rfl

/-- Every error.rs variant that records a source line is printed by
`print_report` as a line starting with the tag `Line <n>:`. -/
theorem lineTagged_print_report (er : ErrorType) (n : Nat)
    (h : errorLine er = some n) : LineTagged n (print_report er) := by
  cases er with
  | UnexpectedCharacter c l =>
      obtain rfl : l = n := by simpa [errorLine] using h
      exact ⟨": unexpected character `" ++ toString c ++ "`.",
        by simp [print_report, String.append_assoc, toString_str]⟩
  | UnterminatedString => simp [errorLine] at h
  | ExpectedCharacter c l =>
      obtain rfl : l = n := by simpa [errorLine] using h
      exact ⟨": expected character `" ++ toString c ++ "`",
        by simp [print_report, String.append_assoc, toString_str]⟩
  | ExpectedExpression l =>
      obtain rfl : l = n := by simpa [errorLine] using h
      exact ⟨": expected expression.", by simp [print_report, String.append_assoc, toString_str]⟩
  | ExpectedFunctionName l =>
      obtain rfl : l = n := by simpa [errorLine] using h
      exact ⟨": expected function name. Make sure it is not a keyword.",
        by simp [print_report, String.append_assoc, toString_str]⟩
  | ExpectedParameterName l =>
      obtain rfl : l = n := by simpa [errorLine] using h
      exact ⟨": expected parameter name in function declaration.",
        by simp [print_report, String.append_assoc, toString_str]⟩
  | ExpectedVariableName l =>
      obtain rfl : l = n := by simpa [errorLine] using h
      exact ⟨": expected variable name. Make sure it is not a keyword.",
        by simp [print_report, String.append_assoc, toString_str]⟩
  | ExpectedSemicolonAfterInit l =>
      obtain rfl : l = n := by simpa [errorLine] using h
      exact ⟨": expected `;` after initialising statement in `for` loop.",
        by simp [print_report, String.append_assoc, toString_str]⟩
  | ExpectedSemicolonAfterCondition l =>
      obtain rfl : l = n := by simpa [errorLine] using h
      exact ⟨": expected `;` after condition in `for` loop.",
        by simp [print_report, String.append_assoc, toString_str]⟩
  | ExpectedParenAfterIncrement l =>
      obtain rfl : l = n := by simpa [errorLine] using h
      exact ⟨": expected `)` after increment statement in `for` loop.",
        by simp [print_report, String.append_assoc, toString_str]⟩
  | ExpectedColonAfterKey l =>
      obtain rfl : l = n := by simpa [errorLine] using h
      exact ⟨": expected colon after dictionary key.",
        by simp [print_report, String.append_assoc, toString_str]⟩
  | NameError name l =>
      obtain rfl : l = n := by simpa [errorLine] using h
      exact ⟨": `" ++ toString name ++ "` is not defined.",
        by simp [print_report, String.append_assoc, toString_str]⟩
  | NotIndexable l =>
      obtain rfl : l = n := by simpa [errorLine] using h
      exact ⟨": the value is not indexable.",
        by simp [print_report, String.append_assoc, toString_str]⟩
  | OutOfBoundsIndex idx l =>
      obtain rfl : l = n := by simpa [errorLine] using h
      exact ⟨": index `" ++ toString idx ++ "` is out of bounds.",
        by simp [print_report, String.append_assoc, toString_str]⟩
  | InsertNonStringIntoString l =>
      obtain rfl : l = n := by simpa [errorLine] using h
      exact ⟨": attempted to insert a non-string into a string.",
        by simp [print_report, String.append_assoc, toString_str]⟩
  | InvalidAssignmentTarget l =>
      obtain rfl : l = n := by simpa [errorLine] using h
      exact ⟨": invalid assignment target. Make sure you are not assigning to a literal.",
        by simp [print_report, String.append_assoc, toString_str]⟩
  | ExpectedType exp got l =>
      obtain rfl : l = n := by simpa [errorLine] using h
      exact ⟨": expected type " ++ toString exp ++ "; instead got type " ++
          toString got ++ ".",
        by simp [print_report, String.append_assoc, toString_str]⟩
  | NonNaturalIndex got l =>
      obtain rfl : l = n := by simpa [errorLine] using h
      exact ⟨": index evaluated to " ++ toString (valueDisplay got) ++
          ", which is not a positive integer.",
        by simp [print_report, String.append_assoc, toString_str]⟩
  | NonNumberIndex got l =>
      obtain rfl : l = n := by simpa [errorLine] using h
      exact ⟨": index evaluated to a " ++ toString got ++
          ", which is not a positive integer.",
        by simp [print_report, String.append_assoc, toString_str]⟩
  | BinaryTypeError exp gl gr l =>
      obtain rfl : l = n := by simpa [errorLine] using h
      exact ⟨": this operation requires both sides' types to be " ++ toString exp ++
          ". Instead, got " ++ toString gl ++ " and " ++ toString gr ++
          " respectively.",
        by simp [print_report, String.append_assoc, toString_str]⟩
  | DivideByZero l =>
      obtain rfl : l = n := by simpa [errorLine] using h
      exact ⟨": divisor is 0.", by simp [print_report, String.append_assoc, toString_str]⟩
  | IfConditionNotBoolean l =>
      obtain rfl : l = n := by simpa [errorLine] using h
      exact ⟨": the `if` condition did not evaluate to a Boolean value.",
        by simp [print_report, String.append_assoc, toString_str]⟩
  | LoopConditionNotBoolean l =>
      obtain rfl : l = n := by simpa [errorLine] using h
      exact ⟨": the condition of the loop did not evaluate to a Boolean value.",
        by simp [print_report, String.append_assoc, toString_str]⟩
  | CannotCallName l =>
      obtain rfl : l = n := by simpa [errorLine] using h
      exact ⟨": cannot call name as a function.",
        by simp [print_report, String.append_assoc, toString_str]⟩
  | ArgParamNumberMismatch a p l =>
      obtain rfl : l = n := by simpa [errorLine] using h
      exact ⟨": attempted to call function with " ++ toString a ++
          " argument(s), but function accepts " ++ toString p ++ ".",
        by simp [print_report, String.append_assoc, toString_str]⟩
  | CannotConvertToNumber l =>
      obtain rfl : l = n := by simpa [errorLine] using h
      exact ⟨": could not convert to a number.",
        by simp [print_report, String.append_assoc, toString_str]⟩
  | CannotHashFunction l =>
      obtain rfl : l = n := by simpa [errorLine] using h
      exact ⟨": cannot hash function (functions cannot be used as keys in dictionary entries).",
        by simp [print_report, String.append_assoc, toString_str]⟩
  | CannotHashDictionary l =>
      obtain rfl : l = n := by simpa [errorLine] using h
      exact ⟨": cannot hash dictionary (dictionaries cannot be used as keys in dictionary entries).",
        by simp [print_report, String.append_assoc, toString_str]⟩
  | KeyError k l =>
      obtain rfl : l = n := by simpa [errorLine] using h
      exact ⟨": key `" ++ toString (valueDisplay k) ++ "` does not exist in the dictionary.",
        by simp [print_report, String.append_assoc, toString_str]⟩
  | ThrownBreak l =>
      obtain rfl : l = n := by simpa [errorLine] using h
      exact ⟨": `break` has to be used within a loop.",
        by simp [print_report, String.append_assoc, toString_str]⟩
  | ThrownReturn v l =>
      obtain rfl : l = n := by simpa [errorLine] using h
      exact ⟨": `return` has to be used within a function.",
        by simp [print_report, String.append_assoc, toString_str]⟩

/-! ## The claims -/

/-- Claim C1 (corrected): for every Eof-terminated token sequence — the
shape the tokenizer always produces — and fuel at least `parseFuel`,
`Parser::parse` neither panics nor runs out of fuel, and returns either
the parsed statement sequence or a non-empty list of accumulated parse
errors.  As frozen, the claim quantifies over *every* token sequence;
without the terminating `Eof` the code can panic (see the
counterexample), so the Eof precondition is required. -/
theorem C1_parse_stmts_or_errors (tokens : List Token) (e fuel : Nat)
    (hE : HasEofAt tokens e) (hf : parseFuel tokens ≤ fuel) :
    parse tokens fuel ≠ .panicked ∧
    ((∃ sts, parse tokens fuel = .stmts sts) ∨
     (∃ es, parse tokens fuel = .errs es ∧ es ≠ [])) :=
  ⟨(parse_safe hE hf).1, (parse_safe hE hf).2.2⟩

/-- Witness for C1 at `forToks` (24 tokens, `parseFuel forToks = 832`). -/
theorem C1_witness :
    parse forToks 832 ≠ .panicked ∧
    ((∃ sts, parse forToks 832 = .stmts sts) ∨
     (∃ es, parse forToks 832 = .errs es ∧ es ≠ [])) :=
  C1_parse_stmts_or_errors forToks 23 832 ⟨tkn .Eof "" 1, rfl, rfl⟩ (by decide)

/-- Counterexample to C1 as frozen: on the one-token vector `[LeftParen]`
(no terminating `Eof`), the recovery path indexes
`self.tokens[self.current_index + 1]` out of bounds (parser.rs line 56)
and the process panics — `parse` returns neither statements nor errors. -/
theorem C1_counterexample : parse noEofToks 64 = .panicked := rfl

/-- Claim C2 (code bug in main.rs `run_file`, lines 33–35): invoking the
program on a file path only reads the file into an unused local binding —
`run_file` never lexes, parses, or evaluates the source, unlike the
per-line `run` pipeline of the interactive prompt, which starts with
lexing. -/
theorem C2_run_file_dead_end :
    (∀ source, run_file_steps source = [.readSource]) ∧
    (∀ source, PipelineStep.lexed ∉ run_file_steps source ∧
       PipelineStep.parsed ∉ run_file_steps source ∧
       PipelineStep.interpreted ∉ run_file_steps source) ∧
    (∀ tok fuel source, (run_steps tok fuel source).head? = some .lexed) ∧
    (∀ path, main_dispatch ["nea", path] = .runFile path) := by
  refine ⟨fun _ => rfl, fun _ => ?_, fun _ _ _ => rfl, fun _ => rfl⟩
  simp [run_file_steps]

/-- Claim C3 (corrected): every successfully parsed `for` desugars to
`While(cond, Block[Block[body], inc?])` with no dedicated `For` node, a
missing condition replaced by the literal `true` (`forNoCondToks`), and a
missing increment omitted; but the enclosing outer Block is produced only
when an initialiser is present — with no initialiser the result is the
bare `While`, not a `Block[While]` (see the counterexample). -/
theorem C3_for_desugars :
    (∀ tokens f s st s', for_ tokens f s = .ok st s' →
       ∃ lw c lb fb rest,
         isBlockStmt fb = true ∧
         (rest = [] ∨ ∃ inc, rest = [inc]) ∧
         (st = .while_ lw c (.block lb (fb :: rest)) ∨
          ∃ lo init, st = .block lo [init, .while_ lw c (.block lb (fb :: rest))])) ∧
    parse forToks 100 = .stmts [forParsed] ∧
    parse forNoCondToks 100 = .stmts [forNoCondParsed] :=
  ⟨fun _ _ _ _ _ h => for_ok_shape h, rfl, rfl⟩

/-- Witness instantiating C3's shape clause on the concrete run of `for_`
over `forToks`. -/
theorem C3_witness :
    ∃ lw c lb fb rest,
      isBlockStmt fb = true ∧
      (rest = [] ∨ ∃ inc, rest = [inc]) ∧
      (forParsed = .while_ lw c (.block lb (fb :: rest)) ∨
       ∃ lo init,
         forParsed = .block lo [init, .while_ lw c (.block lb (fb :: rest))]) :=
  C3_for_desugars.1 forToks 98 ⟨1, 1⟩ forParsed ⟨23, 1⟩ rfl

/-- Counterexample to C3 as frozen: with no initialiser the parse result
is the bare `While` — not a `Block` — so the claimed invariant shape
`Block[init?, While(...)]` does not hold for every `for`. -/
theorem C3_counterexample :
    parse forNoInitToks 100 = .stmts [forNoInitParsed] ∧
    isBlockStmt forNoInitParsed = false := ⟨rfl, rfl⟩

/-- Claim C4: assignment parses its left side as an `or`-expression and,
if `=` follows, recurses into `assignment` for the right-hand side, so
`a = b = 5` parses right-nested as `a = (b = 5)`; any expression is
accepted as the target (`5 = 3` parses without error — validity is
deferred to evaluation). -/
theorem C4_assignment_right_recursive :
    (∀ tokens f s ex s₁ t s₂ v s₃,
       or_ tokens f s = .ok ex s₁ →
       check_and_consume tokens [.Equal] s₁ = some (t, s₂) →
       assignment tokens f s₂ = .ok v s₃ →
       assignment tokens (f+1) s = .ok (.assignment s₃.line ex v) s₃) ∧
    parse chainAsgToks 100 = .stmts [chainAsgParsed] ∧
    parse litAsgToks 100 = .stmts [litAsgParsed] := by
  refine ⟨?_, rfl, rfl⟩
  intro tokens f s ex s₁ t s₂ v s₃ h1 h2 h3
  simp only [assignment_succ, h1, h2, h3]

/-- Witness instantiating C4's right-recursion clause on `a = b = 5`. -/
theorem C4_witness :
    assignment chainAsgToks 51 ⟨0, 1⟩ =
      .ok (.assignment 1 (.variable_ 1 "a")
        (.assignment 1 (.variable_ 1 "b") (.literal 1 (.number 5)))) ⟨5, 1⟩ :=
  C4_assignment_right_recursive.1 chainAsgToks 50 ⟨0, 1⟩ (.variable_ 1 "a")
    ⟨1, 1⟩ (tkn .Equal "=" 1) ⟨2, 1⟩
    (.assignment 1 (.variable_ 1 "b") (.literal 1 (.number 5))) ⟨5, 1⟩
    rfl rfl rfl

/-- Claim C5: after `return`, a valid expression yields a value-carrying
return; an `ExpectedExpression` failure is swallowed and the statement
parses as a no-value return; any other error kind from the return
expression propagates as a parse error (`return (5` fails with
`ExpectedCharacter ')'`). -/
theorem C5_return_swallows_expected_expression :
    (∀ tokens f s ex s', expression tokens f s = .ok ex s' →
       return_ tokens (f+1) s = .ok (.return_ s'.line (some ex)) s') ∧
    (∀ tokens f s l s',
       expression tokens f s = .err (.ExpectedExpression l) s' →
       return_ tokens (f+1) s = .ok (.return_ s'.line none) s') ∧
    (∀ tokens f s er s', expression tokens f s = .err er s' →
       isExpectedExpression er = false → return_ tokens (f+1) s = .err er s') ∧
    parse retNoneToks 100 = .stmts [retNoneParsed] ∧
    parse retBadToks 100 = .errs [.ExpectedCharacter ')' 1] :=
  ⟨fun _ _ _ _ _ h => return_succ_ok h,
   fun _ _ _ _ _ h => return_succ_swallow h,
   fun _ _ _ _ _ h hne => return_succ_propagate h hne, rfl, rfl⟩

/-- Witness instantiating C5's swallow clause inside `func f() { return }`:
the expression parse after `return` fails with `ExpectedExpression`, and
`return_` succeeds with a no-value return. -/
theorem C5_witness :
    return_ retNoneToks 51 ⟨6, 1⟩ = .ok (.return_ 1 none) ⟨6, 1⟩ :=
  C5_return_swallows_expected_expression.2.1 retNoneToks 50 ⟨6, 1⟩ 1 ⟨6, 1⟩ rfl

/-- Claim C6: on a statement-level parse error, `sync` never panics on
Eof-terminated input, only moves the cursor forward, and stops exactly on
a token of the recovery set `EOF, for, func, if, print, return, var,
while`; consequently `var 1` / `var 2` — two malformed statements
separated by the statement-start keyword `var` — yield two collected
errors, not one. -/
theorem C6_sync_recovery :
    (∀ tokens e, HasEofAt tokens e →
       ∀ f s, s.i ≤ e → e + 1 - s.i ≤ f →
         ∃ s', sync tokens f s = .ok s' ∧ s.i ≤ s'.i ∧ s'.i ≤ e ∧
           check_next tokens syncSet s' = true) ∧
    parse twoErrToks 100 =
      .errs [.ExpectedVariableName 1, .ExpectedVariableName 2] := by
  refine ⟨?_, rfl⟩
  intro tokens e hE f s hs hf
  obtain ⟨hnp, hok, hnf⟩ := sync_spec hE f s hs
  cases hy : sync tokens f s with
  | panicked => exact absurd hy hnp
  | fuelOut => exact absurd hy (hnf hf)
  | ok s' =>
      obtain ⟨h1, h2, h3⟩ := hok s' hy
      exact ⟨s', rfl, h1, h2, h3⟩

/-- Witness instantiating C6's recovery clause on `twoErrToks` from the
first error position. -/
theorem C6_witness :
    ∃ s', sync twoErrToks 10 ⟨1, 1⟩ = .ok s' ∧ 1 ≤ s'.i ∧ s'.i ≤ 4 ∧
      check_next twoErrToks syncSet s' = true :=
  C6_sync_recovery.1 twoErrToks 4 ⟨tkn .Eof "" 2, rfl, rfl⟩ 10 ⟨1, 1⟩
    (by decide) (by decide)

/-- Claim C7: `*`, `/`, `%` bind tighter than `+`, `-`, binary chains
fold left-associatively, and parenthesised groups override precedence:
`print 5*1+2*(3-4/a)` parses to
`Plus(Star(5, 1), Star(2, Grouping(Minus(3, Slash(4, a)))))`, and
`1 - 2 - 3` to `Minus(Minus(1, 2), 3)`. -/
theorem C7_precedence :
    parse printToks 100 = .stmts [printParsed] ∧
    parse subChainToks 100 = .stmts [subChainParsed] := ⟨rfl, rfl⟩

/-- Claim C8 (corrected): error reporting emits exactly one fixed banner
line plus one `print_report` line per collected error, in order, and
every error variant that records a source line is printed with the
`Line <n>:` tag; but `UnterminatedString` records no line at all, so its
report line carries no source line number (see the counterexample) — the
claim's "each such line carrying ... its source line number" fails for
it. -/
theorem C8_error_report_lines :
    (∀ errors, report_errors errors =
       "An error has occurred." :: errors.map print_report) ∧
    (∀ errors, (report_errors errors).length = errors.length + 1) ∧
    (∀ er n, errorLine er = some n → LineTagged n (print_report er)) :=
  ⟨fun _ => rfl, fun errors => by simp [report_errors],
   fun er n h => lineTagged_print_report er n h⟩

/-- Witness instantiating C8's line-tag clause at `ExpectedExpression 7`. -/
theorem C8_witness : LineTagged 7 (print_report (.ExpectedExpression 7)) :=
  C8_error_report_lines.2.2 (.ExpectedExpression 7) 7 rfl

/-- Counterexample to C8 as frozen: the `UnterminatedString` report line
contains no digit at all — no source line number is carried, because the
error.rs variant stores none. -/
theorem C8_counterexample :
    report_errors [.UnterminatedString] =
      ["An error has occurred.",
       "A string was never closed by the end of the program."] ∧
    errorLine .UnterminatedString = none ∧
    ((print_report .UnterminatedString).toList.all fun c => !c.isDigit) = true :=
  ⟨rfl, rfl, by decide⟩

/-- Claim C9: with the final token an `Eof` and fuel at least `parseFuel`
(which bounds the work of a full pass), `parse` terminates without a
panic — it never reads past the end of the vector — and at the end of
input `check_and_consume`/`check_next` return `none`/`false` rather than
panicking. -/
theorem C9_parse_in_bounds_terminates :
    (∀ tokens e fuel, HasEofAt tokens e → parseFuel tokens ≤ fuel →
       parse tokens fuel ≠ .panicked ∧ parse tokens fuel ≠ .fuelOut) ∧
    (∀ tokens (ts : List TokenType) (s : PState), tokens.length ≤ s.i →
       check_and_consume tokens ts s = none ∧ check_next tokens ts s = false) :=
  ⟨fun _ _ _ hE hf => ⟨(parse_safe hE hf).1, (parse_safe hE hf).2.1⟩,
   fun _ ts s hs => ⟨cac_at_end ts hs, check_next_at_end ts hs⟩⟩

/-- Witness instantiating C9's termination clause at `printToks`
(15 tokens, `parseFuel printToks = 544`). -/
theorem C9_witness :
    parse printToks 544 ≠ .panicked ∧ parse printToks 544 ≠ .fuelOut :=
  C9_parse_in_bounds_terminates.1 printToks 14 544 ⟨tkn .Eof "" 1, rfl, rfl⟩
    (by decide)

/-- Claim C10: when the token after the `(` of a `for` is `;` (no
initialiser), a successful parse yields the bare `While` statement —
the enclosing outer Block appears only with an initialiser present, as
`forToks` (which has one) shows. -/
theorem C10_no_init_bare_while :
    (∀ tokens f s st s',
       (∃ t, tokens[s.i + 1]? = some t ∧ t.type_ = .Semicolon) →
       for_ tokens f s = .ok st s' →
       ∃ l c b, st = .while_ l c b) ∧
    parse forNoInitToks 100 = .stmts [forNoInitParsed] ∧
    isBlockStmt forNoInitParsed = false ∧
    parse forToks 100 = .stmts [forParsed] ∧
    isBlockStmt forParsed = true :=
  ⟨fun _ _ _ _ _ hsemi h => for_no_init_while hsemi h, rfl, rfl, rfl, rfl⟩

/-- Witness instantiating C10's bare-While clause on the concrete run of
`for_` over `forNoInitToks`. -/
theorem C10_witness :
    ∃ l c b, forNoInitParsed = .while_ l c b :=
  C10_no_init_bare_while.1 forNoInitToks 98 ⟨1, 1⟩ forNoInitParsed ⟨19, 1⟩
    ⟨tkn .Semicolon ";" 1, rfl, rfl⟩ rfl

end Nea
